import Mathlib

/-!
Verification of the Paikin-Tal placement engine
(`paikin_tal_solver/solver.py`) and the multipuzzle segmentation
controller (`multipuzzle_solver/multipuzzle_solver.py`).

The Python source is shallowly embedded: every solver method becomes a
pure Lean function over an explicit `SState` record, Python exceptions
become `Except PyErr`, and the compatibility oracle
(`InterPieceDistance`, external to the core) is a record of functions.
Mutable class-level flags become fields of `Config`.  Floating point
compatibility scores are modelled as `Int` (the solver only ever
compares them).  The `numpy` occupancy matrix of each board carries the
dimension fixed at its creation (`len(self._pieces)`) and is read and
written with `numpy` index semantics: the location is normalised by the
dimension (`npLoc`), so a negative index aliases a cell at the far edge
exactly as `numpy` resolves it.  Indices outside `numpy`'s valid range
`[-n, n)` — where the source raises an uncaught `IndexError` and the
run dies — are wrapped as well (see `npWrap`); this deliberate
over-approximation only adds reachable states, so every run-invariant
proved below also covers every state the source can reach.
-/

namespace PT

/-- The four sides of a square puzzle piece (`PuzzlePieceSide`). -/
inductive Side where
  | top
  | right
  | bottom
  | left
deriving DecidableEq, Repr

/-- Modelled from the spec: `PuzzlePieceSide.get_all_sides()` (the class
itself lives in the external `hammoudeh_puzzle_solver.puzzle_piece`
module, not under `src/`); it enumerates the four sides in a fixed
order. -/
def Side.get_all_sides : List Side := [Side.top, Side.right, Side.bottom, Side.left]

/-- A grid location `(row, column)`. -/
abbrev Loc : Type := Int × Int

/-- Piece rotation in degrees (only 0 is used by the default type-1 puzzles). -/
abbrev Rot : Type := Nat

/-- A puzzle piece: stable id, rotation, assigned board and location
(`PuzzlePiece` attributes used by the solver). -/
structure Piece where
  id_number : Nat
  rotation : Rot
  puzzle_id : Option Nat
  location : Loc
deriving DecidableEq, Repr

instance : Inhabited Piece := ⟨⟨0, 0, none, (0, 0)⟩⟩

/-- Modelled from the spec: `PuzzlePiece.get_neighbor_locations_and_sides`
(external module): for each side of a placed piece, the adjacent board
cell together with the side of the piece facing that cell.  Rotation is
ignored (the default puzzle type never rotates pieces). -/
def neighborLocationsAndSides (loc : Loc) : List (Loc × Side) :=
  [((loc.1 - 1, loc.2), Side.top),
   ((loc.1, loc.2 + 1), Side.right),
   ((loc.1 + 1, loc.2), Side.bottom),
   ((loc.1, loc.2 - 1), Side.left)]

/-- Modelled from the spec: `PuzzlePiece.side_adjacent_to_location`
(external module): the side of the piece facing the given location. -/
def sideAdjacentToLocation (pieceLoc : Loc) (other : Loc) : Side :=
  match (neighborLocationsAndSides pieceLoc).find? (fun p => p.1 = other) with
  | some p => p.2
  | none => Side.top

/-- Entry of the best-buddy max-heap (`BestBuddyHeapInfo`). -/
structure HeapInfo where
  bb_id : Nat
  bb_side : Side
  neighbor_id : Nat
  neighbor_side : Side
  puzzle_id : Nat
  location : Loc
  mutual_compatibility : Int
deriving DecidableEq, Repr

instance : Inhabited HeapInfo := ⟨⟨0, Side.top, 0, Side.top, 0, (0, 0), 0⟩⟩

/-- An open slot (`PuzzleOpenSlot`): board, location, the placed
neighbor piece and the neighbor's side facing the slot. -/
structure OpenSlot where
  puzzle_id : Nat
  location : Loc
  piece_id : Nat
  open_side : Side
deriving DecidableEq, Repr

/-- Information on the next piece to place (`NextPieceToPlace`). -/
structure NextPieceToPlace where
  puzzle_id : Nat
  open_slot_location : Loc
  next_piece_id : Nat
  next_piece_side : Side
  neighbor_piece_id : Nat
  neighbor_piece_side : Side
  mutual_compatibility : Int
  is_best_buddy : Bool
deriving DecidableEq, Repr

/-- Modelled from the spec: per-board best-buddy accuracy counters
(`BestBuddyAccuracy` from the external `puzzle_importer` module): the
open / correct / wrong buckets hold `(piece id, side)` pairs, each
relation counted at most once. -/
structure BBAccuracy where
  puzzle_id : Nat
  open_bb : List (Nat × Side)
  correct_bb : List (Nat × Side)
  wrong_bb : List (Nat × Side)
deriving DecidableEq, Repr

instance : Inhabited BBAccuracy := ⟨⟨0, [], [], []⟩⟩

/-- Modelled from the spec: remove a relation from the open bucket if present. -/
def BBAccuracy.delete_open_best_buddy (a : BBAccuracy) (p : Nat) (s : Side) : BBAccuracy :=
  { a with open_bb := a.open_bb.erase (p, s) }

/-- Modelled from the spec: record a relation as correct (no double counting). -/
def BBAccuracy.add_correct_best_buddy (a : BBAccuracy) (p : Nat) (s : Side) : BBAccuracy :=
  if (p, s) ∈ a.correct_bb then a else { a with correct_bb := a.correct_bb ++ [(p, s)] }

/-- Modelled from the spec: record a relation as wrong (no double counting). -/
def BBAccuracy.add_wrong_best_buddy (a : BBAccuracy) (p : Nat) (s : Side) : BBAccuracy :=
  if (p, s) ∈ a.wrong_bb then a else { a with wrong_bb := a.wrong_bb ++ [(p, s)] }

/-- Modelled from the spec: record a relation as open / pending (no double counting). -/
def BBAccuracy.add_open_best_buddy (a : BBAccuracy) (p : Nat) (s : Side) : BBAccuracy :=
  if (p, s) ∈ a.open_bb then a else { a with open_bb := a.open_bb ++ [(p, s)] }

/-- Modelled from the spec: `PuzzleDimensions` (external module):
per-board bounding box, initialised to a single cell. -/
structure PuzzleDims where
  top_left : Loc
  bottom_right : Loc
deriving DecidableEq, Repr

instance : Inhabited PuzzleDims := ⟨⟨(0, 0), (0, 0)⟩⟩

/-- State of the compatibility oracle (`InterPieceDistance` instance):
best-buddy lookups, mutual compatibilities, seed selection and the
dataset-wide best-buddy total.  `placed_rotation` models the external
`PuzzlePiece.set_placed_piece_rotation` computation. -/
structure OracleState where
  best_buddies : Nat → Side → List (Nat × Side)
  mutual_compatibility : Nat → Side → Nat → Side → Int
  next_starting_piece : List Bool → Nat
  total_best_buddy_count : Nat
  placed_rotation : Side → Side → Rot → Rot

instance : Inhabited OracleState :=
  ⟨⟨fun _ _ => [], fun _ _ _ _ => 0, fun _ => 0, 0, fun _ _ r => r⟩⟩

/-- The oracle together with its two state-mutating entry points
(`recalculate_remaining_piece_compatibilities` and
`find_start_piece_candidates`). -/
structure Oracle where
  state0 : OracleState
  recalculate : List Bool → List Bool → OracleState → OracleState
  find_start_piece_candidates : List Bool → OracleState → OracleState

/-- Solver configuration: constructor arguments plus the class-level
flags of `PaikinTalSolver` (assertion checks, progress printing, heap
housekeeping thresholds) and the static
`InterPieceDistance.get_valid_neighbor_sides` table for the configured
puzzle type. -/
structure Config where
  actual_numb_puzzles : Nat
  new_board_mutual_compatibility : Int
  fixed_puzzle_dimensions : Option (Nat × Nat)
  perform_assertion_check : Bool
  print_progress : Bool
  clear_bb_heap_on_spawn : Bool
  enable_bb_heap_housekeeping : Bool
  minimum_clean_heap_size : Nat
  minimum_clean_heap_frequency : Nat
  valid_neighbor_sides : Side → List Side

/-- Python exceptions that the embedded code can raise.  `outOfFuel` is
an artefact of the fuelled loop embedding and is unreachable with
sufficient fuel. -/
inductive PyErr where
  | valueError
  | assertionError
  | keyError
  | indexError
  | attributeError (name : String)
  | typeError (msg : String)
  | outOfFuel
deriving DecidableEq, Repr

/-- `numpy` integer indexing on one axis of an array of size `n`: an
index `i` is valid iff `-n ≤ i < n`, and a valid negative index aliases
`i + n` (`arr[-1]` reads the last row).  `Int.emod` agrees with that
aliasing on the whole valid range (`npWrap_matches_numpy` below).  An
index outside the valid range raises an uncaught `IndexError` in the
source, killing the run; this total model wraps it instead, so every
state the source reaches before such a raise is also reached here, and
the run-invariants proved below cover all source-reachable states. -/
def npWrap (n : Nat) (i : Int) : Int := i % (n : Int)

/-- Validity of a location as a `numpy` index pair into the `n`-by-`n`
board matrix: exactly the accesses the source performs without raising
`IndexError`. -/
def npInBounds (n : Nat) (l : Loc) : Bool :=
  decide (-(n : Int) ≤ l.1) && decide (l.1 < (n : Int)) &&
    decide (-(n : Int) ≤ l.2) && decide (l.2 < (n : Int))

/-- The matrix cell a location denotes under `numpy` indexing. -/
def npLoc (n : Nat) (l : Loc) : Loc := (npWrap n l.1, npWrap n l.2)

/-- Per-board occupancy matrix (one `numpy` matrix of
`_piece_locations`): the dimension fixed at board creation
(`len(self._pieces)`, see `_place_seed_piece`) together with the
assignment history, keyed by the normalised (`npLoc`) cell; cells never
written hold `-1` (the matrix is created filled with
`_UNPLACED_PIECE_ID`). -/
structure Grid where
  dim : Nat
  entries : List (Loc × Int)
deriving DecidableEq, Repr

instance : Inhabited Grid := ⟨⟨0, []⟩⟩

/-- Read one cell of an occupancy matrix (`numpy` read: the location is
normalised by the matrix dimension, so `(-1, c)` reads row `n - 1`). -/
def gridGet (g : Grid) (l : Loc) : Int :=
  match g.entries.find? (fun p => p.1 = npLoc g.dim l) with
  | some p => p.2
  | none => (-1 : Int)

/-- The full mutable state of a `PaikinTalSolver` instance. -/
structure SState where
  pieces : List Piece
  piece_placed : List Bool
  numb_unplaced_pieces : Nat
  open_locations : List OpenSlot
  piece_locations : List Grid
  best_buddy_accuracy : List BBAccuracy
  placed_puzzle_dimensions : List PuzzleDims
  best_buddies_pool : List Nat
  best_buddy_open_slot_heap : List HeapInfo
  numb_puzzles : Nat
  last_best_buddy_heap_housekeeping : Nat
  ods : OracleState

instance : Inhabited SState :=
  ⟨⟨[], [], 0, [], [], [], [], [], [], 0, 0, default⟩⟩

/-- `_UNPLACED_PIECE_ID`. -/
def UNPLACED_PIECE_ID : Int := -1

/-- Occupancy lookup `self._piece_locations[puzzle_id][location]`
(`numpy` read, wrapping the location as documented at `npWrap`). -/
def occAt (st : SState) (puzzle_id : Nat) (loc : Loc) : Int :=
  gridGet (st.piece_locations.getD puzzle_id default) loc

/-- Occupancy write `self._piece_locations[puzzle_id][location] = v`
(`numpy` write: the stored key is the normalised cell, so an assignment
at `(-1, c)` lands on row `n - 1`). -/
def setOcc (st : SState) (puzzle_id : Nat) (loc : Loc) (v : Int) : SState :=
  let g0 : Grid := st.piece_locations.getD puzzle_id default
  let g : Grid := ⟨g0.dim, (npLoc g0.dim loc, v) :: g0.entries⟩
  { st with piece_locations := st.piece_locations.set puzzle_id g }

/-- `self._piece_placed[piece_id]`. -/
def placedAt (st : SState) (piece_id : Nat) : Bool :=
  st.piece_placed.getD piece_id false

/-! ### The Python 2 `heapq` module, specialised to `BestBuddyHeapInfo`

`BestBuddyHeapInfo.__cmp__` reverses the comparison
(`cmp(other.mutual_compatibility, self.mutual_compatibility)`), so
`heapq`'s `x < y` test becomes
`y.mutual_compatibility < x.mutual_compatibility`, producing a maximum
heap on mutual compatibility. -/

/-- `heapq.cmp_lt` under the reversed `__cmp__`: `x` sorts before `y`
iff `x` has the strictly larger mutual compatibility. -/
def hlt (a b : HeapInfo) : Bool := b.mutual_compatibility < a.mutual_compatibility

/-- `heapq._siftdown(heap, startpos, pos)` with `newitem = heap[pos]`:
bubble `newitem` up towards `startpos` while it sorts before its parent. -/
def siftdownAux (heap : List HeapInfo) (startpos pos : Nat) (newitem : HeapInfo) :
    List HeapInfo :=
  if _h : startpos < pos then
    if hlt newitem (heap.getD ((pos - 1) / 2) default) then
      siftdownAux (heap.set pos (heap.getD ((pos - 1) / 2) default)) startpos ((pos - 1) / 2) newitem
    else
      heap.set pos newitem
  else
    heap.set pos newitem
termination_by pos
decreasing_by simp_wf; omega

/-- `heapq._siftup(heap, pos)` with `newitem = heap[pos]`, `startpos = pos`
and `endpos = len(heap)`: move the hole at `pos` down along the
smaller-child (here: larger-compatibility) path to a leaf, then sift the
new item back down towards `startpos`. -/
def siftupAux (heap : List HeapInfo) (startpos pos : Nat) (newitem : HeapInfo)
    (endpos : Nat) : List HeapInfo :=
  if _h : 2 * pos + 1 < endpos then
    if _h2 : 2 * pos + 2 < endpos ∧
        ¬ hlt (heap.getD (2 * pos + 1) default) (heap.getD (2 * pos + 2) default) then
      siftupAux (heap.set pos (heap.getD (2 * pos + 2) default)) startpos (2 * pos + 2) newitem endpos
    else
      siftupAux (heap.set pos (heap.getD (2 * pos + 1) default)) startpos (2 * pos + 1) newitem endpos
  else
    siftdownAux (heap.set pos newitem) startpos pos newitem
termination_by endpos - pos
decreasing_by all_goals (simp_wf; omega)

/-- `heapq.heappush`. -/
def heappush (heap : List HeapInfo) (item : HeapInfo) : List HeapInfo :=
  siftdownAux (heap ++ [item]) 0 heap.length item

/-- `heapq.heappop`: raises `IndexError` on an empty heap. -/
def heappop (heap : List HeapInfo) : Except PyErr (HeapInfo × List HeapInfo) :=
  match heap with
  | [] => Except.error PyErr.indexError
  | x :: xs =>
    let lastelt := (x :: xs).getLast (List.cons_ne_nil x xs)
    let rest := (x :: xs).dropLast
    if rest.isEmpty then Except.ok (lastelt, [])
    else Except.ok (rest.headD default, siftupAux (rest.set 0 lastelt) 0 0 lastelt rest.length)

/-- `heapq.heapify` loop: `_siftup(x, i)` for `i = k-1, ..., 0`. -/
def heapifyAux (heap : List HeapInfo) : Nat → List HeapInfo
  | 0 => heap
  | i + 1 => heapifyAux (siftupAux heap i i (heap.getD i default) heap.length) i

/-- `heapq.heapify`. -/
def heapify (heap : List HeapInfo) : List HeapInfo :=
  heapifyAux heap (heap.length / 2)

theorem length_siftdownAux (pos : Nat) :
    ∀ (heap : List HeapInfo) (startpos : Nat) (newitem : HeapInfo),
    (siftdownAux heap startpos pos newitem).length = heap.length := by
  induction pos using Nat.strong_induction_on with
  | _ pos ih =>
    intro heap startpos newitem
    rw [siftdownAux]
    split
    · next h =>
      split
      · next hc => rw [ih _ (by omega)]; simp
      · simp
    · simp

theorem length_siftupAux_bounded (m : Nat) :
    ∀ (heap : List HeapInfo) (startpos pos : Nat) (newitem : HeapInfo) (endpos : Nat),
    endpos - pos ≤ m →
    (siftupAux heap startpos pos newitem endpos).length = heap.length := by
  induction m with
  | zero =>
    intro heap startpos pos newitem endpos hm
    rw [siftupAux]
    split
    · next h => omega
    · rw [length_siftdownAux]; simp
  | succ m ih =>
    intro heap startpos pos newitem endpos hm
    rw [siftupAux]
    split
    · next h =>
      split
      · next h2 => rw [ih _ _ _ _ _ (by omega)]; simp
      · next h2 => rw [ih _ _ _ _ _ (by omega)]; simp
    · rw [length_siftdownAux]; simp

theorem length_siftupAux (heap : List HeapInfo) (startpos pos : Nat) (newitem : HeapInfo)
    (endpos : Nat) :
    (siftupAux heap startpos pos newitem endpos).length = heap.length :=
  length_siftupAux_bounded (endpos - pos) heap startpos pos newitem endpos le_rfl

theorem length_heappop (heap : List HeapInfo) (e : HeapInfo) (rest : List HeapInfo)
    (h : heappop heap = Except.ok (e, rest)) : rest.length + 1 = heap.length := by
  match heap with
  | [] => simp [heappop] at h
  | x :: xs =>
    rw [heappop] at h
    by_cases he : ((x :: xs).dropLast).isEmpty
    · rw [if_pos he] at h
      cases h
      simp only [List.isEmpty_iff] at he
      have := congrArg List.length (List.dropLast_concat_getLast (l := x :: xs)
        (List.cons_ne_nil x xs))
      simp [he] at this
      simp [← this]
    · rw [if_neg he] at h
      cases h
      rw [length_siftupAux]
      simp only [List.length_set, List.length_dropLast, List.length_cons]
      simp only [List.isEmpty_iff, List.dropLast_cons_of_ne_nil] at he
      rcases xs with _ | ⟨y, ys⟩
      · simp at he
      · simp

/-! ### The `PaikinTalSolver` methods -/

/-- Update one board's accuracy record in the collection
(`self._best_buddy_accuracy[puzzle_id]`). -/
def modifyAcc (st : SState) (puzzle_id : Nat) (f : BBAccuracy → BBAccuracy) : SState :=
  { st with best_buddy_accuracy :=
      st.best_buddy_accuracy.set puzzle_id (f (st.best_buddy_accuracy.getD puzzle_id default)) }

/-- `PaikinTalSolver._check_board_dimensions`. -/
def checkBoardDimensions (cfg : Config) (st : SState) (puzzle_id : Nat) (loc : Loc) : Bool :=
  match cfg.fixed_puzzle_dimensions with
  | none => true
  | some dims =>
    let pd := st.placed_puzzle_dimensions.getD puzzle_id default
    if loc.1 - pd.top_left.1 + 1 > (dims.1 : Int) then false
    else if pd.bottom_right.1 - loc.1 + 1 > (dims.1 : Int) then false
    else if loc.2 - pd.top_left.2 + 1 > (dims.2 : Int) then false
    else if pd.bottom_right.2 - loc.2 + 1 > (dims.2 : Int) then false
    else true

/-- `PaikinTalSolver._is_slot_open`: the matrix read happens before the
dimension check (Python evaluates the left operand of `and` first), so
on a location outside `numpy`'s valid index range the source raises
`IndexError` out of the read; the model's total read wraps such a
location instead, as documented at `npWrap`. -/
def isSlotOpen (cfg : Config) (st : SState) (puzzle_id : Nat) (loc : Loc) : Bool :=
  decide (occAt st puzzle_id loc = UNPLACED_PIECE_ID) && checkBoardDimensions cfg st puzzle_id loc

/-- `PaikinTalSolver._mark_piece_placed`. -/
def markPiecePlaced (st : SState) (piece_id : Nat) : SState :=
  { st with piece_placed := st.piece_placed.set piece_id true,
            numb_unplaced_pieces := st.numb_unplaced_pieces - 1 }

/-- `PaikinTalSolver._remove_open_slot`: removes every open-slot entry
with the given board id and location. -/
def removeOpenSlot (st : SState) (puzzle_id : Nat) (loc : Loc) : SState :=
  { st with open_locations :=
      st.open_locations.filter (fun s => !(decide (s.puzzle_id = puzzle_id ∧ s.location = loc))) }

/-- `PaikinTalSolver._remove_best_buddy_from_pool`: asserts (under the
assertion flag) that the piece is pooled, then deletes it; an unguarded
`del` on a missing key is a `KeyError`. -/
def removeBestBuddyFromPool (cfg : Config) (st : SState) (piece_id : Nat) :
    Except PyErr SState :=
  if cfg.perform_assertion_check && !(st.best_buddies_pool.contains piece_id) then
    Except.error PyErr.assertionError
  else if st.best_buddies_pool.contains piece_id then
    Except.ok { st with best_buddies_pool := st.best_buddies_pool.erase piece_id }
  else
    Except.error PyErr.keyError

/-- The `if top_left > loc / elif bottom_right < loc` bounding-box
growth of `_updated_puzzle_dimensions`, per axis. -/
def growBox (bd : PuzzleDims) (loc : Loc) : PuzzleDims :=
  ⟨((if bd.top_left.1 > loc.1 then loc.1 else bd.top_left.1),
    (if bd.top_left.2 > loc.2 then loc.2 else bd.top_left.2)),
   ((if bd.top_left.1 > loc.1 then bd.bottom_right.1
     else if bd.bottom_right.1 < loc.1 then loc.1 else bd.bottom_right.1),
    (if bd.top_left.2 > loc.2 then bd.bottom_right.2
     else if bd.bottom_right.2 < loc.2 then loc.2 else bd.bottom_right.2))⟩

/-- `PaikinTalSolver._updated_puzzle_dimensions`: asserts the bounding
box is ordered, then grows it monotonically to cover the new location
(the derived `dimensions` size field of `PuzzleDimensions` is never read
by the solver and is not modelled). -/
def updatedPuzzleDimensions (cfg : Config) (st : SState) (puzzle_id : Nat) (loc : Loc) :
    Except PyErr SState :=
  if cfg.perform_assertion_check &&
      !(decide ((st.placed_puzzle_dimensions.getD puzzle_id default).top_left.1 ≤
          (st.placed_puzzle_dimensions.getD puzzle_id default).bottom_right.1 ∧
        (st.placed_puzzle_dimensions.getD puzzle_id default).top_left.2 ≤
          (st.placed_puzzle_dimensions.getD puzzle_id default).bottom_right.2)) then
    Except.error PyErr.assertionError
  else
    let d := st.placed_puzzle_dimensions.set puzzle_id
      (growBox (st.placed_puzzle_dimensions.getD puzzle_id default) loc)
    Except.ok { st with placed_puzzle_dimensions := d }

/-- Second half of the `_update_best_buddy_accuracy` loop body: the
processing of the placed piece's own best buddy. -/
def ubbaPlacedPart (st : SState) (puzzle_id : Nat) (placed_piece_id : Nat) (placed_side : Side)
    (is_neighbor_open : Bool) : SState :=
  match st.ods.best_buddies placed_piece_id placed_side with
  | [] => st
  | (bb_id, bb_side) :: _ =>
    if placedAt st bb_id then
      let bb_puzzle_id := ((st.pieces.getD bb_id default).puzzle_id).getD 0
      let st1 := modifyAcc st bb_puzzle_id (fun a => a.delete_open_best_buddy bb_id bb_side)
      let st2 := modifyAcc st1 bb_puzzle_id (fun a => a.add_wrong_best_buddy bb_id bb_side)
      modifyAcc st2 bb_puzzle_id (fun a => a.add_wrong_best_buddy placed_piece_id placed_side)
    else if is_neighbor_open then
      modifyAcc st puzzle_id (fun a => a.add_open_best_buddy placed_piece_id placed_side)
    else st

/-- One iteration of the `_update_best_buddy_accuracy` loop over the
placed piece's neighboring cells; the `continue` of the matching-buddy
case skips `ubbaPlacedPart`. -/
def ubbaStep (st : SState) (puzzle_id : Nat) (placed_piece_id : Nat) (ls : Loc × Side) : SState :=
  let neighbor_loc := ls.1
  let placed_side := ls.2
  let neighbor_id := occAt st puzzle_id neighbor_loc
  if neighbor_id = UNPLACED_PIECE_ID then
    ubbaPlacedPart st puzzle_id placed_piece_id placed_side true
  else
    let nid := neighbor_id.toNat
    let neighbor_side := sideAdjacentToLocation (st.pieces.getD nid default).location
        ((st.pieces.getD placed_piece_id default).location)
    match st.ods.best_buddies nid neighbor_side with
    | [] => ubbaPlacedPart st puzzle_id placed_piece_id placed_side false
    | _ :: _ =>
      let st1 := modifyAcc st puzzle_id (fun a => a.delete_open_best_buddy nid neighbor_side)
      match st1.ods.best_buddies placed_piece_id placed_side with
      | (bb_id, bb_side) :: _ =>
        if bb_id = nid ∧ bb_side = neighbor_side then
          let st2 := modifyAcc st1 puzzle_id (fun a => a.add_correct_best_buddy nid neighbor_side)
          modifyAcc st2 puzzle_id (fun a => a.add_correct_best_buddy placed_piece_id placed_side)
        else ubbaPlacedPart st1 puzzle_id placed_piece_id placed_side false
      | [] => ubbaPlacedPart st1 puzzle_id placed_piece_id placed_side false

/-- `PaikinTalSolver._update_best_buddy_accuracy`. -/
def updateBestBuddyAccuracy (st : SState) (puzzle_id : Nat) (placed_piece_id : Nat) : SState :=
  (neighborLocationsAndSides (st.pieces.getD placed_piece_id default).location).foldl
    (fun s ls => ubbaStep s puzzle_id placed_piece_id ls) st

/-- `PaikinTalSolver._get_total_best_buddy_count`. -/
def getTotalBestBuddyCount (st : SState) : Nat :=
  st.best_buddy_accuracy.foldl
    (fun n a => n + a.open_bb.length + a.wrong_bb.length + a.correct_bb.length) 0

/-- `PaikinTalSolver._add_best_buddies_to_pool`: pool the not-yet-placed,
not-yet-pooled best buddies of the placed piece and push a heap entry
for each pooled buddy against every current open slot and valid side
pairing. -/
def addBestBuddiesToPool (cfg : Config) (st : SState) (piece_id : Nat) : SState :=
  Side.get_all_sides.foldl (fun st1 p_i_side =>
    (st1.ods.best_buddies piece_id p_i_side).foldl (fun st2 bb =>
      let bb_id := bb.1
      if placedAt st2 bb_id || st2.best_buddies_pool.contains bb_id then st2
      else
        let st3 := { st2 with best_buddies_pool := st2.best_buddies_pool ++ [bb_id] }
        st3.open_locations.foldl (fun st4 open_slot_info =>
          (cfg.valid_neighbor_sides open_slot_info.open_side).foldl (fun st5 bb_side =>
            let bb_heap_info : HeapInfo :=
              ⟨bb_id, bb_side, open_slot_info.piece_id, open_slot_info.open_side,
               open_slot_info.puzzle_id, open_slot_info.location,
               st5.ods.mutual_compatibility bb_id bb_side open_slot_info.piece_id
                 open_slot_info.open_side⟩
            let h := heappush st5.best_buddy_open_slot_heap bb_heap_info
            { st5 with best_buddy_open_slot_heap := h }) st4) st3) st1) st

/-- `PaikinTalSolver._update_open_slots`: append an open-slot entry for
each open neighboring cell of the placed piece, and for each one push a
heap entry for every pooled best buddy and valid side pairing. -/
def updateOpenSlots (cfg : Config) (st : SState) (placed_piece : Piece) : SState :=
  let piece_id := placed_piece.id_number
  let puzzle_id := placed_piece.puzzle_id.getD 0
  (neighborLocationsAndSides placed_piece.location).foldl (fun st1 ls =>
    let location := ls.1
    let piece_side := ls.2
    if isSlotOpen cfg st1 puzzle_id location then
      let new_slot : OpenSlot := ⟨puzzle_id, location, piece_id, piece_side⟩
      let st2 := { st1 with open_locations := st1.open_locations ++ [new_slot] }
      st2.best_buddies_pool.foldl (fun st3 bb_id =>
        (cfg.valid_neighbor_sides piece_side).foldl (fun st4 bb_side =>
          let heap_info : HeapInfo :=
            ⟨bb_id, bb_side, piece_id, piece_side, puzzle_id, location,
             st4.ods.mutual_compatibility piece_id piece_side bb_id bb_side⟩
          let h := heappush st4.best_buddy_open_slot_heap heap_info
          { st4 with best_buddy_open_slot_heap := h }) st3) st2
    else st1) st

/-- `PaikinTalSolver._initialize_best_buddy_pool_and_heap`. -/
def initializeBestBuddyPoolAndHeap (st : SState) : SState :=
  { st with best_buddies_pool := [], best_buddy_open_slot_heap := [],
            last_best_buddy_heap_housekeeping := st.numb_unplaced_pieces }

/-- `PaikinTalSolver._check_if_perform_best_buddy_heap_housecleaning`. -/
def checkBestBuddyHeapHousecleaning (cfg : Config) (st : SState) : Bool :=
  cfg.enable_bb_heap_housekeeping &&
    (decide (cfg.minimum_clean_heap_size ≤ st.best_buddy_open_slot_heap.length) &&
     decide (cfg.minimum_clean_heap_frequency ≤
       st.last_best_buddy_heap_housekeeping - st.numb_unplaced_pieces))

/-- A heap entry survives `_clean_best_buddy_heap` iff its slot is still
open and its candidate piece still unplaced. -/
def heapEntryStillValid (cfg : Config) (st : SState) (e : HeapInfo) : Bool :=
  isSlotOpen cfg st e.puzzle_id e.location && !(placedAt st e.bb_id)

/-- `PaikinTalSolver._clean_best_buddy_heap`. -/
def cleanBestBuddyHeap (cfg : Config) (st : SState) : SState :=
  let new_bb_heap := heapify (st.best_buddy_open_slot_heap.filter (heapEntryStillValid cfg st))
  { st with best_buddy_open_slot_heap := new_bb_heap,
            last_best_buddy_heap_housekeeping := st.numb_unplaced_pieces }

/-- The pop loop of `_find_next_piece`: keep popping the heap, discarding
entries whose piece is placed or whose slot is filled, until a valid
entry is found; an empty heap raises `IndexError` out of `heappop`. -/
def popNextPiece (cfg : Config) (st : SState) (heap : List HeapInfo) :
    Except PyErr (NextPieceToPlace × List HeapInfo) :=
  match hpop : heappop heap with
  | Except.error e => Except.error e
  | Except.ok (heap_info, rest) =>
    if !(placedAt st heap_info.bb_id) && isSlotOpen cfg st heap_info.puzzle_id heap_info.location then
      Except.ok (⟨heap_info.puzzle_id, heap_info.location, heap_info.bb_id, heap_info.bb_side,
                  heap_info.neighbor_id, heap_info.neighbor_side,
                  heap_info.mutual_compatibility, true⟩, rest)
    else popNextPiece cfg st rest
termination_by heap.length
decreasing_by
  have := length_heappop heap heap_info rest hpop
  omega

/-- Innermost loop of `_get_next_piece_from_pool`: scan the valid side
pairings of one (piece, slot) combination, keeping the first
strictly-better candidate. -/
def poolScanSides (cfg : Config) (st : SState) (next_piece_id : Nat) (open_slot : OpenSlot)
    (best : Option NextPieceToPlace) : Option NextPieceToPlace :=
  (cfg.valid_neighbor_sides open_slot.open_side).foldl (fun best next_piece_side =>
    let mutual_compat := st.ods.mutual_compatibility next_piece_id next_piece_side
      open_slot.piece_id open_slot.open_side
    match best with
    | none => some ⟨open_slot.puzzle_id, open_slot.location, next_piece_id, next_piece_side,
                    open_slot.piece_id, open_slot.open_side, mutual_compat, false⟩
    | some b =>
      if b.mutual_compatibility < mutual_compat then
        some ⟨open_slot.puzzle_id, open_slot.location, next_piece_id, next_piece_side,
              open_slot.piece_id, open_slot.open_side, mutual_compat, false⟩
      else best) best

/-- Middle loop of `_get_next_piece_from_pool`: scan the open slots for
one unplaced piece, skipping slots whose cell is no longer empty. -/
def poolScanSlots (cfg : Config) (st : SState) (next_piece_id : Nat)
    (best : Option NextPieceToPlace) : Option NextPieceToPlace :=
  st.open_locations.foldl (fun best open_slot =>
    if !(isSlotOpen cfg st open_slot.puzzle_id open_slot.location) then best
    else poolScanSides cfg st next_piece_id open_slot best) best

/-- `PaikinTalSolver._get_next_piece_from_pool`: exhaustive scan over
unplaced pieces, open slots and valid side pairings, keeping the first
strictly-better candidate. -/
def getNextPieceFromPool (cfg : Config) (st : SState) (unplaced_pieces : List Nat) :
    Option NextPieceToPlace :=
  unplaced_pieces.foldl (fun best next_piece_id =>
    poolScanSlots cfg st next_piece_id best) none

/-- The `placed_pieces` argument of the fallback recompute in
`_find_next_piece`: the placement flags with every piece adjacent to an
open slot cleared. -/
def placedAndOpen (st : SState) : List Bool :=
  st.open_locations.foldl (fun l s => l.set s.piece_id false) st.piece_placed

/-- The state after the fallback branch of `_find_next_piece` asks the
inter-piece-distance oracle to recalculate compatibilities. -/
def recomputedState (orc : Oracle) (st : SState) : SState :=
  { st with ods := orc.recalculate st.piece_placed (placedAndOpen st) st.ods }

/-- The list of unplaced piece identification numbers scanned by the
fallback branch of `_find_next_piece`. -/
def unplacedIds (st : SState) : List Nat :=
  (List.range st.pieces.length).filter (fun i => !(placedAt st i))

/-- `PaikinTalSolver._find_next_piece`: heap path when the pool is
non-empty (with optional housecleaning), otherwise the global-recompute
fallback.  The fallback may produce `none` (no candidate found), which
the caller turns into an `AttributeError`. -/
def findNextPiece (cfg : Config) (orc : Oracle) (st : SState) :
    Except PyErr (Option NextPieceToPlace × SState) :=
  if 0 < st.best_buddies_pool.length then
    let st1 := if checkBestBuddyHeapHousecleaning cfg st then cleanBestBuddyHeap cfg st else st
    match popNextPiece cfg st1 st1.best_buddy_open_slot_heap with
    | Except.error e => Except.error e
    | Except.ok (np, rest) =>
      Except.ok (some np, { st1 with best_buddy_open_slot_heap := rest })
  else
    Except.ok (getNextPieceFromPool cfg (recomputedState orc st)
      (unplacedIds (recomputedState orc st)), recomputedState orc st)

/-- The placed-piece record built at the top of `_place_normal_piece`:
rotation from the side pairing and the neighbor's rotation, then board
id and location. -/
def placedPieceRecord (st : SState) (next_piece_info : NextPieceToPlace) : Piece :=
  { st.pieces.getD next_piece_info.next_piece_id default with
    rotation := st.ods.placed_rotation next_piece_info.next_piece_side
      next_piece_info.neighbor_piece_side
      (st.pieces.getD next_piece_info.neighbor_piece_id default).rotation,
    puzzle_id := some next_piece_info.puzzle_id,
    location := next_piece_info.open_slot_location }

/-- Tail of `_place_normal_piece`: pool removal for a best-buddy pick,
then pooling the placed piece's own best buddies and opening its
neighboring slots. -/
def placeTail (cfg : Config) (st6 : SState) (next_piece : Piece) (is_bb : Bool) :
    Except PyErr SState :=
  match (if is_bb then removeBestBuddyFromPool cfg st6 next_piece.id_number
         else Except.ok st6) with
  | Except.error e => Except.error e
  | Except.ok st7 =>
    Except.ok (updateOpenSlots cfg (addBestBuddiesToPool cfg st7 next_piece.id_number) next_piece)

/-- `PaikinTalSolver._place_normal_piece`. -/
def placeNormalPiece (cfg : Config) (st : SState) (next_piece_info : NextPieceToPlace) :
    Except PyErr SState :=
  let puzzle_id := next_piece_info.puzzle_id
  let next_piece : Piece := placedPieceRecord st next_piece_info
  let st1 := { st with pieces := st.pieces.set next_piece_info.next_piece_id next_piece }
  match updatedPuzzleDimensions cfg st1 puzzle_id next_piece.location with
  | Except.error e => Except.error e
  | Except.ok st2 =>
    let st3 := setOcc st2 puzzle_id next_piece.location (Int.ofNat next_piece.id_number)
    let st4 := updateBestBuddyAccuracy st3 puzzle_id next_piece.id_number
    let st5 := markPiecePlaced st4 next_piece.id_number
    let st6 := removeOpenSlot st5 puzzle_id next_piece.location
    placeTail cfg st6 next_piece next_piece_info.is_best_buddy

/-- `PaikinTalSolver._place_seed_piece`. -/
def placeSeedPiece (cfg : Config) (orc : Oracle) (st : SState) : SState :=
  let st := { st with numb_puzzles := st.numb_puzzles + 1 }
  let st := if 1 < st.numb_puzzles then
      { st with ods := orc.find_start_piece_candidates st.piece_placed st.ods }
    else st
  let seed_piece_id := st.ods.next_starting_piece st.piece_placed
  let st := markPiecePlaced st seed_piece_id
  let st := { st with last_best_buddy_heap_housekeeping := st.numb_unplaced_pieces }
  let n := st.pieces.length
  let st := { st with piece_locations := st.piece_locations ++ [(⟨n, []⟩ : Grid)] }
  let board_center : Loc := (Int.ofNat (n / 2), Int.ofNat (n / 2))
  let seed : Piece := { st.pieces.getD seed_piece_id default with
    puzzle_id := some (st.numb_puzzles - 1),
    location := board_center,
    rotation := 0 }
  let st := { st with pieces := st.pieces.set seed_piece_id seed }
  let st := setOcc st (st.numb_puzzles - 1) board_center (Int.ofNat seed.id_number)
  let st := { st with
    placed_puzzle_dimensions := st.placed_puzzle_dimensions ++ [⟨board_center, board_center⟩],
    best_buddy_accuracy := st.best_buddy_accuracy ++ [⟨st.numb_puzzles - 1, [], [], []⟩] }
  let st := updateBestBuddyAccuracy st (st.numb_puzzles - 1) seed.id_number
  let st := addBestBuddiesToPool cfg st seed.id_number
  updateOpenSlots cfg st seed

/-- `PaikinTalSolver._spawn_new_board`. -/
def spawnNewBoard (cfg : Config) (orc : Oracle) (st : SState) : SState :=
  let st := if cfg.clear_bb_heap_on_spawn then initializeBestBuddyPoolAndHeap st else st
  placeSeedPiece cfg orc st

/-- One iteration of the `run` placement loop: find the next piece, then
spawn a new board iff the board budget is not exhausted and the mutual
compatibility is below the new-board threshold, else place it. -/
def stepOnce (cfg : Config) (orc : Oracle) (st : SState) : Except PyErr SState :=
  match findNextPiece cfg orc st with
  | Except.error e => Except.error e
  | Except.ok (none, _) => Except.error (PyErr.attributeError "mutual_compatibility")
  | Except.ok (some next_piece, st1) =>
    if st1.numb_puzzles < cfg.actual_numb_puzzles ∧
        next_piece.mutual_compatibility < cfg.new_board_mutual_compatibility then
      Except.ok (spawnNewBoard cfg orc st1)
    else
      placeNormalPiece cfg st1 next_piece

/-- The `while self._numb_unplaced_pieces > 0` loop of `run`, fuelled;
the fuel is an embedding artefact — each iteration places exactly one
piece, so fuel `numb_unplaced_pieces` always suffices. -/
def runLoop (cfg : Config) (orc : Oracle) : Nat → SState → Except PyErr SState
  | fuel, st =>
    if 0 < st.numb_unplaced_pieces then
      match fuel with
      | 0 => Except.error PyErr.outOfFuel
      | Nat.succ fuel' =>
        match stepOnce cfg orc st with
        | Except.error e => Except.error e
        | Except.ok st' => runLoop cfg orc fuel' st'
    else Except.ok st

/-- The post-loop block of `run` (under the progress-message flag): when
every piece is placed, clear the pool and heap and assert that no open
best-buddy relation remains and that the tracked best-buddy total
matches the oracle's dataset-wide count. -/
def finalChecks (cfg : Config) (st : SState) : Except PyErr SState :=
  if cfg.print_progress then
    if st.numb_unplaced_pieces = 0 then
      let st := initializeBestBuddyPoolAndHeap st
      if cfg.perform_assertion_check then
        if st.best_buddy_accuracy.all (fun a => a.open_bb.length = 0) then
          if getTotalBestBuddyCount st = st.ods.total_best_buddy_count then Except.ok st
          else Except.error PyErr.assertionError
        else Except.error PyErr.assertionError
      else Except.ok st
    else Except.ok st
  else Except.ok st

/-- `PaikinTalSolver.__init__` state (constructor argument checks are in
`runSolver`). -/
def mkInitialState (orc : Oracle) (pieces : List Piece) : SState :=
  { pieces := pieces,
    piece_placed := List.replicate pieces.length false,
    numb_unplaced_pieces := pieces.length,
    open_locations := [],
    piece_locations := [],
    best_buddy_accuracy := [],
    placed_puzzle_dimensions := [],
    best_buddies_pool := [],
    best_buddy_open_slot_heap := [],
    numb_puzzles := 0,
    last_best_buddy_heap_housekeeping := pieces.length,
    ods := orc.state0 }

/-- The state after the initial seed placement of `run()` (which also
re-marks the housekeeping baseline). -/
def seededState (cfg : Config) (orc : Oracle) (pieces : List Piece) : SState :=
  let st1 := placeSeedPiece cfg orc (mkInitialState orc pieces)
  { st1 with last_best_buddy_heap_housekeeping := st1.numb_unplaced_pieces }

/-- Constructing a `PaikinTalSolver` and calling `run()`: seed the first
board, run the placement loop, then the final consistency checks. -/
def runSolver (cfg : Config) (orc : Oracle) (pieces : List Piece) : Except PyErr SState :=
  if 1 < cfg.actual_numb_puzzles ∧ cfg.fixed_puzzle_dimensions.isSome then
    Except.error PyErr.valueError
  else
    match runLoop cfg orc (seededState cfg orc pieces).numb_unplaced_pieces
        (seededState cfg orc pieces) with
    | Except.error e => Except.error e
    | Except.ok st3 => finalChecks cfg st3

/-! ### The `MultiPuzzleSolver` segmentation controller -/

/-- A solved segment (`PuzzleSegment`, external module): stable id and
piece membership.  Modelled from the spec. -/
structure Segment where
  id_number : Nat
  piece_ids : List Nat
deriving DecidableEq, Repr

/-- `PuzzleSegment.numb_pieces`. -/
def Segment.numb_pieces (s : Segment) : Nat := s.piece_ids.length

/-- Modelled from the spec: `PuzzleSegment.update_segment_for_multipuzzle_solver`
stamps the controller-level segment id onto the segment. -/
def Segment.update_for_multipuzzle (s : Segment) (new_id : Nat) : Segment :=
  { s with id_number := new_id }

/-- `MultiPuzzleSolver._MINIMUM_SEGMENT_SIZE`. -/
def MINIMUM_SEGMENT_SIZE : Nat := 10

/-- Controller state.  `disallowed_pieces` models (from the spec) the
solver-side placement-eligibility set manipulated through
`allow_placement_of_all_pieces` / `disallow_piece_placement`. -/
structure MPState where
  numb_pieces : Nat
  segments : List Segment
  piece_id_to_segment_map : List (Nat × Nat)
  numb_segmentation_rounds : Nat
  disallowed_pieces : List Nat
deriving DecidableEq, Repr

/-- Python dict assignment `m[k] = v` on an association list. -/
def mapInsert (m : List (Nat × Nat)) (k v : Nat) : List (Nat × Nat) :=
  if m.any (fun p => p.1 = k) then m.map (fun p => if p.1 = k then (k, v) else p)
  else m ++ [(k, v)]

/-- Modelled from the spec: `disallow_piece_placement` locks one piece out
of future placement. -/
def disallowPiecePlacement (mp : MPState) (piece_id : Nat) : MPState :=
  if piece_id ∈ mp.disallowed_pieces then mp
  else { mp with disallowed_pieces := mp.disallowed_pieces ++ [piece_id] }

/-- Body of the piece loop of `_select_segment_for_solver`: lock one
piece and record its segment assignment. -/
def lockPiece (segid : Nat) (m : MPState) (piece_id : Nat) : MPState :=
  let m1 := disallowPiecePlacement m piece_id
  { m1 with piece_id_to_segment_map := mapInsert m1.piece_id_to_segment_map piece_id segid }

/-- `MultiPuzzleSolver._select_segment_for_solver`: stamp the next
controller-level id, append the segment, lock its pieces and record the
piece-to-segment mapping. -/
def selectSegmentForSolver (mp : MPState) (selected_segment : Segment) : MPState :=
  let seg := selected_segment.update_for_multipuzzle mp.segments.length
  let mp1 := { mp with segments := mp.segments ++ [seg] }
  seg.piece_ids.foldl (lockPiece seg.id_number) mp1

/-- `MultiPuzzleSolver._process_solved_segments`: select every segment
whose piece count is at least (integer) half of the round's maximum
segment size; returns the maximum segment size. -/
def processSolvedSegments (mp : MPState) (solved_segments : List Segment) : MPState × Nat :=
  let max_segment_size := ((solved_segments.map Segment.numb_pieces).maximum?).getD 0
  (solved_segments.foldl (fun m segment =>
      if max_segment_size / 2 ≤ segment.numb_pieces then selectSegmentForSolver m segment
      else m) mp,
   max_segment_size)

/-- The do-while loop of `_find_initial_segments`, fuelled.  The solved
segments of each round come from the external single-puzzle solve,
modelled as a function of the round number. -/
def findInitialSegmentsLoop (segmenter : Nat → List Segment) :
    Nat → MPState → MPState
  | 0, mp => mp
  | Nat.succ fuel, mp =>
    let mp1 := { mp with numb_segmentation_rounds := mp.numb_segmentation_rounds + 1 }
    let r := processSolvedSegments mp1 (segmenter mp1.numb_segmentation_rounds)
    if r.2 < MINIMUM_SEGMENT_SIZE ∨
        r.1.numb_pieces - r.1.piece_id_to_segment_map.length < MINIMUM_SEGMENT_SIZE then
      r.1
    else findInitialSegmentsLoop segmenter fuel r.1

/-- `MultiPuzzleSolver._find_initial_segments` (without
`skip_initial`): allow all pieces, zero the round counter, run the round
loop, then re-allow all pieces. -/
def findInitialSegments (segmenter : Nat → List Segment) (fuel : Nat) (mp : MPState) : MPState :=
  let mp1 := { mp with disallowed_pieces := [], numb_segmentation_rounds := 0 }
  let mp2 := findInitialSegmentsLoop segmenter fuel mp1
  { mp2 with disallowed_pieces := [] }

/-- The method names the source defines on `PaikinTalSolver`
(`paikin_tal_solver/solver.py`). -/
def paikinTalSolverMethods : List String :=
  ["__init__", "run", "print_best_buddy_accuracy_info", "get_solved_puzzles",
   "_place_normal_piece", "_remove_open_slot", "_remove_best_buddy_from_pool",
   "_find_next_piece", "_is_slot_open", "_check_if_perform_best_buddy_heap_housecleaning",
   "_clean_best_buddy_heap", "_check_board_dimensions", "_initialize_best_buddy_pool_and_heap",
   "_get_next_piece_from_pool", "_initialize_open_slots", "_spawn_new_board",
   "_place_seed_piece", "_updated_puzzle_dimensions", "_update_best_buddy_accuracy",
   "_get_open_best_buddy_puzzle", "_get_total_best_buddy_count", "_update_open_slots",
   "_mark_piece_placed", "_add_best_buddies_to_pool", "puzzle_type"]

/-- The parameters of `PaikinTalSolver.__init__` after `self`, with
whether each is required (has no default). -/
def paikinTalInitParams : List (String × Bool) :=
  [("numb_puzzles", true), ("pieces", true), ("distance_function", true),
   ("puzzle_type", false), ("new_board_mutual_compatibility", false),
   ("fixed_puzzle_dimensions", false)]

/-- Python call-argument binding: parameters are filled positionally,
then by keyword; a required parameter left unbound raises `TypeError`.
Positional arguments are represented by labels naming the expressions at
the call site. -/
def bindCall : List (String × Bool) → List String → List String →
    Except PyErr (List (String × String))
  | [], [], _ => Except.ok []
  | [], _ :: _, _ => Except.error (PyErr.typeError "too many positional arguments")
  | (pname, _) :: ps, a :: args, kws =>
    (bindCall ps args kws).map (fun rest => (pname, a) :: rest)
  | (pname, required) :: ps, [], kws =>
    if pname ∈ kws then
      (bindCall ps [] (kws.erase pname)).map (fun rest => (pname, "<keyword>") :: rest)
    else if required then
      Except.error (PyErr.typeError ("takes at least 4 arguments: missing " ++ pname))
    else
      (bindCall ps [] kws).map (fun rest => rest)

/-- The `PaikinTalSolver(pieces, distance_function, puzzle_type=puzzle_type)`
call made by `MultiPuzzleSolver.__init__`: two positional arguments and
the `puzzle_type` keyword. -/
def multiPuzzleSolverBuildSolver : Except PyErr (List (String × String)) :=
  bindCall paikinTalInitParams ["pieces", "distance_function"] ["puzzle_type"]

/-- Attribute lookup of a solver method: `AttributeError` when the
placement engine does not define it. -/
def callSolverMethod (name : String) : Except PyErr Unit :=
  if name ∈ paikinTalSolverMethods then Except.ok () else Except.error (PyErr.attributeError name)

/-- `MultiPuzzleSolver(...)` followed by `run()`: the constructor builds
the underlying `PaikinTalSolver`; `_find_initial_segments` then invokes
`allow_placement_of_all_pieces`, `run_single_puzzle_solver` and
`segment` on it each round.  The result counts completed segmentation
rounds. -/
def multiPuzzleSolverRun (numb_pieces : Nat) : Except PyErr Nat :=
  match multiPuzzleSolverBuildSolver with
  | Except.error e => Except.error e
  | Except.ok _ =>
    match callSolverMethod "allow_placement_of_all_pieces" with
    | Except.error e => Except.error e
    | Except.ok _ =>
      match callSolverMethod "run_single_puzzle_solver" with
      | Except.error e => Except.error e
      | Except.ok _ =>
        match callSolverMethod "segment" with
        | Except.error e => Except.error e
        | Except.ok _ => Except.ok (numb_pieces - numb_pieces + 1)

/-! ### Specification-side definitions and concrete instances

`slotMajorCandidates` below is written from the spec's words (tie-break
enumeration over open slots, then pieces, then sides) to compare with
the source's `_get_next_piece_from_pool`; everything else is either a
spec-level reformulation used in theorem statements or a concrete test
instance used by witnesses. -/

instance : Inhabited NextPieceToPlace :=
  ⟨⟨0, (0, 0), 0, Side.top, 0, Side.top, 0, false⟩⟩

instance : Inhabited OpenSlot := ⟨⟨0, (0, 0), 0, Side.top⟩⟩

/-- Extract the value of a successful computation (default on error). -/
def exceptOkD {α : Type _} (d : α) (e : Except PyErr α) : α :=
  match e with
  | Except.ok a => a
  | Except.error _ => d

/-- The `heapq` invariant for the reversed comparison: every non-root
entry's mutual compatibility is at most its parent's. -/
def IsMaxHeap (h : List HeapInfo) : Bool :=
  (List.range h.length).all (fun j =>
    decide (j = 0) ||
    decide ((h.getD j default).mutual_compatibility ≤
      (h.getD ((j - 1) / 2) default).mutual_compatibility))

/-- The candidate built from one (piece, slot, side) combination of the
`_get_next_piece_from_pool` scan. -/
def poolCandidate (st : SState) (next_piece_id : Nat) (open_slot : OpenSlot)
    (next_piece_side : Side) : NextPieceToPlace :=
  ⟨open_slot.puzzle_id, open_slot.location, next_piece_id, next_piece_side,
   open_slot.piece_id, open_slot.open_side,
   st.ods.mutual_compatibility next_piece_id next_piece_side open_slot.piece_id
     open_slot.open_side, false⟩

/-- The global-recompute candidate list in the source's enumeration
order: unplaced pieces outermost, then open slots, then valid sides. -/
def pieceMajorCandidates (cfg : Config) (st : SState) (unplaced_pieces : List Nat) :
    List NextPieceToPlace :=
  unplaced_pieces.flatMap (fun next_piece_id =>
    (st.open_locations.filter (fun s => isSlotOpen cfg st s.puzzle_id s.location)).flatMap
      (fun open_slot =>
        (cfg.valid_neighbor_sides open_slot.open_side).map
          (fun next_piece_side => poolCandidate st next_piece_id open_slot next_piece_side)))

/-- The candidate list in the enumeration order stated by the spec:
open slots outermost, then unplaced pieces, then valid sides. -/
def slotMajorCandidates (cfg : Config) (st : SState) (unplaced_pieces : List Nat) :
    List NextPieceToPlace :=
  (st.open_locations.filter (fun s => isSlotOpen cfg st s.puzzle_id s.location)).flatMap
    (fun open_slot =>
      unplaced_pieces.flatMap (fun next_piece_id =>
        (cfg.valid_neighbor_sides open_slot.open_side).map
          (fun next_piece_side => poolCandidate st next_piece_id open_slot next_piece_side)))

/-- The first element of a candidate list attaining the maximal mutual
compatibility (the spec's "first-found" tie-break). -/
def firstArgmax (l : List NextPieceToPlace) : Option NextPieceToPlace :=
  l.find? (fun x => l.all (fun y => y.mutual_compatibility ≤ x.mutual_compatibility))

/-- One step of the running-best fold of `_get_next_piece_from_pool`:
keep the incumbent unless the candidate is strictly better. -/
def foldBest (best : Option NextPieceToPlace) (c : NextPieceToPlace) :
    Option NextPieceToPlace :=
  match best with
  | none => some c
  | some b => if b.mutual_compatibility < c.mutual_compatibility then some c else best

/-- The open-slot-list invariant that actually holds during a run
(compare claim C5): one occupancy matrix exists per created board, and
every open-slot entry (and every heap entry) names a created board.
Entries are *not* unique per (board, location): a cell adjacent to
several placed pieces is listed once per such neighbor.  A listed
entry's cell is checked to be unoccupied only at insertion
(`updateOpenSlots_char`) and need not stay unoccupied: a later
placement at a negative location aliases an in-bounds cell under
`numpy` wraparound while `_remove_open_slot` compares literal
locations, stranding an entry whose cell is occupied (see
`C5_counterexample`). -/
def SlotInv (st : SState) : Prop :=
  st.piece_locations.length = st.numb_puzzles ∧
  (∀ e ∈ st.open_locations, e.puzzle_id < st.numb_puzzles) ∧
  (∀ x ∈ st.best_buddy_open_slot_heap, x.puzzle_id < st.numb_puzzles)

/-- The best-buddy-pool invariant of claim C7: each piece id is pooled
at most once, and no pooled piece is marked placed. -/
def PoolInv (st : SState) : Prop :=
  st.best_buddies_pool.Nodup ∧
  ∀ pid ∈ st.best_buddies_pool, placedAt st pid = false

/-- Piece assignments observable in the solver result: id, board,
rotation and location of every piece. -/
def solverObservables (r : Except PyErr SState) :
    Except PyErr (List (Nat × Option Nat × Rot × Loc)) :=
  r.map (fun st => st.pieces.map (fun p => (p.id_number, p.puzzle_id, p.rotation, p.location)))

/-- Pushing a sequence of heap entries onto an empty heap. -/
def pushSequence (entries : List HeapInfo) : List HeapInfo :=
  entries.foldl heappush []

/-! #### A concrete four-piece instance (used by witnesses)

Four pieces on one board; the oracle reports no best buddies, so every
placement goes through the global-recompute fallback; the crafted
compatibilities steer placement to the cells (2,2), (1,2), (2,1), (1,1)
of the 4-by-4 working grid. -/

/-- Complementary side (the valid neighbor pairing of a type-1 puzzle). -/
def oppositeSide : Side → Side
  | Side.top => Side.bottom
  | Side.bottom => Side.top
  | Side.left => Side.right
  | Side.right => Side.left

def piecesW : List Piece :=
  [⟨0, 0, none, (0, 0)⟩, ⟨1, 0, none, (0, 0)⟩, ⟨2, 0, none, (0, 0)⟩, ⟨3, 0, none, (0, 0)⟩]

def mcW : Nat → Side → Nat → Side → Int := fun p _ n ns =>
  if p = 1 ∧ n = 0 ∧ ns = Side.top then 5
  else if p = 2 ∧ n = 0 ∧ ns = Side.left then 5
  else if p = 3 ∧ n = 1 ∧ ns = Side.left then 5
  else 0

def odsW : OracleState :=
  { best_buddies := fun _ _ => [],
    mutual_compatibility := mcW,
    next_starting_piece := fun _ => 0,
    total_best_buddy_count := 0,
    placed_rotation := fun _ _ r => r }

def orcW : Oracle :=
  { state0 := odsW, recalculate := fun _ _ s => s, find_start_piece_candidates := fun _ s => s }

/-- Default flag values of `PaikinTalSolver` with one board and
threshold 0. -/
def cfgW : Config :=
  { actual_numb_puzzles := 1,
    new_board_mutual_compatibility := 0,
    fixed_puzzle_dimensions := none,
    perform_assertion_check := true,
    print_progress := true,
    clear_bb_heap_on_spawn := true,
    enable_bb_heap_housekeeping := true,
    minimum_clean_heap_size := 1000000,
    minimum_clean_heap_frequency := 100,
    valid_neighbor_sides := fun s => [oppositeSide s] }

/-- The state right after the initial seed placement of a run on the
four-piece instance. -/
def seedStW : SState := seededState cfgW orcW piecesW

def fnpW : Except PyErr (Option NextPieceToPlace × SState) := findNextPiece cfgW orcW seedStW

def npW : NextPieceToPlace :=
  match fnpW with
  | Except.ok (some np, _) => np
  | _ => default

def st1W : SState :=
  match fnpW with
  | Except.ok (_, s) => s
  | _ => default

def stepWa : SState := exceptOkD default (stepOnce cfgW orcW seedStW)

/-! The concrete states of the four-piece run, written out literally
(each equals the corresponding computed state by `rfl`; staging the run
this way keeps each stage equation a one-step evaluation). -/

/-- State after seeding: piece 0 at the center (2,2) of the 4-by-4 grid. -/
def S0W : SState :=
  { pieces := [⟨0, 0, some 0, (2, 2)⟩, ⟨1, 0, none, (0, 0)⟩, ⟨2, 0, none, (0, 0)⟩,
      ⟨3, 0, none, (0, 0)⟩],
    piece_placed := [true, false, false, false],
    numb_unplaced_pieces := 3,
    open_locations := [⟨0, (1, 2), 0, Side.top⟩, ⟨0, (2, 3), 0, Side.right⟩,
      ⟨0, (3, 2), 0, Side.bottom⟩, ⟨0, (2, 1), 0, Side.left⟩],
    piece_locations := [⟨4, [((2, 2), 0)]⟩],
    best_buddy_accuracy := [⟨0, [], [], []⟩],
    placed_puzzle_dimensions := [⟨(2, 2), (2, 2)⟩],
    best_buddies_pool := [],
    best_buddy_open_slot_heap := [],
    numb_puzzles := 1,
    last_best_buddy_heap_housekeeping := 3,
    ods := odsW }

/-- State after the first loop step: piece 1 placed at (1,2). -/
def S1W : SState :=
  { pieces := [⟨0, 0, some 0, (2, 2)⟩, ⟨1, 0, some 0, (1, 2)⟩, ⟨2, 0, none, (0, 0)⟩,
      ⟨3, 0, none, (0, 0)⟩],
    piece_placed := [true, true, false, false],
    numb_unplaced_pieces := 2,
    open_locations := [⟨0, (2, 3), 0, Side.right⟩, ⟨0, (3, 2), 0, Side.bottom⟩,
      ⟨0, (2, 1), 0, Side.left⟩, ⟨0, (0, 2), 1, Side.top⟩, ⟨0, (1, 3), 1, Side.right⟩,
      ⟨0, (1, 1), 1, Side.left⟩],
    piece_locations := [⟨4, [((1, 2), 1), ((2, 2), 0)]⟩],
    best_buddy_accuracy := [⟨0, [], [], []⟩],
    placed_puzzle_dimensions := [⟨(1, 2), (2, 2)⟩],
    best_buddies_pool := [],
    best_buddy_open_slot_heap := [],
    numb_puzzles := 1,
    last_best_buddy_heap_housekeeping := 3,
    ods := odsW }

/-- State after the second loop step: piece 2 placed at (2,1).  The open
slot list now holds two entries for the empty cell (1,1) of board 0 (one
per adjacent placed neighbor). -/
def S2W : SState :=
  { pieces := [⟨0, 0, some 0, (2, 2)⟩, ⟨1, 0, some 0, (1, 2)⟩, ⟨2, 0, some 0, (2, 1)⟩,
      ⟨3, 0, none, (0, 0)⟩],
    piece_placed := [true, true, true, false],
    numb_unplaced_pieces := 1,
    open_locations := [⟨0, (2, 3), 0, Side.right⟩, ⟨0, (3, 2), 0, Side.bottom⟩,
      ⟨0, (0, 2), 1, Side.top⟩, ⟨0, (1, 3), 1, Side.right⟩, ⟨0, (1, 1), 1, Side.left⟩,
      ⟨0, (1, 1), 2, Side.top⟩, ⟨0, (3, 1), 2, Side.bottom⟩, ⟨0, (2, 0), 2, Side.left⟩],
    piece_locations := [⟨4, [((2, 1), 2), ((1, 2), 1), ((2, 2), 0)]⟩],
    best_buddy_accuracy := [⟨0, [], [], []⟩],
    placed_puzzle_dimensions := [⟨(1, 1), (2, 2)⟩],
    best_buddies_pool := [],
    best_buddy_open_slot_heap := [],
    numb_puzzles := 1,
    last_best_buddy_heap_housekeeping := 3,
    ods := odsW }

/-- State after the third loop step: piece 3 placed at (1,1); nothing
left to place. -/
def S3W : SState :=
  { pieces := [⟨0, 0, some 0, (2, 2)⟩, ⟨1, 0, some 0, (1, 2)⟩, ⟨2, 0, some 0, (2, 1)⟩,
      ⟨3, 0, some 0, (1, 1)⟩],
    piece_placed := [true, true, true, true],
    numb_unplaced_pieces := 0,
    open_locations := [⟨0, (2, 3), 0, Side.right⟩, ⟨0, (3, 2), 0, Side.bottom⟩,
      ⟨0, (0, 2), 1, Side.top⟩, ⟨0, (1, 3), 1, Side.right⟩, ⟨0, (3, 1), 2, Side.bottom⟩,
      ⟨0, (2, 0), 2, Side.left⟩, ⟨0, (0, 1), 3, Side.top⟩, ⟨0, (1, 0), 3, Side.left⟩],
    piece_locations := [⟨4, [((1, 1), 3), ((2, 1), 2), ((1, 2), 1), ((2, 2), 0)]⟩],
    best_buddy_accuracy := [⟨0, [], [], []⟩],
    placed_puzzle_dimensions := [⟨(1, 1), (2, 2)⟩],
    best_buddies_pool := [],
    best_buddy_open_slot_heap := [],
    numb_puzzles := 1,
    last_best_buddy_heap_housekeeping := 3,
    ods := odsW }

/-- Final state of the run, after the post-loop checks (which also reset
the housekeeping baseline). -/
def S4W : SState :=
  { S3W with last_best_buddy_heap_housekeeping := 0 }

/-! #### A tie-breaking instance (used for C3)

Same four pieces and geometry as the instance above, but the
compatibilities are crafted so that at the second selection two
candidates tie at the maximum: piece 2 into cell (1,1) (reached first in
the source's piece-major scan) and piece 3 into cell (2,1) (reached
first in a slot-major scan). -/

def mcC : Nat → Side → Nat → Side → Int := fun p _ n ns =>
  if p = 1 ∧ n = 0 ∧ ns = Side.top then 5
  else if p = 2 ∧ n = 1 ∧ ns = Side.left then 5
  else if p = 3 ∧ n = 0 ∧ ns = Side.left then 5
  else 0

def odsC : OracleState := { odsW with mutual_compatibility := mcC }

def orcC : Oracle :=
  { state0 := odsC, recalculate := fun _ _ s => s, find_start_piece_candidates := fun _ s => s }

/-- Seed state of the tie-breaking run (same placement as `S0W`). -/
def S0C : SState := { S0W with ods := odsC }

/-- State after the first step of the tie-breaking run (same placement
as `S1W`: piece 1 at (1,2)). -/
def S1C : SState := { S1W with ods := odsC }

/-! #### A boundary-crossing instance (used for C5)

Same four pieces as the first instance, but the compatibilities steer
placement up a vertical line: seed (2,2), then (1,2), (0,2) and finally
(-1,2).  Under `numpy` indexing the write at (-1,2) lands on the
in-bounds cell (3,2) of the 4-by-4 matrix, while `_remove_open_slot`
removes entries by literal location comparison, so the open-slot entry
for (3,2) created by the seed survives with a placed piece on its
cell.  Every location placed and every neighboring cell read along this
run lies in `numpy`'s valid index range `[-4, 4)`, so the source
raises no `IndexError` and the run is modelled exactly. -/

def mcV : Nat → Side → Nat → Side → Int := fun p _ n ns =>
  if p = 1 ∧ n = 0 ∧ ns = Side.top then 5
  else if p = 2 ∧ n = 1 ∧ ns = Side.top then 5
  else if p = 3 ∧ n = 2 ∧ ns = Side.top then 5
  else 0

def odsV : OracleState := { odsW with mutual_compatibility := mcV }

def orcV : Oracle :=
  { state0 := odsV, recalculate := fun _ _ s => s, find_start_piece_candidates := fun _ s => s }

/-- Seed state of the boundary-crossing run (same placement as `S0W`). -/
def SV0 : SState := { S0W with ods := odsV }

/-- After the first step of the boundary-crossing run (same placement
as `S1W`: piece 1 at (1,2)). -/
def SV1 : SState := { S1W with ods := odsV }

/-- After the second step of the boundary-crossing run: piece 2 at
(0,2); the open-slot list now lists the neighbor cell (-1,2). -/
def SV2 : SState :=
  { pieces := [⟨0, 0, some 0, (2, 2)⟩, ⟨1, 0, some 0, (1, 2)⟩, ⟨2, 0, some 0, (0, 2)⟩,
      ⟨3, 0, none, (0, 0)⟩],
    piece_placed := [true, true, true, false],
    numb_unplaced_pieces := 1,
    open_locations := [⟨0, (2, 3), 0, Side.right⟩, ⟨0, (3, 2), 0, Side.bottom⟩,
      ⟨0, (2, 1), 0, Side.left⟩, ⟨0, (1, 3), 1, Side.right⟩, ⟨0, (1, 1), 1, Side.left⟩,
      ⟨0, (-1, 2), 2, Side.top⟩, ⟨0, (0, 3), 2, Side.right⟩, ⟨0, (0, 1), 2, Side.left⟩],
    piece_locations := [⟨4, [((0, 2), 2), ((1, 2), 1), ((2, 2), 0)]⟩],
    best_buddy_accuracy := [⟨0, [], [], []⟩],
    placed_puzzle_dimensions := [⟨(0, 2), (2, 2)⟩],
    best_buddies_pool := [],
    best_buddy_open_slot_heap := [],
    numb_puzzles := 1,
    last_best_buddy_heap_housekeeping := 3,
    ods := odsV }

/-- After the third step of the boundary-crossing run: piece 3 placed
at literal location (-1,2), whose occupancy write aliases cell (3,2);
the seed-created entry for (3,2) is still listed although its cell now
holds piece 3, and the neighbor (-2,2) of the new piece reads the
occupied seed cell (2,2) under the same wraparound (so no entry is
appended for it). -/
def SV3 : SState :=
  { pieces := [⟨0, 0, some 0, (2, 2)⟩, ⟨1, 0, some 0, (1, 2)⟩, ⟨2, 0, some 0, (0, 2)⟩,
      ⟨3, 0, some 0, (-1, 2)⟩],
    piece_placed := [true, true, true, true],
    numb_unplaced_pieces := 0,
    open_locations := [⟨0, (2, 3), 0, Side.right⟩, ⟨0, (3, 2), 0, Side.bottom⟩,
      ⟨0, (2, 1), 0, Side.left⟩, ⟨0, (1, 3), 1, Side.right⟩, ⟨0, (1, 1), 1, Side.left⟩,
      ⟨0, (0, 3), 2, Side.right⟩, ⟨0, (0, 1), 2, Side.left⟩,
      ⟨0, (-1, 3), 3, Side.right⟩, ⟨0, (-1, 1), 3, Side.left⟩],
    piece_locations := [⟨4, [((3, 2), 3), ((0, 2), 2), ((1, 2), 1), ((2, 2), 0)]⟩],
    best_buddy_accuracy := [⟨0, [], [], []⟩],
    placed_puzzle_dimensions := [⟨(-1, 2), (2, 2)⟩],
    best_buddies_pool := [],
    best_buddy_open_slot_heap := [],
    numb_puzzles := 1,
    last_best_buddy_heap_housekeeping := 3,
    ods := odsV }

/-- Segments for exercising C9: a 12-piece and a 6-piece segment (the
smaller one is at least half the maximum size). -/
def segAW : Segment := ⟨7, [0, 1, 2, 3, 4, 5, 6, 7, 8, 9, 10, 11]⟩

def segBW : Segment := ⟨9, [12, 13, 14, 15, 16, 17]⟩

/-- A fresh 30-piece controller state. -/
def mpW : MPState := ⟨30, [], [], 0, []⟩

/-- A valid heap entry at `S1W`-with-a-heap: piece 2 (unplaced) against
the open cell (1,1) of board 0. -/
def e1W : HeapInfo := ⟨2, Side.right, 1, Side.left, 0, (1, 1), 5⟩

/-- A stale heap entry: its candidate piece 0 is already placed. -/
def e2W : HeapInfo := ⟨0, Side.right, 1, Side.left, 0, (1, 1), 3⟩

/-- `S1W` with a two-entry best-buddy heap, one valid and one stale
(used to exercise heap compaction). -/
def stHW : SState := { S1W with best_buddy_open_slot_heap := [e1W, e2W] }

/-- A three-entry max-heap at `S1W`: a stale top entry (piece 0 already
placed, compatibility 9), the valid `e1W` (compatibility 5) and the
stale `e2W` (compatibility 3). -/
def hpW : List HeapInfo := [⟨0, Side.right, 1, Side.left, 0, (1, 1), 9⟩, e1W, e2W]

/-- The candidate popped from `hpW` at `S1W`: the stale 9-entry is
discarded and the valid 5-entry is selected. -/
def npHW : NextPieceToPlace := ⟨0, (1, 1), 2, Side.right, 1, Side.left, 5, true⟩

/-- The heap left over after popping `hpW` at `S1W`. -/
def restHW : List HeapInfo := [e2W]

/-- The candidate the source's piece-major scan selects at `S1C`:
piece 2 into cell (1,1), against neighbor 1. -/
def npC : NextPieceToPlace :=
  ⟨0, (1, 1), 2, Side.right, 1, Side.left, 5, false⟩

/-- The candidate a slot-major scan (the spec's stated enumeration
order) selects at `S1C`: piece 3 into cell (2,1), against neighbor 0. -/
def npD : NextPieceToPlace :=
  ⟨0, (2, 1), 3, Side.right, 0, Side.left, 5, false⟩

/-! ### Infrastructure lemmas -/

theorem foldl_preserves {α β : Type _} (P : β → Prop) (f : β → α → β)
    (h : ∀ b a, P b → P (f b a)) : ∀ (l : List α) (b : β), P b → P (l.foldl f b) := by
  intro l
  induction l with
  | nil => intro b hb; exact hb
  | cons a l ih => intro b hb; exact ih _ (h b a hb)

/-! List `set` permutation helpers, used to show the heap operations
permute their input. -/

theorem set_getD_self {α : Type _} :
    ∀ (l : List α) (i : Nat) (d : α), i < l.length → l.set i (l.getD i d) = l := by
  intro l
  induction l with
  | nil => intro i d h; simp at h
  | cons a t ih =>
    intro i d h
    cases i with
    | zero => rfl
    | succ k =>
      simp only [List.set_cons_succ, List.getD_cons_succ]
      rw [ih k d (by simpa using Nat.lt_of_succ_lt_succ h)]

theorem getD_set_of_ne {α : Type _} :
    ∀ (l : List α) (i j : Nat) (x : α) (d : α), i ≠ j →
      (l.set i x).getD j d = l.getD j d := by
  intro l
  induction l with
  | nil => intro i j x d _; rfl
  | cons a t ih =>
    intro i j x d hij
    cases i with
    | zero =>
      cases j with
      | zero => exact absurd rfl hij
      | succ k => rfl
    | succ m =>
      cases j with
      | zero => rfl
      | succ k =>
        simp only [List.set_cons_succ, List.getD_cons_succ]
        exact ih m k x d (fun h => hij (by rw [h]))

/-- Extracting the element at `k` while writing `x` there is a swap. -/
theorem extract_set_perm {α : Type _} :
    ∀ (l : List α) (k : Nat) (x : α) (d : α), k < l.length →
      (l.getD k d :: l.set k x).Perm (x :: l) := by
  intro l
  induction l with
  | nil => intro k x d h; simp at h
  | cons a t ih =>
    intro k x d h
    cases k with
    | zero => exact List.Perm.swap x a t
    | succ m =>
      simp only [List.getD_cons_succ, List.set_cons_succ]
      exact ((List.Perm.swap a (t.getD m d) (t.set m x)).trans
        (List.Perm.cons a (ih m x d (by simpa using Nat.lt_of_succ_lt_succ h)))).trans
        (List.Perm.swap x a t)

/-- Writing `a` or `x` at position `m` commutes with consing the other. -/
theorem cons_set_swap_perm {α : Type _} :
    ∀ (l : List α) (m : Nat) (a x : α), m < l.length →
      (x :: l.set m a).Perm (a :: l.set m x) := by
  intro l
  induction l with
  | nil => intro m a x h; simp at h
  | cons b t ih =>
    intro m a x h
    cases m with
    | zero => exact List.Perm.swap a x t
    | succ k =>
      simp only [List.set_cons_succ]
      exact ((List.Perm.swap b x (t.set k a)).trans
        (List.Perm.cons b (ih k a x (by simpa using Nat.lt_of_succ_lt_succ h)))).trans
        (List.Perm.swap a b (t.set k x))

/-- The double write of one sift step is, up to permutation, a single
write. -/
theorem set_set_perm {α : Type _} :
    ∀ (l : List α) (i j : Nat) (x : α) (d : α), i < l.length → j < l.length → i ≠ j →
      ((l.set i (l.getD j d)).set j x).Perm (l.set i x) := by
  intro l
  induction l with
  | nil => intro i j x d hi _ _; simp at hi
  | cons a t ih =>
    intro i j x d hi hj hij
    cases i with
    | zero =>
      cases j with
      | zero => exact absurd rfl hij
      | succ k =>
        simp only [List.getD_cons_succ, List.set_cons_zero, List.set_cons_succ]
        exact extract_set_perm t k x d (by simpa using Nat.lt_of_succ_lt_succ hj)
    | succ m =>
      cases j with
      | zero =>
        simp only [List.getD_cons_zero, List.set_cons_succ, List.set_cons_zero]
        exact cons_set_swap_perm t m a x (by simpa using Nat.lt_of_succ_lt_succ hi)
      | succ k =>
        simp only [List.getD_cons_succ, List.set_cons_succ]
        exact List.Perm.cons a (ih m k x d (by simpa using Nat.lt_of_succ_lt_succ hi)
          (by simpa using Nat.lt_of_succ_lt_succ hj) (fun h => hij (by rw [h])))

/-! The heap operations permute their input (plus the pushed element /
minus the popped one). -/

theorem siftdownAux_perm (pos : Nat) :
    ∀ (heap : List HeapInfo) (startpos : Nat) (newitem : HeapInfo), pos < heap.length →
    (siftdownAux heap startpos pos newitem).Perm (heap.set pos newitem) := by
  induction pos using Nat.strong_induction_on with
  | _ pos ih =>
    intro heap startpos newitem hpos
    rw [siftdownAux]
    split
    · next h =>
      split
      · next hc =>
        have hpar : (pos - 1) / 2 < pos := by omega
        have hrec := ih ((pos - 1) / 2) hpar
          (heap.set pos (heap.getD ((pos - 1) / 2) default)) startpos newitem
          (by simp only [List.length_set]; omega)
        exact hrec.trans (set_set_perm heap pos ((pos - 1) / 2) newitem default hpos
          (by omega) (by omega))
      · exact List.Perm.refl _
    · exact List.Perm.refl _

theorem siftupAux_perm_bounded (m : Nat) :
    ∀ (heap : List HeapInfo) (startpos pos : Nat) (newitem : HeapInfo) (endpos : Nat),
    endpos - pos ≤ m → pos < heap.length → endpos ≤ heap.length →
    (siftupAux heap startpos pos newitem endpos).Perm (heap.set pos newitem) := by
  induction m with
  | zero =>
    intro heap startpos pos newitem endpos hm hpos hend
    rw [siftupAux]
    split
    · next h => omega
    · have h1 := siftdownAux_perm pos (heap.set pos newitem) startpos newitem
        (by simpa using hpos)
      rw [List.set_set] at h1
      exact h1
  | succ m ih =>
    intro heap startpos pos newitem endpos hm hpos hend
    rw [siftupAux]
    split
    · next h =>
      split
      · next h2 =>
        have hrec := ih (heap.set pos (heap.getD (2 * pos + 2) default)) startpos
          (2 * pos + 2) newitem endpos (by omega)
          (by simp only [List.length_set]; omega) (by simp only [List.length_set]; omega)
        exact hrec.trans (set_set_perm heap pos (2 * pos + 2) newitem default hpos
          (by omega) (by omega))
      · next h2 =>
        have hrec := ih (heap.set pos (heap.getD (2 * pos + 1) default)) startpos
          (2 * pos + 1) newitem endpos (by omega)
          (by simp only [List.length_set]; omega) (by simp only [List.length_set]; omega)
        exact hrec.trans (set_set_perm heap pos (2 * pos + 1) newitem default hpos
          (by omega) (by omega))
    · have h1 := siftdownAux_perm pos (heap.set pos newitem) startpos newitem
        (by simpa using hpos)
      rw [List.set_set] at h1
      exact h1

theorem siftupAux_perm (heap : List HeapInfo) (startpos pos : Nat) (newitem : HeapInfo)
    (endpos : Nat) (hpos : pos < heap.length) (hend : endpos ≤ heap.length) :
    (siftupAux heap startpos pos newitem endpos).Perm (heap.set pos newitem) :=
  siftupAux_perm_bounded (endpos - pos) heap startpos pos newitem endpos le_rfl hpos hend

theorem append_singleton_set_last {α : Type _} :
    ∀ (l : List α) (x y : α), (l ++ [x]).set l.length y = l ++ [y] := by
  intro l
  induction l with
  | nil => intro x y; rfl
  | cons a t ih =>
    intro x y
    simp only [List.cons_append, List.length_cons, List.set_cons_succ]
    rw [ih]

theorem heappush_perm (heap : List HeapInfo) (item : HeapInfo) :
    (heappush heap item).Perm (item :: heap) := by
  unfold heappush
  have h1 := siftdownAux_perm heap.length (heap ++ [item]) 0 item (by simp)
  rw [append_singleton_set_last] at h1
  exact h1.trans (List.perm_append_singleton item heap)

theorem headD_eq_getD_zero {α : Type _} (l : List α) (d : α) : l.headD d = l.getD 0 d := by
  cases l <;> rfl

theorem heappop_perm (heap : List HeapInfo) (e : HeapInfo) (rest : List HeapInfo)
    (h : heappop heap = Except.ok (e, rest)) : (e :: rest).Perm heap := by
  match heap with
  | [] => simp [heappop] at h
  | x :: xs =>
    rw [heappop] at h
    by_cases he : ((x :: xs).dropLast).isEmpty
    · rw [if_pos he] at h
      simp only [Except.ok.injEq, Prod.mk.injEq] at h
      obtain ⟨rfl, rfl⟩ := h
      have hx : xs = [] := by
        cases xs with
        | nil => rfl
        | cons y ys => simp [List.dropLast_cons₂] at he
      subst hx
      exact List.Perm.refl _
    · rw [if_neg he] at h
      simp only [Except.ok.injEq, Prod.mk.injEq] at h
      obtain ⟨he1, he2⟩ := h
      subst he2
      subst he1
      have hrlen : 0 < ((x :: xs).dropLast).length := by
        cases hq : (x :: xs).dropLast with
        | nil => rw [hq] at he; simp at he
        | cons z zs => simp
      have hperm := siftupAux_perm (((x :: xs).dropLast).set 0
          ((x :: xs).getLast (List.cons_ne_nil x xs))) 0 0
          ((x :: xs).getLast (List.cons_ne_nil x xs)) ((x :: xs).dropLast).length
          (by simpa using hrlen) (by simp)
      rw [List.set_set] at hperm
      have h2 : (((x :: xs).dropLast).headD default ::
          ((x :: xs).dropLast).set 0 ((x :: xs).getLast (List.cons_ne_nil x xs))).Perm
          ((x :: xs).getLast (List.cons_ne_nil x xs) :: (x :: xs).dropLast) := by
        rw [headD_eq_getD_zero]
        exact extract_set_perm ((x :: xs).dropLast) 0
          ((x :: xs).getLast (List.cons_ne_nil x xs)) default hrlen
      have h3 : ((x :: xs).getLast (List.cons_ne_nil x xs) :: (x :: xs).dropLast).Perm
          (x :: xs) := by
        have hsplit := List.dropLast_concat_getLast (List.cons_ne_nil x xs)
        conv_rhs => rw [← hsplit]
        exact (List.perm_append_singleton _ _).symm
      exact (List.Perm.cons _ hperm).trans (h2.trans h3)

theorem heapifyAux_perm :
    ∀ (i : Nat) (heap : List HeapInfo), i ≤ heap.length →
    (heapifyAux heap i).Perm heap := by
  intro i
  induction i with
  | zero => intro heap _; exact List.Perm.refl _
  | succ k ih =>
    intro heap hk
    have hs := siftupAux_perm heap k k (heap.getD k default) heap.length (by omega) le_rfl
    rw [set_getD_self heap k default (by omega)] at hs
    have hlen := length_siftupAux heap k k (heap.getD k default) heap.length
    exact (ih _ (by rw [hlen]; omega)).trans hs

theorem heapify_perm (heap : List HeapInfo) : (heapify heap).Perm heap :=
  heapifyAux_perm (heap.length / 2) heap (Nat.div_le_self _ _)

theorem mem_heappush {x item : HeapInfo} {heap : List HeapInfo}
    (hx : x ∈ heappush heap item) : x = item ∨ x ∈ heap := by
  have := (heappush_perm heap item).mem_iff.mp hx
  simpa using this

/-- Every entry `popNextPiece` returns or keeps comes from the input
heap, and the returned candidate passed the placement and open-slot
checks. -/
theorem popNextPiece_mem (cfg : Config) (st : SState) :
    ∀ (n : Nat) (heap : List HeapInfo), heap.length ≤ n →
    ∀ (np : NextPieceToPlace) (rest : List HeapInfo),
    popNextPiece cfg st heap = Except.ok (np, rest) →
    (∃ eh, eh ∈ heap ∧
      np = ⟨eh.puzzle_id, eh.location, eh.bb_id, eh.bb_side, eh.neighbor_id,
            eh.neighbor_side, eh.mutual_compatibility, true⟩ ∧
      placedAt st eh.bb_id = false ∧ isSlotOpen cfg st eh.puzzle_id eh.location = true) ∧
    ∀ x ∈ rest, x ∈ heap := by
  intro n
  induction n with
  | zero =>
    intro heap hn np rest h
    have : heap = [] := List.length_eq_zero.mp (by omega)
    subst this
    rw [popNextPiece] at h
    simp [heappop] at h
  | succ n ih =>
    intro heap hn np rest h
    rw [popNextPiece] at h
    split at h
    · exact Except.noConfusion h
    · next heap_info rest' hpop =>
      have hperm := heappop_perm heap heap_info rest' hpop
      have hmem : heap_info ∈ heap := hperm.mem_iff.mp (List.mem_cons_self _ _)
      have hsub : ∀ x ∈ rest', x ∈ heap := fun x hx =>
        hperm.mem_iff.mp (List.mem_cons_of_mem _ hx)
      split at h
      · next hvalid =>
        simp only [Except.ok.injEq, Prod.mk.injEq] at h
        obtain ⟨rfl, rfl⟩ := h
        simp only [Bool.and_eq_true, Bool.not_eq_true'] at hvalid
        exact ⟨⟨heap_info, hmem, rfl, hvalid.1, hvalid.2⟩, hsub⟩
      · have hlen := length_heappop heap heap_info rest' hpop
        obtain ⟨⟨eh, hehmem, hehe⟩, hrsub⟩ := ih rest' (by omega) np rest h
        exact ⟨⟨eh, hsub eh hehmem, hehe⟩, fun x hx => hsub x (hrsub x hx)⟩

/-- Heap compaction keeps only entries of the original heap (which in
addition pass the validity filter). -/
theorem cleanBestBuddyHeap_mem (cfg : Config) (st : SState) {x : HeapInfo}
    (hx : x ∈ (cleanBestBuddyHeap cfg st).best_buddy_open_slot_heap) :
    x ∈ st.best_buddy_open_slot_heap ∧ heapEntryStillValid cfg st x = true := by
  have h1 : x ∈ st.best_buddy_open_slot_heap.filter (heapEntryStillValid cfg st) :=
    (heapify_perm _).mem_iff.mp hx
  exact ⟨List.mem_of_mem_filter h1, List.of_mem_filter h1⟩

theorem addBestBuddiesToPool_shape (cfg : Config) (st : SState) (piece_id : Nat) :
    ∃ pl hp, addBestBuddiesToPool cfg st piece_id =
      { st with best_buddies_pool := pl, best_buddy_open_slot_heap := hp } := by
  unfold addBestBuddiesToPool
  apply foldl_preserves
    (fun s : SState => ∃ pl hp, s = { st with best_buddies_pool := pl, best_buddy_open_slot_heap := hp })
  · intro b side hb
    apply foldl_preserves
      (fun s : SState => ∃ pl hp, s = { st with best_buddies_pool := pl, best_buddy_open_slot_heap := hp })
    · intro b2 bb hb2
      obtain ⟨pl, hp, rfl⟩ := hb2
      dsimp only
      split
      · exact ⟨pl, hp, rfl⟩
      · apply foldl_preserves
          (fun s : SState => ∃ pl hp, s = { st with best_buddies_pool := pl, best_buddy_open_slot_heap := hp })
        · intro b3 slot hb3
          apply foldl_preserves
            (fun s : SState => ∃ pl hp, s = { st with best_buddies_pool := pl, best_buddy_open_slot_heap := hp })
          · intro b4 bbs hb4
            obtain ⟨pl4, hp4, rfl⟩ := hb4
            exact ⟨pl4, _, rfl⟩
          · exact hb3
        · exact ⟨pl ++ [bb.1], hp, rfl⟩
    · exact hb
  · exact ⟨st.best_buddies_pool, st.best_buddy_open_slot_heap, rfl⟩

theorem updateOpenSlots_shape (cfg : Config) (st : SState) (p : Piece) :
    ∃ ol hp, updateOpenSlots cfg st p =
      { st with open_locations := ol, best_buddy_open_slot_heap := hp } := by
  unfold updateOpenSlots
  apply foldl_preserves
    (fun s : SState => ∃ ol hp, s = { st with open_locations := ol, best_buddy_open_slot_heap := hp })
  · intro b ls hb
    obtain ⟨ol, hp, rfl⟩ := hb
    dsimp only
    split
    · apply foldl_preserves
        (fun s : SState => ∃ ol hp, s = { st with open_locations := ol, best_buddy_open_slot_heap := hp })
      · intro b2 bb hb2
        apply foldl_preserves
          (fun s : SState => ∃ ol hp, s = { st with open_locations := ol, best_buddy_open_slot_heap := hp })
        · intro b3 bbs hb3
          obtain ⟨ol3, hp3, rfl⟩ := hb3
          exact ⟨ol3, _, rfl⟩
        · exact hb2
      · exact ⟨ol ++ [⟨p.puzzle_id.getD 0, ls.1, p.id_number, ls.2⟩], hp, rfl⟩
    · exact ⟨ol, hp, rfl⟩
  · exact ⟨st.open_locations, st.best_buddy_open_slot_heap, rfl⟩

theorem modifyAcc_shape (st : SState) (pid : Nat) (f : BBAccuracy → BBAccuracy) :
    ∃ acc, modifyAcc st pid f = { st with best_buddy_accuracy := acc } :=
  ⟨_, rfl⟩

theorem ubbaPlacedPart_shape (st : SState) (puzzle_id placed_piece_id : Nat) (side : Side)
    (isOpen : Bool) :
    ∃ acc, ubbaPlacedPart st puzzle_id placed_piece_id side isOpen =
      { st with best_buddy_accuracy := acc } := by
  unfold ubbaPlacedPart
  split
  · exact ⟨st.best_buddy_accuracy, rfl⟩
  · dsimp only
    split
    · exact ⟨_, rfl⟩
    · split
      · exact ⟨_, rfl⟩
      · exact ⟨st.best_buddy_accuracy, rfl⟩

theorem ubbaStep_shape (st : SState) (puzzle_id placed_piece_id : Nat) (ls : Loc × Side) :
    ∃ acc, ubbaStep st puzzle_id placed_piece_id ls =
      { st with best_buddy_accuracy := acc } := by
  unfold ubbaStep
  dsimp only
  split
  · exact ubbaPlacedPart_shape _ _ _ _ _
  · split
    · exact ubbaPlacedPart_shape _ _ _ _ _
    · split
      · split
        · exact ⟨_, rfl⟩
        · obtain ⟨acc, h⟩ := ubbaPlacedPart_shape (modifyAcc st puzzle_id _) puzzle_id
            placed_piece_id ls.2 false
          rw [h]
          exact ⟨acc, rfl⟩
      · obtain ⟨acc, h⟩ := ubbaPlacedPart_shape (modifyAcc st puzzle_id _) puzzle_id
          placed_piece_id ls.2 false
        rw [h]
        exact ⟨acc, rfl⟩

theorem updateBestBuddyAccuracy_shape (st : SState) (puzzle_id placed_piece_id : Nat) :
    ∃ acc, updateBestBuddyAccuracy st puzzle_id placed_piece_id =
      { st with best_buddy_accuracy := acc } := by
  unfold updateBestBuddyAccuracy
  apply foldl_preserves (fun s : SState => ∃ acc, s = { st with best_buddy_accuracy := acc })
  · intro b ls hb
    obtain ⟨acc, rfl⟩ := hb
    obtain ⟨acc2, h2⟩ := ubbaStep_shape { st with best_buddy_accuracy := acc }
      puzzle_id placed_piece_id ls
    rw [h2]
    exact ⟨acc2, rfl⟩
  · exact ⟨st.best_buddy_accuracy, rfl⟩

theorem removeBestBuddyFromPool_shape (cfg : Config) (st : SState) (piece_id : Nat)
    (st' : SState) (h : removeBestBuddyFromPool cfg st piece_id = Except.ok st') :
    st' = { st with best_buddies_pool := st.best_buddies_pool.erase piece_id } := by
  unfold removeBestBuddyFromPool at h
  split at h
  · cases h
  · split at h
    · cases h; rfl
    · cases h

theorem updatedPuzzleDimensions_shape (cfg : Config) (st : SState) (puzzle_id : Nat) (loc : Loc)
    (st' : SState) (h : updatedPuzzleDimensions cfg st puzzle_id loc = Except.ok st') :
    st' = { st with placed_puzzle_dimensions := st.placed_puzzle_dimensions.set puzzle_id (growBox (st.placed_puzzle_dimensions.getD puzzle_id default) loc) } := by
  unfold updatedPuzzleDimensions at h
  split at h
  · cases h
  · cases h; rfl

/-- Fields preserved by the middle of `_place_normal_piece`: occupancy
write, accuracy update, placement marking and open-slot removal. -/
theorem midChain_fields (s : SState) (pid piece_id : Nat) (loc : Loc) (v : Int) :
    (removeOpenSlot (markPiecePlaced (updateBestBuddyAccuracy (setOcc s pid loc v) pid piece_id)
      piece_id) pid loc).numb_puzzles = s.numb_puzzles ∧
    (removeOpenSlot (markPiecePlaced (updateBestBuddyAccuracy (setOcc s pid loc v) pid piece_id)
      piece_id) pid loc).numb_unplaced_pieces = s.numb_unplaced_pieces - 1 ∧
    (removeOpenSlot (markPiecePlaced (updateBestBuddyAccuracy (setOcc s pid loc v) pid piece_id)
      piece_id) pid loc).last_best_buddy_heap_housekeeping = s.last_best_buddy_heap_housekeeping ∧
    (removeOpenSlot (markPiecePlaced (updateBestBuddyAccuracy (setOcc s pid loc v) pid piece_id)
      piece_id) pid loc).ods = s.ods := by
  obtain ⟨acc, hacc⟩ := updateBestBuddyAccuracy_shape (setOcc s pid loc v) pid piece_id
  rw [hacc]
  exact ⟨rfl, rfl, rfl, rfl⟩

/-- `placeTail` only changes the pool, the heap and the open-slot list. -/
theorem placeTail_fields (cfg : Config) (s6 : SState) (p : Piece) (bb : Bool) (st' : SState)
    (h : placeTail cfg s6 p bb = Except.ok st') :
    st'.numb_puzzles = s6.numb_puzzles ∧
    st'.numb_unplaced_pieces = s6.numb_unplaced_pieces ∧
    st'.last_best_buddy_heap_housekeeping = s6.last_best_buddy_heap_housekeeping ∧
    st'.ods = s6.ods := by
  unfold placeTail at h
  generalize hpool : (if bb then removeBestBuddyFromPool cfg s6 p.id_number
    else Except.ok s6) = rPool at h
  cases rPool with
  | error e => simp at h
  | ok st7 =>
    simp only [Except.ok.injEq] at h
    subst h
    obtain ⟨ol, hp, hu⟩ := updateOpenSlots_shape cfg (addBestBuddiesToPool cfg st7 p.id_number) p
    rw [hu]
    obtain ⟨pl2, hp2, ha⟩ := addBestBuddiesToPool_shape cfg st7 p.id_number
    rw [ha]
    have h7 : st7.numb_puzzles = s6.numb_puzzles ∧
        st7.numb_unplaced_pieces = s6.numb_unplaced_pieces ∧
        st7.last_best_buddy_heap_housekeeping = s6.last_best_buddy_heap_housekeeping ∧
        st7.ods = s6.ods := by
      split at hpool
      · have h6 := removeBestBuddyFromPool_shape _ _ _ _ hpool
        rw [h6]
        exact ⟨rfl, rfl, rfl, rfl⟩
      · cases hpool
        exact ⟨rfl, rfl, rfl, rfl⟩
    exact h7
  
/-- `_place_normal_piece` never touches the board counter, the
housekeeping baseline or the oracle state, and always places exactly one
piece. -/
theorem placeNormalPiece_fields (cfg : Config) (st : SState) (np : NextPieceToPlace)
    (st' : SState) (h : placeNormalPiece cfg st np = Except.ok st') :
    st'.numb_puzzles = st.numb_puzzles ∧
    st'.numb_unplaced_pieces = st.numb_unplaced_pieces - 1 ∧
    st'.last_best_buddy_heap_housekeeping = st.last_best_buddy_heap_housekeeping ∧
    st'.ods = st.ods := by
  unfold placeNormalPiece at h
  dsimp only at h
  split at h
  · cases h
  · next st2 hdim =>
    have hs2 := updatedPuzzleDimensions_shape _ _ _ _ _ hdim
    have h2a : st2.numb_puzzles = st.numb_puzzles := by rw [hs2]
    have h2b : st2.numb_unplaced_pieces = st.numb_unplaced_pieces := by rw [hs2]
    have h2c : st2.last_best_buddy_heap_housekeeping =
        st.last_best_buddy_heap_housekeeping := by rw [hs2]
    have h2d : st2.ods = st.ods := by rw [hs2]
    have hchain := midChain_fields st2 np.puzzle_id (placedPieceRecord st np).id_number
      (placedPieceRecord st np).location (Int.ofNat (placedPieceRecord st np).id_number)
    generalize hch : removeOpenSlot (markPiecePlaced (updateBestBuddyAccuracy
        (setOcc st2 np.puzzle_id (placedPieceRecord st np).location
          (Int.ofNat (placedPieceRecord st np).id_number)) np.puzzle_id
        (placedPieceRecord st np).id_number) (placedPieceRecord st np).id_number)
        np.puzzle_id (placedPieceRecord st np).location = s6 at h hchain
    have hT := placeTail_fields cfg s6 (placedPieceRecord st np) np.is_best_buddy st' h
    refine ⟨?_, ?_, ?_, ?_⟩ <;>
      simp only [hT.1, hT.2.1, hT.2.2.1, hT.2.2.2,
        hchain.1, hchain.2.1, hchain.2.2.1, hchain.2.2.2, h2a, h2b, h2c, h2d]

/-- Branches of the seed-candidate refresh only change the oracle state. -/
theorem findStartIf_fields (st : SState) (o : OracleState) (c : Bool) :
    (if c then { st with ods := o } else st).numb_puzzles = st.numb_puzzles ∧
    (if c then { st with ods := o } else st).numb_unplaced_pieces = st.numb_unplaced_pieces ∧
    (if c then { st with ods := o } else st).pieces = st.pieces ∧
    (if c then { st with ods := o } else st).piece_placed = st.piece_placed := by
  split <;> exact ⟨rfl, rfl, rfl, rfl⟩

/-- Fields preserved by the tail of `_place_seed_piece`: accuracy
update, pooling of the seed's best buddies and open-slot creation. -/
theorem seedTail_fields (cfg : Config) (s : SState) (pid pieceid pid2 : Nat) (p : Piece) :
    (updateOpenSlots cfg (addBestBuddiesToPool cfg (updateBestBuddyAccuracy s pid pieceid) pid2)
      p).numb_puzzles = s.numb_puzzles ∧
    (updateOpenSlots cfg (addBestBuddiesToPool cfg (updateBestBuddyAccuracy s pid pieceid) pid2)
      p).numb_unplaced_pieces = s.numb_unplaced_pieces := by
  obtain ⟨acc, hacc⟩ := updateBestBuddyAccuracy_shape s pid pieceid
  rw [hacc]
  obtain ⟨pl2, hp2, ha⟩ := addBestBuddiesToPool_shape cfg { s with best_buddy_accuracy := acc } pid2
  rw [ha]
  obtain ⟨ol, hp, hu⟩ := updateOpenSlots_shape cfg
    { s with best_buddy_accuracy := acc, best_buddies_pool := pl2, best_buddy_open_slot_heap := hp2 } p
  rw [hu]
  exact ⟨rfl, rfl⟩

/-- `_place_seed_piece` creates exactly one new board and places exactly
one piece. -/
theorem placeSeedPiece_fields (cfg : Config) (orc : Oracle) (st : SState) :
    (placeSeedPiece cfg orc st).numb_puzzles = st.numb_puzzles + 1 ∧
    (placeSeedPiece cfg orc st).numb_unplaced_pieces = st.numb_unplaced_pieces - 1 := by
  unfold placeSeedPiece
  dsimp only
  split
  all_goals {
    rw [(seedTail_fields _ _ _ _ _ _).1, (seedTail_fields _ _ _ _ _ _).2]
    simp [setOcc, markPiecePlaced] }

/-- `_spawn_new_board` creates exactly one new board and places exactly
one piece (the new seed). -/
theorem spawnNewBoard_fields (cfg : Config) (orc : Oracle) (st : SState) :
    (spawnNewBoard cfg orc st).numb_puzzles = st.numb_puzzles + 1 ∧
    (spawnNewBoard cfg orc st).numb_unplaced_pieces = st.numb_unplaced_pieces - 1 := by
  unfold spawnNewBoard
  split
  · exact placeSeedPiece_fields cfg orc _
  · exact placeSeedPiece_fields cfg orc _

/-- `_find_next_piece` never changes the piece bookkeeping: it only pops
the heap (and possibly compacts it or refreshes the oracle state). -/
theorem findNextPiece_fields (cfg : Config) (orc : Oracle) (st : SState)
    (np : Option NextPieceToPlace) (st1 : SState)
    (h : findNextPiece cfg orc st = Except.ok (np, st1)) :
    st1.numb_puzzles = st.numb_puzzles ∧
    st1.numb_unplaced_pieces = st.numb_unplaced_pieces ∧
    st1.pieces = st.pieces ∧
    st1.piece_placed = st.piece_placed := by
  unfold findNextPiece at h
  split at h
  · split at h
    · dsimp only at h
      split at h
      · cases h
      · cases h
        unfold cleanBestBuddyHeap
        exact ⟨rfl, rfl, rfl, rfl⟩
    · dsimp only at h
      split at h
      · cases h
      · cases h
        exact ⟨rfl, rfl, rfl, rfl⟩
  · cases h
    exact ⟨rfl, rfl, rfl, rfl⟩

/-- `stepOnce` always places exactly one piece. -/
theorem stepOnce_unplaced (cfg : Config) (orc : Oracle) (st st' : SState)
    (h : stepOnce cfg orc st = Except.ok st') :
    st'.numb_unplaced_pieces = st.numb_unplaced_pieces - 1 := by
  have h2 : (match findNextPiece cfg orc st with
    | Except.error e => Except.error e
    | Except.ok (none, _) => Except.error (PyErr.attributeError "mutual_compatibility")
    | Except.ok (some next_piece, st1) =>
      if st1.numb_puzzles < cfg.actual_numb_puzzles ∧
          next_piece.mutual_compatibility < cfg.new_board_mutual_compatibility then
        Except.ok (spawnNewBoard cfg orc st1)
      else placeNormalPiece cfg st1 next_piece) = Except.ok st' := h
  clear h
  cases hfind : findNextPiece cfg orc st with
  | error e => rw [hfind] at h2; cases h2
  | ok pr =>
    obtain ⟨np?, st1⟩ := pr
    rw [hfind] at h2
    cases np? with
    | none =>
      have h3 : (Except.error (PyErr.attributeError "mutual_compatibility") : Except PyErr SState) =
          Except.ok st' := h2
      cases h3
    | some np =>
      have h3 : (if st1.numb_puzzles < cfg.actual_numb_puzzles ∧
            np.mutual_compatibility < cfg.new_board_mutual_compatibility then
          (Except.ok (spawnNewBoard cfg orc st1) : Except PyErr SState)
        else placeNormalPiece cfg st1 np) = Except.ok st' := h2
      clear h2
      have hf := findNextPiece_fields cfg orc st (some np) st1 hfind
      generalize hsp : spawnNewBoard cfg orc st1 = sSpawn at h3
      generalize hpl : placeNormalPiece cfg st1 np = rPlace at h3
      split at h3
      · cases h3
        rw [← hsp, (spawnNewBoard_fields cfg orc st1).2, hf.2.1]
      · rw [← hpl] at h3
        have := placeNormalPiece_fields cfg st1 np st' h3
        rw [this.2.1, hf.2.1]

/-- A completed run loop has no unplaced pieces left. -/
theorem runLoop_ok_unplaced (cfg : Config) (orc : Oracle) (fuel : Nat) :
    ∀ (st st' : SState), runLoop cfg orc fuel st = Except.ok st' →
      st'.numb_unplaced_pieces = 0 := by
  induction fuel with
  | zero =>
    intro st st' h
    have h2 : (if 0 < st.numb_unplaced_pieces then (Except.error PyErr.outOfFuel : Except PyErr SState)
      else Except.ok st) = Except.ok st' := h
    by_cases hn : 0 < st.numb_unplaced_pieces
    · rw [if_pos hn] at h2; cases h2
    · rw [if_neg hn] at h2; cases h2; omega
  | succ f ih =>
    intro st st' h
    have h2 : (if 0 < st.numb_unplaced_pieces then
        (match stepOnce cfg orc st with
         | Except.error e => Except.error e
         | Except.ok st2 => runLoop cfg orc f st2)
      else Except.ok st) = Except.ok st' := h
    clear h
    generalize hstep : stepOnce cfg orc st = rStep at h2
    by_cases hn : 0 < st.numb_unplaced_pieces
    · rw [if_pos hn] at h2
      cases rStep with
      | error e =>
        have h3 : (Except.error e : Except PyErr SState) = Except.ok st' := h2
        cases h3
      | ok st2 =>
        have h3 : runLoop cfg orc f st2 = Except.ok st' := h2
        exact ih st2 st' h3
    · rw [if_neg hn] at h2; cases h2; omega

/-- A run loop started with no unplaced pieces stops at once. -/
theorem runLoop_done (cfg : Config) (orc : Oracle) (fuel : Nat) (st : SState)
    (h0 : st.numb_unplaced_pieces = 0) : runLoop cfg orc fuel st = Except.ok st := by
  have : ¬ 0 < st.numb_unplaced_pieces := by omega
  cases fuel with
  | zero => rw [runLoop, if_neg this]
  | succ f => rw [runLoop, if_neg this]

/-! Stage equations of the four-piece run. -/

theorem seedW_eq : seededState cfgW orcW piecesW = S0W := by rfl

theorem stepW_eq1 : stepOnce cfgW orcW S0W = Except.ok S1W := by rfl

theorem stepW_eq2 : stepOnce cfgW orcW S1W = Except.ok S2W := by rfl

theorem stepW_eq3 : stepOnce cfgW orcW S2W = Except.ok S3W := by rfl

theorem finalW_eq : finalChecks cfgW S3W = Except.ok S4W := by rfl

theorem runLoopW_eq : runLoop cfgW orcW 3 S0W = Except.ok S3W := by
  have e1 : runLoop cfgW orcW 3 S0W = runLoop cfgW orcW 2 S1W := by
    conv_lhs => rw [runLoop]
    rw [if_pos (by decide : 0 < S0W.numb_unplaced_pieces), stepW_eq1]
  have e2 : runLoop cfgW orcW 2 S1W = runLoop cfgW orcW 1 S2W := by
    conv_lhs => rw [runLoop]
    rw [if_pos (by decide : 0 < S1W.numb_unplaced_pieces), stepW_eq2]
  have e3 : runLoop cfgW orcW 1 S2W = runLoop cfgW orcW 0 S3W := by
    conv_lhs => rw [runLoop]
    rw [if_pos (by decide : 0 < S2W.numb_unplaced_pieces), stepW_eq3]
  have e4 : runLoop cfgW orcW 0 S3W = Except.ok S3W := by
    rw [runLoop, if_neg (by decide : ¬ 0 < S3W.numb_unplaced_pieces)]
  rw [e1, e2, e3, e4]

theorem runSolverW_eq : runSolver cfgW orcW piecesW = Except.ok S4W := by
  unfold runSolver
  rw [if_neg (by decide : ¬ (1 < cfgW.actual_numb_puzzles ∧ cfgW.fixed_puzzle_dimensions.isSome))]
  rw [seedW_eq]
  rw [show S0W.numb_unplaced_pieces = 3 from rfl]
  rw [runLoopW_eq]
  exact finalW_eq

/-! Fold correspondence for the global-recompute scan. -/

theorem foldl_ext {α β : Type _} (f g : β → α → β) (hfg : ∀ b a, f b a = g b a) :
    ∀ (l : List α) (b : β), l.foldl f b = l.foldl g b := by
  intro l
  induction l with
  | nil => intro b; rfl
  | cons a l ih => intro b; rw [List.foldl_cons, List.foldl_cons, hfg]; exact ih _

theorem foldl_flatMap_eq {α β γ : Type _} (g : γ → List α) (f : β → α → β) :
    ∀ (l : List γ) (b : β),
      (l.flatMap g).foldl f b = l.foldl (fun acc c => (g c).foldl f acc) b := by
  intro l
  induction l with
  | nil => intro b; rfl
  | cons a l ih =>
    intro b
    rw [List.flatMap_cons, List.foldl_append, List.foldl_cons]
    exact ih _

theorem foldl_filter_eq {α β : Type _} (p : α → Bool) (f : β → α → β) :
    ∀ (l : List α) (b : β),
      (l.filter p).foldl f b = l.foldl (fun acc x => if p x then f acc x else acc) b := by
  intro l
  induction l with
  | nil => intro b; rfl
  | cons a l ih =>
    intro b
    rw [List.filter_cons, List.foldl_cons]
    cases h : p a
    · simp only [Bool.false_eq_true, if_false]
      rw [ih]
    · simp only [if_true]
      rw [List.foldl_cons, ih]

theorem poolScanSides_eq (cfg : Config) (st : SState) (pid : Nat) (open_slot : OpenSlot)
    (b : Option NextPieceToPlace) :
    poolScanSides cfg st pid open_slot b =
      ((cfg.valid_neighbor_sides open_slot.open_side).map
        (poolCandidate st pid open_slot)).foldl foldBest b := by
  unfold poolScanSides
  rw [List.foldl_map]
  apply foldl_ext
  intro acc side
  cases acc <;> rfl

theorem poolScanSlots_eq (cfg : Config) (st : SState) (pid : Nat)
    (b : Option NextPieceToPlace) :
    poolScanSlots cfg st pid b =
      ((st.open_locations.filter
          (fun s => isSlotOpen cfg st s.puzzle_id s.location)).flatMap
        (fun open_slot => (cfg.valid_neighbor_sides open_slot.open_side).map
          (poolCandidate st pid open_slot))).foldl foldBest b := by
  unfold poolScanSlots
  rw [foldl_flatMap_eq, foldl_filter_eq]
  apply foldl_ext
  intro acc slot
  cases h : isSlotOpen cfg st slot.puzzle_id slot.location
  · simp only [h, Bool.not_false, if_true, Bool.false_eq_true, if_false]
  · simp only [h, Bool.not_true, Bool.false_eq_true, if_false, if_true]
    exact poolScanSides_eq cfg st pid slot acc

theorem getNextPieceFromPool_eq_fold (cfg : Config) (st : SState) (unplaced : List Nat) :
    getNextPieceFromPool cfg st unplaced =
      (pieceMajorCandidates cfg st unplaced).foldl foldBest none := by
  unfold getNextPieceFromPool pieceMajorCandidates
  rw [foldl_flatMap_eq]
  apply foldl_ext
  intro acc pid
  exact poolScanSlots_eq cfg st pid acc

/-! Characterisation of the running-best fold: it returns the first
element attaining the maximal mutual compatibility. -/

theorem foldBest_some_char :
    ∀ (L : List NextPieceToPlace) (b : NextPieceToPlace),
      (L.foldl foldBest (some b) = some b ∧
        ∀ c ∈ L, c.mutual_compatibility ≤ b.mutual_compatibility) ∨
      (∃ m L₁ L₂, L.foldl foldBest (some b) = some m ∧ L = L₁ ++ m :: L₂ ∧
        b.mutual_compatibility < m.mutual_compatibility ∧
        (∀ c ∈ L, c.mutual_compatibility ≤ m.mutual_compatibility) ∧
        (∀ c ∈ L₁, c.mutual_compatibility < m.mutual_compatibility)) := by
  intro L
  induction L with
  | nil =>
    intro b
    exact Or.inl ⟨rfl, fun c hc => absurd hc (List.not_mem_nil c)⟩
  | cons a L ih =>
    intro b
    rw [List.foldl_cons]
    by_cases hba : b.mutual_compatibility < a.mutual_compatibility
    · have hstep : foldBest (some b) a = some a := by simp [foldBest, hba]
      rw [hstep]
      rcases ih a with ⟨heq, hall⟩ | ⟨m, L₁, L₂, heq, hdec, hlt, hall, hfirst⟩
      · refine Or.inr ⟨a, [], L, heq, rfl, hba, ?_, ?_⟩
        · intro c hc
          rcases List.mem_cons.mp hc with rfl | hc
          · exact le_refl _
          · exact hall c hc
        · intro c hc
          exact absurd hc (List.not_mem_nil c)
      · refine Or.inr ⟨m, a :: L₁, L₂, heq, by rw [hdec]; rfl, lt_trans hba hlt, ?_, ?_⟩
        · intro c hc
          rcases List.mem_cons.mp hc with rfl | hc
          · exact le_of_lt hlt
          · exact hall c hc
        · intro c hc
          rcases List.mem_cons.mp hc with rfl | hc
          · exact hlt
          · exact hfirst c hc
    · have hstep : foldBest (some b) a = some b := by simp [foldBest, hba]
      rw [hstep]
      rcases ih b with ⟨heq, hall⟩ | ⟨m, L₁, L₂, heq, hdec, hlt, hall, hfirst⟩
      · refine Or.inl ⟨heq, ?_⟩
        intro c hc
        rcases List.mem_cons.mp hc with rfl | hc
        · exact le_of_not_lt hba
        · exact hall c hc
      · refine Or.inr ⟨m, a :: L₁, L₂, heq, by rw [hdec]; rfl, hlt, ?_, ?_⟩
        · intro c hc
          rcases List.mem_cons.mp hc with rfl | hc
          · exact le_of_lt (lt_of_le_of_lt (le_of_not_lt hba) hlt)
          · exact hall c hc
        · intro c hc
          rcases List.mem_cons.mp hc with rfl | hc
          · exact lt_of_le_of_lt (le_of_not_lt hba) hlt
          · exact hfirst c hc

theorem foldl_foldBest_none_char (L : List NextPieceToPlace) :
    (L.foldl foldBest none = none ↔ L = []) ∧
    ∀ np, L.foldl foldBest none = some np →
      np ∈ L ∧ (∀ c ∈ L, c.mutual_compatibility ≤ np.mutual_compatibility) ∧
      ∃ L₁ L₂, L = L₁ ++ np :: L₂ ∧
        ∀ c ∈ L₁, c.mutual_compatibility < np.mutual_compatibility := by
  cases L with
  | nil =>
    refine ⟨by simp, ?_⟩
    intro np h
    exact Option.noConfusion h
  | cons a L =>
    have hstep : foldBest none a = some a := rfl
    constructor
    · constructor
      · intro h
        exfalso
        rw [List.foldl_cons, hstep] at h
        rcases foldBest_some_char L a with ⟨heq, _⟩ | ⟨m, L₁, L₂, heq, _⟩
        · rw [heq] at h; exact Option.noConfusion h
        · rw [heq] at h; exact Option.noConfusion h
      · intro h
        exact absurd h (List.cons_ne_nil a L)
    · intro np h
      rw [List.foldl_cons, hstep] at h
      rcases foldBest_some_char L a with ⟨heq, hall⟩ | ⟨m, L₁, L₂, heq, hdec, hlt, hall, hfirst⟩
      · rw [heq] at h
        obtain rfl := Option.some.inj h
        refine ⟨List.mem_cons_self a L, ?_, [], L, rfl, ?_⟩
        · intro c hc
          rcases List.mem_cons.mp hc with rfl | hc
          · exact le_refl _
          · exact hall c hc
        · intro c hc
          exact absurd hc (List.not_mem_nil c)
      · rw [heq] at h
        obtain rfl := Option.some.inj h
        have hm : m ∈ L := by
          rw [hdec]
          exact List.mem_append_right L₁ (List.mem_cons_self m L₂)
        refine ⟨List.mem_cons_of_mem a hm, ?_, a :: L₁, L₂, by rw [hdec]; rfl, ?_⟩
        · intro c hc
          rcases List.mem_cons.mp hc with rfl | hc
          · exact le_of_lt hlt
          · exact hall c hc
        · intro c hc
          rcases List.mem_cons.mp hc with rfl | hc
          · exact hlt
          · exact hfirst c hc

/-! Occupancy-map and open-slot-invariant infrastructure. -/

theorem foldl_preserves_mem {α β : Type _} (P : β → Prop) (l : List α) (f : β → α → β)
    (h : ∀ b a, a ∈ l → P b → P (f b a)) : ∀ b, P b → P (l.foldl f b) := by
  induction l with
  | nil => intro b hb; exact hb
  | cons a t ih =>
    intro b hb
    exact ih (fun b2 x hx hb2 => h b2 x (List.mem_cons_of_mem a hx) hb2) (f b a)
      (h b a (List.mem_cons_self a t) hb)

theorem getD_set_self_lt {α : Type _} :
    ∀ (l : List α) (i : Nat) (x d : α), i < l.length → (l.set i x).getD i d = x := by
  intro l
  induction l with
  | nil => intro i x d h; simp at h
  | cons a t ih =>
    intro i x d h
    cases i with
    | zero => rfl
    | succ k => exact ih k x d (by simpa using Nat.lt_of_succ_lt_succ h)

theorem getD_append_left {α : Type _} :
    ∀ (l l' : List α) (i : Nat) (d : α), i < l.length → (l ++ l').getD i d = l.getD i d := by
  intro l
  induction l with
  | nil => intro l' i d h; simp at h
  | cons a t ih =>
    intro l' i d h
    cases i with
    | zero => rfl
    | succ k =>
      simp only [List.cons_append, List.getD_cons_succ]
      exact ih l' k d (by simpa using Nat.lt_of_succ_lt_succ h)

/-- On `numpy`'s valid index range the total wrap used by the occupancy
model agrees with `numpy`'s aliasing rule: a nonnegative valid index
denotes itself, a negative valid index aliases `i + n`. -/
theorem npWrap_matches_numpy (n : Nat) (i : Int) (hlo : -(n : Int) ≤ i)
    (hhi : i < (n : Int)) :
    npWrap n i = if i < 0 then i + n else i := by
  unfold npWrap
  split
  · next hneg =>
    have h1 : (i + (n : Int) * 1) % (n : Int) = i % (n : Int) := Int.add_mul_emod_self_left i (n : Int) 1
    rw [mul_one] at h1
    rw [← h1]
    exact Int.emod_eq_of_lt (by omega) (by omega)
  · next hpos =>
    exact Int.emod_eq_of_lt (by omega) hhi

/-- `occAt` only reads the occupancy maps. -/
theorem occAt_congr (st st' : SState) (h : st'.piece_locations = st.piece_locations)
    (pid : Nat) (loc : Loc) : occAt st' pid loc = occAt st pid loc := by
  unfold occAt
  rw [h]

/-- `_is_slot_open` only reads the occupancy maps and the placed
bounding boxes. -/
theorem isSlotOpen_congr (cfg : Config) (st st' : SState)
    (hl : st'.piece_locations = st.piece_locations)
    (hd : st'.placed_puzzle_dimensions = st.placed_puzzle_dimensions)
    (pid : Nat) (loc : Loc) : isSlotOpen cfg st' pid loc = isSlotOpen cfg st pid loc := by
  unfold isSlotOpen checkBoardDimensions occAt
  rw [hl, hd]

/-- An open slot check implies the cell is unoccupied. -/
theorem isSlotOpen_occ (cfg : Config) (st : SState) (pid : Nat) (loc : Loc)
    (h : isSlotOpen cfg st pid loc = true) : occAt st pid loc = UNPLACED_PIECE_ID := by
  unfold isSlotOpen at h
  simp only [Bool.and_eq_true, decide_eq_true_eq] at h
  exact h.1

/-- `_add_best_buddies_to_pool` leaves the open-slot list, the occupancy
maps and the board count alone, and every heap entry it pushes targets a
currently listed open slot. -/
theorem addBestBuddiesToPool_mem (cfg : Config) (st : SState) (piece_id : Nat) :
    (addBestBuddiesToPool cfg st piece_id).open_locations = st.open_locations ∧
    (addBestBuddiesToPool cfg st piece_id).piece_locations = st.piece_locations ∧
    (addBestBuddiesToPool cfg st piece_id).numb_puzzles = st.numb_puzzles ∧
    ∀ x ∈ (addBestBuddiesToPool cfg st piece_id).best_buddy_open_slot_heap,
      x ∈ st.best_buddy_open_slot_heap ∨ ∃ s ∈ st.open_locations, x.puzzle_id = s.puzzle_id := by
  unfold addBestBuddiesToPool
  apply foldl_preserves (fun s : SState =>
    s.open_locations = st.open_locations ∧ s.piece_locations = st.piece_locations ∧
    s.numb_puzzles = st.numb_puzzles ∧
    ∀ x ∈ s.best_buddy_open_slot_heap,
      x ∈ st.best_buddy_open_slot_heap ∨ ∃ sl ∈ st.open_locations, x.puzzle_id = sl.puzzle_id)
  · intro b side hb
    apply foldl_preserves (fun s : SState =>
      s.open_locations = st.open_locations ∧ s.piece_locations = st.piece_locations ∧
      s.numb_puzzles = st.numb_puzzles ∧
      ∀ x ∈ s.best_buddy_open_slot_heap,
        x ∈ st.best_buddy_open_slot_heap ∨ ∃ sl ∈ st.open_locations, x.puzzle_id = sl.puzzle_id)
    · intro b2 bb hb2
      dsimp only
      split
      · exact hb2
      · obtain ⟨ho2, hp2, hn2, hh2⟩ := hb2
        apply foldl_preserves_mem (fun s : SState =>
          s.open_locations = st.open_locations ∧ s.piece_locations = st.piece_locations ∧
          s.numb_puzzles = st.numb_puzzles ∧
          ∀ x ∈ s.best_buddy_open_slot_heap,
            x ∈ st.best_buddy_open_slot_heap ∨ ∃ sl ∈ st.open_locations, x.puzzle_id = sl.puzzle_id)
        · intro b3 slot hslot hb3
          have hslot2 : slot ∈ st.open_locations := by rw [← ho2]; exact hslot
          apply foldl_preserves (fun s : SState =>
            s.open_locations = st.open_locations ∧ s.piece_locations = st.piece_locations ∧
            s.numb_puzzles = st.numb_puzzles ∧
            ∀ x ∈ s.best_buddy_open_slot_heap,
              x ∈ st.best_buddy_open_slot_heap ∨ ∃ sl ∈ st.open_locations, x.puzzle_id = sl.puzzle_id)
          · intro b4 bbs hb4
            obtain ⟨ho4, hp4, hn4, hh4⟩ := hb4
            refine ⟨ho4, hp4, hn4, ?_⟩
            intro x hx
            rcases mem_heappush hx with rfl | hx2
            · exact Or.inr ⟨slot, hslot2, rfl⟩
            · exact hh4 x hx2
          · exact hb3
        · exact ⟨ho2, hp2, hn2, hh2⟩
    · exact hb
  · exact ⟨rfl, rfl, rfl, fun x hx => Or.inl hx⟩

/-- `_update_open_slots` leaves the occupancy maps and the board count
alone; every open-slot entry it appends is on the placed piece's board
and passed the full open-slot check (unoccupied cell and dimension
bounds) at insertion, and every heap entry it pushes is for the placed
piece's board. -/
theorem updateOpenSlots_char (cfg : Config) (st : SState) (p : Piece) :
    (updateOpenSlots cfg st p).piece_locations = st.piece_locations ∧
    (updateOpenSlots cfg st p).placed_puzzle_dimensions = st.placed_puzzle_dimensions ∧
    (updateOpenSlots cfg st p).numb_puzzles = st.numb_puzzles ∧
    (∀ e ∈ (updateOpenSlots cfg st p).open_locations,
      e ∈ st.open_locations ∨ (e.puzzle_id = p.puzzle_id.getD 0 ∧
        isSlotOpen cfg st e.puzzle_id e.location = true)) ∧
    (∀ x ∈ (updateOpenSlots cfg st p).best_buddy_open_slot_heap,
      x ∈ st.best_buddy_open_slot_heap ∨ x.puzzle_id = p.puzzle_id.getD 0) := by
  unfold updateOpenSlots
  apply foldl_preserves (fun s : SState =>
    s.piece_locations = st.piece_locations ∧
    s.placed_puzzle_dimensions = st.placed_puzzle_dimensions ∧
    s.numb_puzzles = st.numb_puzzles ∧
    (∀ e ∈ s.open_locations, e ∈ st.open_locations ∨ (e.puzzle_id = p.puzzle_id.getD 0 ∧
      isSlotOpen cfg st e.puzzle_id e.location = true)) ∧
    ∀ x ∈ s.best_buddy_open_slot_heap,
      x ∈ st.best_buddy_open_slot_heap ∨ x.puzzle_id = p.puzzle_id.getD 0)
  · intro b ls hb
    obtain ⟨hp, hd, hn, ho, hh⟩ := hb
    dsimp only
    split
    · next hopen =>
      have hopenst : isSlotOpen cfg st (p.puzzle_id.getD 0) ls.1 = true := by
        rw [← isSlotOpen_congr cfg st b hp hd]
        exact hopen
      apply foldl_preserves (fun s : SState =>
        s.piece_locations = st.piece_locations ∧
        s.placed_puzzle_dimensions = st.placed_puzzle_dimensions ∧
        s.numb_puzzles = st.numb_puzzles ∧
        (∀ e ∈ s.open_locations, e ∈ st.open_locations ∨ (e.puzzle_id = p.puzzle_id.getD 0 ∧
          isSlotOpen cfg st e.puzzle_id e.location = true)) ∧
        ∀ x ∈ s.best_buddy_open_slot_heap,
          x ∈ st.best_buddy_open_slot_heap ∨ x.puzzle_id = p.puzzle_id.getD 0)
      · intro b2 bb hb2
        apply foldl_preserves (fun s : SState =>
          s.piece_locations = st.piece_locations ∧
          s.placed_puzzle_dimensions = st.placed_puzzle_dimensions ∧
          s.numb_puzzles = st.numb_puzzles ∧
          (∀ e ∈ s.open_locations, e ∈ st.open_locations ∨ (e.puzzle_id = p.puzzle_id.getD 0 ∧
            isSlotOpen cfg st e.puzzle_id e.location = true)) ∧
          ∀ x ∈ s.best_buddy_open_slot_heap,
            x ∈ st.best_buddy_open_slot_heap ∨ x.puzzle_id = p.puzzle_id.getD 0)
        · intro b3 bbs hb3
          obtain ⟨hp3, hd3, hn3, ho3, hh3⟩ := hb3
          refine ⟨hp3, hd3, hn3, ho3, ?_⟩
          intro x hx
          rcases mem_heappush hx with rfl | hx2
          · exact Or.inr rfl
          · exact hh3 x hx2
        · exact hb2
      · refine ⟨hp, hd, hn, ?_, hh⟩
        intro e he
        rcases List.mem_append.mp he with he | he
        · exact ho e he
        · rcases List.mem_singleton.mp he with rfl
          exact Or.inr ⟨rfl, hopenst⟩
    · exact ⟨hp, hd, hn, ho, hh⟩
  · exact ⟨rfl, rfl, rfl, fun e he => Or.inl he, fun x hx => Or.inl hx⟩

/-- Core of the open-slot invariant preservation: pooling best buddies
and then opening the placed piece's neighboring slots keeps every listed
slot on an existing board. -/
theorem abbUos_slotInv (cfg : Config) (s : SState) (pid2 : Nat) (p : Piece)
    (hlen : s.piece_locations.length = s.numb_puzzles)
    (hopen : ∀ e ∈ s.open_locations, e.puzzle_id < s.numb_puzzles)
    (hheap : ∀ x ∈ s.best_buddy_open_slot_heap, x.puzzle_id < s.numb_puzzles)
    (hbound : p.puzzle_id.getD 0 < s.numb_puzzles) :
    SlotInv (updateOpenSlots cfg (addBestBuddiesToPool cfg s pid2) p) := by
  obtain ⟨habbo, habbp, habbn, habbh⟩ := addBestBuddiesToPool_mem cfg s pid2
  obtain ⟨huop, _, huon, huoo, huoh⟩ :=
    updateOpenSlots_char cfg (addBestBuddiesToPool cfg s pid2) p
  have hpl : (updateOpenSlots cfg (addBestBuddiesToPool cfg s pid2) p).piece_locations
      = s.piece_locations := by rw [huop, habbp]
  have hnp : (updateOpenSlots cfg (addBestBuddiesToPool cfg s pid2) p).numb_puzzles
      = s.numb_puzzles := by rw [huon, habbn]
  refine ⟨?_, ?_, ?_⟩
  · rw [hpl, hnp]; exact hlen
  · intro e he
    rcases huoo e he with he2 | ⟨hepid, _⟩
    · rw [habbo] at he2
      rw [hnp]
      exact hopen e he2
    · rw [hnp, hepid]
      exact hbound
  · intro x hx
    rcases huoh x hx with hx2 | hxp
    · rcases habbh x hx2 with hx3 | ⟨sl, hsl, hxsl⟩
      · rw [hnp]; exact hheap x hx3
      · rw [hnp, hxsl]; exact hopen sl hsl
    · rw [hnp, hxp]; exact hbound

/-- The accuracy/pool/slot tail shared by seed placement. -/
theorem tail_slotInv (cfg : Config) (s : SState) (pid pieceid pid2 : Nat) (p : Piece)
    (hlen : s.piece_locations.length = s.numb_puzzles)
    (hopen : ∀ e ∈ s.open_locations, e.puzzle_id < s.numb_puzzles)
    (hheap : ∀ x ∈ s.best_buddy_open_slot_heap, x.puzzle_id < s.numb_puzzles)
    (hbound : p.puzzle_id.getD 0 < s.numb_puzzles) :
    SlotInv (updateOpenSlots cfg
      (addBestBuddiesToPool cfg (updateBestBuddyAccuracy s pid pieceid) pid2) p) := by
  obtain ⟨acc, hacc⟩ := updateBestBuddyAccuracy_shape s pid pieceid
  rw [hacc]
  exact abbUos_slotInv cfg _ pid2 p hlen hopen hheap hbound

/-- `placeTail` preserves the open-slot invariant. -/
theorem placeTail_slotInv (cfg : Config) (s6 : SState) (p : Piece) (bb : Bool) (st' : SState)
    (h : placeTail cfg s6 p bb = Except.ok st')
    (hlen : s6.piece_locations.length = s6.numb_puzzles)
    (hopen : ∀ e ∈ s6.open_locations, e.puzzle_id < s6.numb_puzzles)
    (hheap : ∀ x ∈ s6.best_buddy_open_slot_heap, x.puzzle_id < s6.numb_puzzles)
    (hbound : p.puzzle_id.getD 0 < s6.numb_puzzles) : SlotInv st' := by
  unfold placeTail at h
  generalize hpool : (if bb then removeBestBuddyFromPool cfg s6 p.id_number
    else Except.ok s6) = rPool at h
  cases rPool with
  | error e => exact Except.noConfusion h
  | ok st7 =>
    simp only [Except.ok.injEq] at h
    subst h
    have hfields : st7.open_locations = s6.open_locations ∧
        st7.piece_locations = s6.piece_locations ∧ st7.numb_puzzles = s6.numb_puzzles ∧
        st7.best_buddy_open_slot_heap = s6.best_buddy_open_slot_heap := by
      by_cases hbb : bb = true
      · rw [if_pos hbb] at hpool
        have hsh := removeBestBuddyFromPool_shape cfg s6 p.id_number st7 hpool
        subst hsh
        exact ⟨rfl, rfl, rfl, rfl⟩
      · rw [if_neg hbb] at hpool
        simp only [Except.ok.injEq] at hpool
        subst hpool
        exact ⟨rfl, rfl, rfl, rfl⟩
    obtain ⟨hfo, hfp, hfn, hfh⟩ := hfields
    apply abbUos_slotInv
    · rw [hfp, hfn]; exact hlen
    · intro e he
      rw [hfo] at he
      rw [hfn]
      exact hopen e he
    · intro x hx
      rw [hfh] at hx
      rw [hfn]
      exact hheap x hx
    · rw [hfn]; exact hbound

/-- Projections through the middle of `_place_normal_piece` (accuracy
update, placement marking, open-slot removal). -/
theorem midChain_open (s : SState) (pid piece_id : Nat) (loc : Loc) :
    (removeOpenSlot (markPiecePlaced (updateBestBuddyAccuracy s pid piece_id) piece_id)
        pid loc).open_locations
      = s.open_locations.filter
          (fun sl => !(decide (sl.puzzle_id = pid ∧ sl.location = loc))) ∧
    (removeOpenSlot (markPiecePlaced (updateBestBuddyAccuracy s pid piece_id) piece_id)
        pid loc).piece_locations = s.piece_locations ∧
    (removeOpenSlot (markPiecePlaced (updateBestBuddyAccuracy s pid piece_id) piece_id)
        pid loc).numb_puzzles = s.numb_puzzles ∧
    (removeOpenSlot (markPiecePlaced (updateBestBuddyAccuracy s pid piece_id) piece_id)
        pid loc).best_buddy_open_slot_heap = s.best_buddy_open_slot_heap := by
  obtain ⟨acc, hacc⟩ := updateBestBuddyAccuracy_shape s pid piece_id
  rw [hacc]
  exact ⟨rfl, rfl, rfl, rfl⟩

/-- `_place_normal_piece` preserves the open-slot invariant, provided
the filled slot names an existing board. -/
theorem placeNormalPiece_slotInv (cfg : Config) (st : SState) (np : NextPieceToPlace)
    (hinv : SlotInv st) (hbound : np.puzzle_id < st.numb_puzzles) (st' : SState)
    (h : placeNormalPiece cfg st np = Except.ok st') : SlotInv st' := by
  obtain ⟨hlen, hopen, hheap⟩ := hinv
  unfold placeNormalPiece at h
  dsimp only at h
  split at h
  · exact Except.noConfusion h
  · next st2 hupd =>
    have hst2 := updatedPuzzleDimensions_shape cfg _ _ _ st2 hupd
    subst hst2
    refine placeTail_slotInv cfg _ _ _ _ h ?_ ?_ ?_ ?_
    · rw [(midChain_open _ _ _ _).2.1, (midChain_open _ _ _ _).2.2.1]
      simp only [setOcc, List.length_set]
      exact hlen
    · intro e he
      rw [(midChain_open _ _ _ _).1] at he
      obtain ⟨hemem, _⟩ := List.mem_filter.mp he
      have hememst : e ∈ st.open_locations := hemem
      rw [(midChain_open _ _ _ _).2.2.1]
      exact hopen e hememst
    · intro x hx
      rw [(midChain_open _ _ _ _).2.2.2] at hx
      rw [(midChain_open _ _ _ _).2.2.1]
      exact hheap x hx
    · rw [(midChain_open _ _ _ _).2.2.1]
      exact hbound

/-- `_place_seed_piece` (re)establishes the open-slot invariant on the
grown board collection. -/
theorem placeSeedPiece_slotInv (cfg : Config) (orc : Oracle) (st : SState)
    (hlen : st.piece_locations.length = st.numb_puzzles)
    (hopen : ∀ e ∈ st.open_locations, e.puzzle_id < st.numb_puzzles)
    (hheap : ∀ x ∈ st.best_buddy_open_slot_heap, x.puzzle_id < st.numb_puzzles) :
    SlotInv (placeSeedPiece cfg orc st) := by
  unfold placeSeedPiece
  dsimp only
  split
  all_goals  {
    refine tail_slotInv cfg _ _ _ _ _ ?_ ?_ ?_ ?_
    · simp only [setOcc, markPiecePlaced, List.length_set, List.length_append,
        List.length_cons, List.length_nil]
      omega
    · intro e he
      have hest : e ∈ st.open_locations := he
      have hb := hopen e hest
      simp only [setOcc, markPiecePlaced]
      omega
    · intro x hx
      have hxst : x ∈ st.best_buddy_open_slot_heap := hx
      have hxb := hheap x hxst
      simp only [setOcc, markPiecePlaced]
      omega
    · simp only [setOcc, markPiecePlaced, Option.getD_some]
      omega }

/-- `_spawn_new_board` preserves the open-slot invariant. -/
theorem spawnNewBoard_slotInv (cfg : Config) (orc : Oracle) (st : SState)
    (hinv : SlotInv st) : SlotInv (spawnNewBoard cfg orc st) := by
  obtain ⟨hlen, hopen, hheap⟩ := hinv
  unfold spawnNewBoard
  split
  · refine placeSeedPiece_slotInv cfg orc _ hlen hopen ?_
    intro x hx
    have hx2 : x ∈ ([] : List HeapInfo) := hx
    exact absurd hx2 (List.not_mem_nil x)
  · exact placeSeedPiece_slotInv cfg orc st hlen hopen hheap

/-- Every fallback candidate's board id is a listed open slot's. -/
theorem pieceMajorCandidates_puzzle_id (cfg : Config) (s : SState) (U : List Nat)
    (np : NextPieceToPlace) (h : np ∈ pieceMajorCandidates cfg s U) :
    ∃ slot ∈ s.open_locations, np.puzzle_id = slot.puzzle_id := by
  unfold pieceMajorCandidates at h
  rcases List.mem_flatMap.mp h with ⟨pid, hpid, h2⟩
  rcases List.mem_flatMap.mp h2 with ⟨slot, hslot, h3⟩
  rcases List.mem_map.mp h3 with ⟨side, hside, rfl⟩
  exact ⟨slot, List.mem_of_mem_filter hslot, rfl⟩

/-- `_find_next_piece` preserves the open-slot invariant, and any
returned candidate's board exists. -/
theorem findNextPiece_slotInv (cfg : Config) (orc : Oracle) (st : SState) (hinv : SlotInv st)
    (res : Option NextPieceToPlace) (st1 : SState)
    (h : findNextPiece cfg orc st = Except.ok (res, st1)) :
    SlotInv st1 ∧ ∀ np, res = some np → np.puzzle_id < st1.numb_puzzles := by
  obtain ⟨hlen, hopen, hheap⟩ := hinv
  unfold findNextPiece at h
  split at h
  · by_cases hck : checkBestBuddyHeapHousecleaning cfg st = true
    · rw [if_pos hck] at h
      dsimp only at h
      split at h
      · exact Except.noConfusion h
      · next np' rest' hpop =>
        simp only [Except.ok.injEq, Prod.mk.injEq] at h
        obtain ⟨hres, hst1⟩ := h
        subst hst1
        subst hres
        obtain ⟨⟨eh, hehmem, hehe, _, _⟩, hrest⟩ := popNextPiece_mem cfg
          (cleanBestBuddyHeap cfg st)
          (cleanBestBuddyHeap cfg st).best_buddy_open_slot_heap.length
          (cleanBestBuddyHeap cfg st).best_buddy_open_slot_heap le_rfl np' rest' hpop
        have hehst : eh ∈ st.best_buddy_open_slot_heap :=
          (cleanBestBuddyHeap_mem cfg st hehmem).1
        refine ⟨⟨hlen, hopen, ?_⟩, ?_⟩
        · intro x hx
          have hx2 := hrest x hx
          exact hheap x (cleanBestBuddyHeap_mem cfg st hx2).1
        · intro np hnp
          rw [← Option.some.inj hnp, hehe]
          exact hheap eh hehst
    · rw [if_neg hck] at h
      dsimp only at h
      split at h
      · exact Except.noConfusion h
      · next np' rest' hpop =>
        simp only [Except.ok.injEq, Prod.mk.injEq] at h
        obtain ⟨hres, hst1⟩ := h
        subst hst1
        subst hres
        obtain ⟨⟨eh, hehmem, hehe, _, _⟩, hrest⟩ := popNextPiece_mem cfg st
          st.best_buddy_open_slot_heap.length st.best_buddy_open_slot_heap le_rfl
          np' rest' hpop
        refine ⟨⟨hlen, hopen, ?_⟩, ?_⟩
        · intro x hx
          exact hheap x (hrest x hx)
        · intro np hnp
          rw [← Option.some.inj hnp, hehe]
          exact hheap eh hehmem
  · simp only [Except.ok.injEq, Prod.mk.injEq] at h
    obtain ⟨hres, hst1⟩ := h
    subst hst1
    refine ⟨⟨hlen, hopen, hheap⟩, ?_⟩
    intro np hnp
    have hmem : np ∈ pieceMajorCandidates cfg (recomputedState orc st)
        (unplacedIds (recomputedState orc st)) := by
      have hfold := getNextPieceFromPool_eq_fold cfg (recomputedState orc st)
        (unplacedIds (recomputedState orc st))
      exact ((foldl_foldBest_none_char _).2 np (by rw [← hfold, hres, hnp])).1
    obtain ⟨slot, hslot, hnpid⟩ := pieceMajorCandidates_puzzle_id cfg _ _ np hmem
    rw [hnpid]
    exact hopen slot hslot

/-- One loop step preserves the open-slot invariant. -/
theorem stepOnce_slotInv (cfg : Config) (orc : Oracle) (st st' : SState)
    (hinv : SlotInv st) (h : stepOnce cfg orc st = Except.ok st') : SlotInv st' := by
  have h2 : (match findNextPiece cfg orc st with
    | Except.error e => Except.error e
    | Except.ok (none, _) => Except.error (PyErr.attributeError "mutual_compatibility")
    | Except.ok (some next_piece, st1) =>
      if st1.numb_puzzles < cfg.actual_numb_puzzles ∧
          next_piece.mutual_compatibility < cfg.new_board_mutual_compatibility then
        Except.ok (spawnNewBoard cfg orc st1)
      else placeNormalPiece cfg st1 next_piece) = Except.ok st' := h
  clear h
  cases hfind : findNextPiece cfg orc st with
  | error e => rw [hfind] at h2; exact Except.noConfusion h2
  | ok pr =>
    obtain ⟨np?, st1⟩ := pr
    rw [hfind] at h2
    obtain ⟨hinv1, hbound⟩ := findNextPiece_slotInv cfg orc st hinv np? st1 hfind
    cases np? with
    | none => exact Except.noConfusion h2
    | some np =>
      dsimp only at h2
      by_cases hsp : st1.numb_puzzles < cfg.actual_numb_puzzles ∧
          np.mutual_compatibility < cfg.new_board_mutual_compatibility
      · rw [if_pos hsp] at h2
        simp only [Except.ok.injEq] at h2
        subst h2
        exact spawnNewBoard_slotInv cfg orc st1 hinv1
      · rw [if_neg hsp] at h2
        exact placeNormalPiece_slotInv cfg st1 np hinv1 (hbound np rfl) st' h2

/-- The invariant ignores the housekeeping baseline. -/
theorem slotInv_setLast (s : SState) (n : Nat) (h : SlotInv s) :
    SlotInv { s with last_best_buddy_heap_housekeeping := n } := by
  obtain ⟨h1, h2, h3⟩ := h
  exact ⟨h1, h2, h3⟩

/-- The initial seeding establishes the open-slot invariant. -/
theorem seededState_slotInv (cfg : Config) (orc : Oracle) (pieces : List Piece) :
    SlotInv (seededState cfg orc pieces) := by
  unfold seededState
  apply slotInv_setLast
  exact placeSeedPiece_slotInv cfg orc (mkInitialState orc pieces)
    rfl
    (fun e he => absurd he (List.not_mem_nil e))
    (fun x hx => absurd hx (List.not_mem_nil x))

/-- The whole placement loop preserves the open-slot invariant. -/
theorem runLoop_slotInv (cfg : Config) (orc : Oracle) :
    ∀ (fuel : Nat) (st st' : SState), SlotInv st →
    runLoop cfg orc fuel st = Except.ok st' → SlotInv st' := by
  intro fuel
  induction fuel with
  | zero =>
    intro st st' hinv h
    rw [runLoop] at h
    split at h
    · exact Except.noConfusion h
    · simp only [Except.ok.injEq] at h
      subst h
      exact hinv
  | succ f ih =>
    intro st st' hinv h
    rw [runLoop] at h
    split at h
    · split at h
      · exact Except.noConfusion h
      · next st2 hstep =>
        exact ih st2 st' (stepOnce_slotInv cfg orc st st2 hinv hstep) h
    · simp only [Except.ok.injEq] at h
      subst h
      exact hinv

/-! Heap-order correctness of the `heapq` embedding: sifting restores
the (reversed-comparison) max-heap invariant, so a pop returns a
maximal-compatibility entry. -/

theorem isMaxHeap_iff (h : List HeapInfo) :
    IsMaxHeap h = true ↔ ∀ j, j < h.length → j ≠ 0 →
      (h.getD j default).mutual_compatibility ≤
        (h.getD ((j - 1) / 2) default).mutual_compatibility := by
  unfold IsMaxHeap
  rw [List.all_eq_true]
  constructor
  · intro hh j hj hj0
    have h2 := hh j (List.mem_range.mpr hj)
    simp only [Bool.or_eq_true, decide_eq_true_eq] at h2
    rcases h2 with h0 | hle
    · exact absurd h0 hj0
    · exact hle
  · intro hh j hj
    simp only [Bool.or_eq_true, decide_eq_true_eq]
    by_cases hj0 : j = 0
    · exact Or.inl hj0
    · exact Or.inr (hh j (List.mem_range.mp hj) hj0)

theorem isMaxHeap_le_root (h : List HeapInfo) (hh : IsMaxHeap h = true) :
    ∀ j, j < h.length →
      (h.getD j default).mutual_compatibility ≤
        (h.getD 0 default).mutual_compatibility := by
  intro j
  induction j using Nat.strong_induction_on with
  | _ j ih =>
    intro hj
    by_cases hj0 : j = 0
    · subst hj0; exact le_refl _
    · have h1 := (isMaxHeap_iff h).mp hh j hj hj0
      have h2 := ih ((j - 1) / 2) (by omega) (by omega)
      exact le_trans h1 h2

theorem isMaxHeap_mem_le_root (h : List HeapInfo) (hh : IsMaxHeap h = true) :
    ∀ x ∈ h, x.mutual_compatibility ≤ (h.getD 0 default).mutual_compatibility := by
  intro x hx
  obtain ⟨i, hi, hget⟩ := List.mem_iff_getElem.mp hx
  have := isMaxHeap_le_root h hh i hi
  rw [List.getD_eq_getElem h default hi, hget] at this
  exact this

/-- `_siftdown` (bubble-up) restores the heap invariant: the pairs away
from `pos` hold, the children of `pos` are at most `newitem`, and (when
`pos` is not the root) also at most `pos`'s parent. -/
theorem siftdownAux_heap (pos : Nat) :
    ∀ (h : List HeapInfo) (newitem : HeapInfo), pos < h.length →
    (∀ j, 0 < j → j < h.length → j ≠ pos →
      (h.getD j default).mutual_compatibility ≤
        (h.getD ((j - 1) / 2) default).mutual_compatibility) →
    (∀ c, (c = 2 * pos + 1 ∨ c = 2 * pos + 2) → c < h.length →
      (h.getD c default).mutual_compatibility ≤ newitem.mutual_compatibility) →
    (0 < pos → ∀ c, (c = 2 * pos + 1 ∨ c = 2 * pos + 2) → c < h.length →
      (h.getD c default).mutual_compatibility ≤
        (h.getD ((pos - 1) / 2) default).mutual_compatibility) →
    IsMaxHeap (siftdownAux h 0 pos newitem) = true := by
  induction pos using Nat.strong_induction_on with
  | _ pos ih =>
    intro h newitem hpos hA hB1 hB2
    rw [siftdownAux]
    split
    · next hlt0 =>
      split
      · next hcond =>
        simp only [hlt, decide_eq_true_eq] at hcond
        have hparlt : (pos - 1) / 2 < pos := by omega
        have hparlen : (pos - 1) / 2 < h.length := by omega
        apply ih ((pos - 1) / 2) hparlt _ newitem
          (by simp only [List.length_set]; omega) ?_ ?_ ?_
        · -- (A') pairs away from the parent
          intro j hj0 hjlen hjne
          simp only [List.length_set] at hjlen
          by_cases hjpos : j = pos
          · rw [hjpos, getD_set_self_lt _ _ _ _ hpos,
              getD_set_of_ne _ _ _ _ _ (by omega : pos ≠ (pos - 1) / 2)]
          · rw [getD_set_of_ne _ _ _ _ _ (by omega : pos ≠ j)]
            by_cases hpj : (j - 1) / 2 = pos
            · rw [hpj, getD_set_self_lt _ _ _ _ hpos]
              exact hB2 hlt0 j (by omega) hjlen
            · rw [getD_set_of_ne _ _ _ _ _ (by omega : pos ≠ (j - 1) / 2)]
              exact hA j hj0 hjlen hjpos
        · -- (B1') children of the parent are at most the new item
          intro c hc hclen
          simp only [List.length_set] at hclen
          have hcpar : (c - 1) / 2 = (pos - 1) / 2 := by omega
          by_cases hcpos : c = pos
          · rw [hcpos, getD_set_self_lt _ _ _ _ hpos]
            exact le_of_lt hcond
          · rw [getD_set_of_ne _ _ _ _ _ (by omega : pos ≠ c)]
            have h1 := hA c (by omega) hclen hcpos
            rw [hcpar] at h1
            exact le_of_lt (lt_of_le_of_lt h1 hcond)
        · -- (B2') children of the parent are at most the grandparent
          intro hpar0 c hc hclen
          simp only [List.length_set] at hclen
          have hgne : pos ≠ ((pos - 1) / 2 - 1) / 2 := by omega
          rw [getD_set_of_ne _ _ _ _ _ hgne]
          have hparpar := hA ((pos - 1) / 2) hpar0 hparlen (by omega)
          by_cases hcpos : c = pos
          · rw [hcpos, getD_set_self_lt _ _ _ _ hpos]
            exact hparpar
          · rw [getD_set_of_ne _ _ _ _ _ (by omega : pos ≠ c)]
            have h1 := hA c (by omega) hclen hcpos
            have hcpar : (c - 1) / 2 = (pos - 1) / 2 := by omega
            rw [hcpar] at h1
            exact le_trans h1 hparpar
      · next hcond =>
        simp only [hlt, decide_eq_true_eq, not_lt] at hcond
        apply (isMaxHeap_iff _).mpr
        intro j hj hj0
        simp only [List.length_set] at hj
        by_cases hjpos : j = pos
        · rw [hjpos, getD_set_self_lt _ _ _ _ hpos,
            getD_set_of_ne _ _ _ _ _ (by omega : pos ≠ (pos - 1) / 2)]
          exact hcond
        · rw [getD_set_of_ne _ _ _ _ _ (by omega : pos ≠ j)]
          by_cases hpj : (j - 1) / 2 = pos
          · rw [hpj, getD_set_self_lt _ _ _ _ hpos]
            exact hB1 j (by omega) hj
          · rw [getD_set_of_ne _ _ _ _ _ (by omega : pos ≠ (j - 1) / 2)]
            exact hA j (by omega) hj hjpos
    · next hlt0 =>
      have hpos0 : pos = 0 := by omega
      subst hpos0
      apply (isMaxHeap_iff _).mpr
      intro j hj hj0
      simp only [List.length_set] at hj
      rw [getD_set_of_ne _ _ _ _ _ (by omega : 0 ≠ j)]
      by_cases hpj : (j - 1) / 2 = 0
      · rw [hpj, getD_set_self_lt _ _ _ _ hpos]
        exact hB1 j (by omega) hj
      · rw [getD_set_of_ne _ _ _ _ _ (by omega : 0 ≠ (j - 1) / 2)]
        exact hA j (by omega) hj hj0

/-- `_siftup` (walk the hole to a leaf, then bubble up) restores the
heap invariant when the pairs away from `pos` hold and (when `pos` is
not the root) the children of `pos` are at most `pos`'s parent. -/
theorem siftupAux_heap (m : Nat) :
    ∀ (h : List HeapInfo) (pos : Nat) (newitem : HeapInfo) (endpos : Nat),
    endpos = h.length → endpos - pos ≤ m → pos < endpos →
    (∀ j, 0 < j → j < h.length → (j - 1) / 2 ≠ pos →
      (h.getD j default).mutual_compatibility ≤
        (h.getD ((j - 1) / 2) default).mutual_compatibility) →
    (0 < pos → ∀ c, (c = 2 * pos + 1 ∨ c = 2 * pos + 2) → c < h.length →
      (h.getD c default).mutual_compatibility ≤
        (h.getD ((pos - 1) / 2) default).mutual_compatibility) →
    IsMaxHeap (siftupAux h 0 pos newitem endpos) = true := by
  induction m with
  | zero =>
    intro h pos newitem endpos hend hm hpos hA hB
    rw [siftupAux]
    split
    · next hc => omega
    · apply siftdownAux_heap pos _ newitem (by simp only [List.length_set]; omega) ?_ ?_ ?_
      · intro j hj0 hjlen hjne
        simp only [List.length_set] at hjlen
        have hjpar : (j - 1) / 2 ≠ pos := by omega
        rw [getD_set_of_ne _ _ _ _ _ (by omega : pos ≠ j),
          getD_set_of_ne _ _ _ _ _ (by omega : pos ≠ (j - 1) / 2)]
        exact hA j hj0 hjlen hjpar
      · intro c hc hclen
        simp only [List.length_set] at hclen
        omega
      · intro hp0 c hc hclen
        simp only [List.length_set] at hclen
        omega
  | succ m ih =>
    intro h pos newitem endpos hend hm hpos hA hB
    rw [siftupAux]
    split
    · next hchild =>
      split
      · next hc2 =>
        have hcne : 2 * pos + 2 ≠ pos := by omega
        have hlr : (h.getD (2 * pos + 1) default).mutual_compatibility ≤
            (h.getD (2 * pos + 2) default).mutual_compatibility := by
          have := hc2.2
          simp only [hlt, decide_eq_true_eq, not_lt] at this
          exact this
        apply ih _ (2 * pos + 2) newitem endpos (by simp only [List.length_set]; omega)
          (by omega) (by omega) ?_ ?_
        · intro j hj0 hjlen hjne
          simp only [List.length_set] at hjlen
          by_cases hjpos : j = pos
          · rw [hjpos, getD_set_self_lt _ _ _ _ (by omega)]
            have hppne : pos ≠ (pos - 1) / 2 := by omega
            rw [getD_set_of_ne _ _ _ _ _ hppne]
            have hp0 : 0 < pos := by omega
            exact hB hp0 (2 * pos + 2) (Or.inr rfl) (by omega)
          · rw [getD_set_of_ne _ _ _ _ _ (by omega : pos ≠ j)]
            by_cases hpj : (j - 1) / 2 = pos
            · rw [hpj, getD_set_self_lt _ _ _ _ (by omega)]
              have hj12 : j = 2 * pos + 1 ∨ j = 2 * pos + 2 := by omega
              rcases hj12 with rfl | rfl
              · exact hlr
              · exact le_refl _
            · rw [getD_set_of_ne _ _ _ _ _ (by omega : pos ≠ (j - 1) / 2)]
              exact hA j hj0 hjlen hpj
        · intro _ c hc hclen
          simp only [List.length_set] at hclen
          have hcppos : (2 * pos + 2 - 1) / 2 = pos := by omega
          rw [hcppos, getD_set_self_lt _ _ _ _ (by omega),
            getD_set_of_ne _ _ _ _ _ (by omega : pos ≠ c)]
          have hcpar : (c - 1) / 2 = 2 * pos + 2 := by omega
          have h1 := hA c (by omega) hclen (by omega)
          rw [hcpar] at h1
          exact h1
      · next hc2 =>
        apply ih _ (2 * pos + 1) newitem endpos (by simp only [List.length_set]; omega)
          (by omega) (by omega) ?_ ?_
        · intro j hj0 hjlen hjne
          simp only [List.length_set] at hjlen
          by_cases hjpos : j = pos
          · rw [hjpos, getD_set_self_lt _ _ _ _ (by omega)]
            have hppne : pos ≠ (pos - 1) / 2 := by omega
            rw [getD_set_of_ne _ _ _ _ _ hppne]
            have hp0 : 0 < pos := by omega
            exact hB hp0 (2 * pos + 1) (Or.inl rfl) (by omega)
          · rw [getD_set_of_ne _ _ _ _ _ (by omega : pos ≠ j)]
            by_cases hpj : (j - 1) / 2 = pos
            · rw [hpj, getD_set_self_lt _ _ _ _ (by omega)]
              have hj12 : j = 2 * pos + 1 ∨ j = 2 * pos + 2 := by omega
              rcases hj12 with rfl | rfl
              · exact le_refl _
              · have hr2 : 2 * pos + 2 < endpos := by omega
                have := hc2
                rw [not_and_or] at this
                rcases this with hq | hq
                · exact absurd hr2 hq
                · rw [not_not] at hq
                  simp only [hlt, decide_eq_true_eq] at hq
                  exact le_of_lt hq
            · rw [getD_set_of_ne _ _ _ _ _ (by omega : pos ≠ (j - 1) / 2)]
              exact hA j hj0 hjlen hpj
        · intro _ c hc hclen
          simp only [List.length_set] at hclen
          have hcppos : (2 * pos + 1 - 1) / 2 = pos := by omega
          rw [hcppos, getD_set_self_lt _ _ _ _ (by omega),
            getD_set_of_ne _ _ _ _ _ (by omega : pos ≠ c)]
          have hcpar : (c - 1) / 2 = 2 * pos + 1 := by omega
          have h1 := hA c (by omega) hclen (by omega)
          rw [hcpar] at h1
          exact h1
    · apply siftdownAux_heap pos _ newitem (by simp only [List.length_set]; omega) ?_ ?_ ?_
      · intro j hj0 hjlen hjne
        simp only [List.length_set] at hjlen
        have hjpar : (j - 1) / 2 ≠ pos := by omega
        rw [getD_set_of_ne _ _ _ _ _ (by omega : pos ≠ j),
          getD_set_of_ne _ _ _ _ _ (by omega : pos ≠ (j - 1) / 2)]
        exact hA j hj0 hjlen hjpar
      · intro c hc hclen
        simp only [List.length_set] at hclen
        omega
      · intro hp0 c hc hclen
        simp only [List.length_set] at hclen
        omega

theorem getD_dropLast {α : Type _} :
    ∀ (l : List α) (j : Nat) (d : α), j < l.dropLast.length →
      l.dropLast.getD j d = l.getD j d := by
  intro l
  induction l with
  | nil => intro j d h; simp at h
  | cons a t ih =>
    intro j d h
    cases t with
    | nil => simp at h
    | cons b u =>
      rw [List.dropLast_cons₂]
      cases j with
      | zero => rfl
      | succ k =>
        simp only [List.getD_cons_succ]
        rw [List.dropLast_cons₂] at h
        exact ih k d (by simpa using Nat.lt_of_succ_lt_succ h)

/-- A pop from a max-heap hands back the root — an entry of maximal
mutual compatibility — and leaves a max-heap. -/
theorem heappop_heap (h : List HeapInfo) (e : HeapInfo) (rest : List HeapInfo)
    (hh : IsMaxHeap h = true) (hpop : heappop h = Except.ok (e, rest)) :
    IsMaxHeap rest = true ∧
    ∀ x ∈ h, x.mutual_compatibility ≤ e.mutual_compatibility := by
  match h with
  | [] => simp [heappop] at hpop
  | x :: xs =>
    rw [heappop] at hpop
    by_cases hemp : ((x :: xs).dropLast).isEmpty
    · rw [if_pos hemp] at hpop
      simp only [Except.ok.injEq, Prod.mk.injEq] at hpop
      obtain ⟨he, hrest⟩ := hpop
      subst hrest
      have hx : xs = [] := by
        cases xs with
        | nil => rfl
        | cons y ys => simp [List.dropLast_cons₂] at hemp
      subst hx
      refine ⟨by decide, ?_⟩
      intro z hz
      rcases List.mem_singleton.mp hz with rfl
      rw [← he]
      exact le_refl _
    · rw [if_neg hemp] at hpop
      simp only [Except.ok.injEq, Prod.mk.injEq] at hpop
      obtain ⟨he, hrest⟩ := hpop
      subst hrest
      have hxs : xs ≠ [] := by
        intro hq
        subst hq
        simp at hemp
      have hhead : ((x :: xs).dropLast).headD default = x := by
        cases xs with
        | nil => exact absurd rfl hxs
        | cons y ys => rw [List.dropLast_cons₂]; rfl
      have hroot : ∀ z ∈ x :: xs, z.mutual_compatibility ≤ e.mutual_compatibility := by
        intro z hz
        rw [← he, hhead]
        exact isMaxHeap_mem_le_root (x :: xs) hh z hz
      refine ⟨?_, hroot⟩
      have hrlen : 0 < ((x :: xs).dropLast).length := by
        cases hq : (x :: xs).dropLast with
        | nil => rw [hq] at hemp; simp at hemp
        | cons z zs => simp
      apply siftupAux_heap (((x :: xs).dropLast).length) _ 0
        ((x :: xs).getLast (List.cons_ne_nil x xs)) _
        (by simp) (by simp) (by simpa using hrlen) ?_ ?_
      · intro j hj0 hjlen hjne
        simp only [List.length_set] at hjlen
        rw [getD_set_of_ne _ _ _ _ _ (by omega : 0 ≠ j),
          getD_set_of_ne _ _ _ _ _ (by omega : 0 ≠ (j - 1) / 2)]
        rw [getD_dropLast _ _ _ hjlen, getD_dropLast _ _ _ (by omega)]
        have hlen2 : ((x :: xs).dropLast).length < (x :: xs).length := by
          simp [List.length_dropLast]
        exact (isMaxHeap_iff (x :: xs)).mp hh j (by omega) (by omega)
      · intro h0 c hc hclen
        omega

/-- `popNextPiece` on a max-heap: the returned candidate comes from a
valid entry, every discarded entry was invalid and had at least the
returned mutual compatibility, and the remaining heap is a max-heap all
of whose entries have at most the returned mutual compatibility. -/
theorem popNextPiece_char (cfg : Config) (st : SState) :
    ∀ (n : Nat) (heap : List HeapInfo), heap.length ≤ n →
    ∀ (np : NextPieceToPlace) (rest : List HeapInfo),
    IsMaxHeap heap = true →
    popNextPiece cfg st heap = Except.ok (np, rest) →
    IsMaxHeap rest = true ∧
    (∀ x ∈ rest, x.mutual_compatibility ≤ np.mutual_compatibility) ∧
    ∃ discarded eh, heap.Perm (discarded ++ eh :: rest) ∧
      (∀ d ∈ discarded,
        ¬(placedAt st d.bb_id = false ∧ isSlotOpen cfg st d.puzzle_id d.location = true) ∧
        np.mutual_compatibility ≤ d.mutual_compatibility) ∧
      placedAt st eh.bb_id = false ∧ isSlotOpen cfg st eh.puzzle_id eh.location = true ∧
      np = ⟨eh.puzzle_id, eh.location, eh.bb_id, eh.bb_side, eh.neighbor_id,
            eh.neighbor_side, eh.mutual_compatibility, true⟩ := by
  intro n
  induction n with
  | zero =>
    intro heap hn np rest _ h
    have : heap = [] := List.length_eq_zero.mp (by omega)
    subst this
    rw [popNextPiece] at h
    simp [heappop] at h
  | succ n ih =>
    intro heap hn np rest hh h
    rw [popNextPiece] at h
    split at h
    · exact Except.noConfusion h
    · next heap_info rest' hpop =>
      obtain ⟨hrest'heap, hmax⟩ := heappop_heap heap heap_info rest' hh hpop
      have hperm := heappop_perm heap heap_info rest' hpop
      split at h
      · next hvalid =>
        simp only [Except.ok.injEq, Prod.mk.injEq] at h
        obtain ⟨rfl, rfl⟩ := h
        simp only [Bool.and_eq_true, Bool.not_eq_true'] at hvalid
        refine ⟨hrest'heap, ?_, [], heap_info, hperm.symm, ?_, hvalid.1, hvalid.2, rfl⟩
        · intro x hx
          exact hmax x (hperm.mem_iff.mp (List.mem_cons_of_mem _ hx))
        · intro d hd
          exact absurd hd (List.not_mem_nil d)
      · next hvalid =>
        have hlen := length_heappop heap heap_info rest' hpop
        obtain ⟨hrh, hrb, discarded, eh, hdperm, hdisc, hev1, hev2, hnp⟩ :=
          ih rest' (by omega) np rest hrest'heap h
        refine ⟨hrh, hrb, heap_info :: discarded, eh, ?_, ?_, hev1, hev2, hnp⟩
        · exact hperm.symm.trans (List.Perm.cons heap_info hdperm)
        · intro d hd
          rcases List.mem_cons.mp hd with rfl | hd
          · constructor
            · intro hq
              rw [Bool.and_eq_true, Bool.not_eq_true'] at hvalid
              simp only [hq.1, hq.2, and_true] at hvalid
              exact hvalid trivial
            · have heheap : eh ∈ rest' := by
                have := hdperm.mem_iff.mpr
                  (List.mem_append_right discarded (List.mem_cons_self eh rest))
                exact this
              rw [hnp]
              exact hmax eh (hperm.mem_iff.mp (List.mem_cons_of_mem _ heheap))
          · exact hdisc d hd

/-- An exhausted pop: when every heap entry is stale, the pop loop runs
the heap down to empty and surfaces `heappop`'s `IndexError`. -/
theorem popNextPiece_exhausted (cfg : Config) (st : SState) :
    ∀ (n : Nat) (heap : List HeapInfo), heap.length ≤ n →
    (∀ x ∈ heap,
      ¬(placedAt st x.bb_id = false ∧ isSlotOpen cfg st x.puzzle_id x.location = true)) →
    popNextPiece cfg st heap = Except.error PyErr.indexError := by
  intro n
  induction n with
  | zero =>
    intro heap hn hall
    have : heap = [] := List.length_eq_zero.mp (by omega)
    subst this
    rw [popNextPiece]
    rfl
  | succ n ih =>
    intro heap hn hall
    rw [popNextPiece]
    split
    · next e hpop =>
      match heap, hpop with
      | [], hpop =>
        injection hpop with h2
        rw [← h2]
      | x :: xs, hpop =>
        rw [heappop] at hpop
        split at hpop <;> exact Except.noConfusion hpop
    · next heap_info rest' hpop =>
      have hperm := heappop_perm heap heap_info rest' hpop
      have hmem : heap_info ∈ heap := hperm.mem_iff.mp (List.mem_cons_self _ _)
      have hlen := length_heappop heap heap_info rest' hpop
      rw [if_neg ?_]
      · exact ih rest' (by omega)
          (fun x hx => hall x (hperm.mem_iff.mp (List.mem_cons_of_mem _ hx)))
      · intro hq
        rw [Bool.and_eq_true, Bool.not_eq_true'] at hq
        exact hall heap_info hmem hq

/-! Best-buddy-pool invariant infrastructure. -/

/-- `placedAt` only reads the placement flags. -/
theorem placedAt_congr (st st' : SState) (h : st'.piece_placed = st.piece_placed)
    (pid : Nat) : placedAt st' pid = placedAt st pid := by
  unfold placedAt
  rw [h]

/-- `_add_best_buddies_to_pool` keeps the placement flags, and keeps the
pool duplicate-free and all-unplaced: every added id passed the
not-placed, not-yet-pooled check. -/
theorem addBestBuddiesToPool_pool (cfg : Config) (st : SState) (piece_id : Nat)
    (hnd : st.best_buddies_pool.Nodup)
    (hun : ∀ pid ∈ st.best_buddies_pool, placedAt st pid = false) :
    (addBestBuddiesToPool cfg st piece_id).piece_placed = st.piece_placed ∧
    (addBestBuddiesToPool cfg st piece_id).best_buddies_pool.Nodup ∧
    ∀ pid ∈ (addBestBuddiesToPool cfg st piece_id).best_buddies_pool,
      placedAt st pid = false := by
  unfold addBestBuddiesToPool
  apply foldl_preserves (fun s : SState =>
    s.piece_placed = st.piece_placed ∧ s.best_buddies_pool.Nodup ∧
    ∀ pid ∈ s.best_buddies_pool, placedAt st pid = false)
  · intro b side hb
    apply foldl_preserves (fun s : SState =>
      s.piece_placed = st.piece_placed ∧ s.best_buddies_pool.Nodup ∧
      ∀ pid ∈ s.best_buddies_pool, placedAt st pid = false)
    · intro b2 bb hb2
      obtain ⟨hp2, hnd2, hun2⟩ := hb2
      dsimp only
      split
      · exact ⟨hp2, hnd2, hun2⟩
      · next hcond =>
        simp only [Bool.or_eq_true, not_or, Bool.not_eq_true] at hcond
        obtain ⟨hplaced, hcont⟩ := hcond
        have hnotmem : bb.1 ∉ b2.best_buddies_pool := by simpa using hcont
        have hplacedst : placedAt st bb.1 = false := by
          rw [← placedAt_congr st b2 hp2]
          exact hplaced
        apply foldl_preserves (fun s : SState =>
          s.piece_placed = st.piece_placed ∧ s.best_buddies_pool.Nodup ∧
          ∀ pid ∈ s.best_buddies_pool, placedAt st pid = false)
        · intro b3 slot hb3
          apply foldl_preserves (fun s : SState =>
            s.piece_placed = st.piece_placed ∧ s.best_buddies_pool.Nodup ∧
            ∀ pid ∈ s.best_buddies_pool, placedAt st pid = false)
          · intro b4 bbs hb4
            exact hb4
          · exact hb3
        · refine ⟨hp2, by simp [List.nodup_append, hnd2, hnotmem], ?_⟩
          intro pid hpid
          rcases List.mem_append.mp hpid with hpid | hpid
          · exact hun2 pid hpid
          · rcases List.mem_singleton.mp hpid with rfl
            exact hplacedst
    · exact hb
  · exact ⟨rfl, hnd, hun⟩

/-- `_update_open_slots` keeps the pool and the placement flags. -/
theorem updateOpenSlots_pool (cfg : Config) (st : SState) (p : Piece) :
    (updateOpenSlots cfg st p).best_buddies_pool = st.best_buddies_pool ∧
    (updateOpenSlots cfg st p).piece_placed = st.piece_placed := by
  unfold updateOpenSlots
  apply foldl_preserves (fun s : SState =>
    s.best_buddies_pool = st.best_buddies_pool ∧ s.piece_placed = st.piece_placed)
  · intro b ls hb
    obtain ⟨hb1, hb2⟩ := hb
    dsimp only
    split
    · apply foldl_preserves (fun s : SState =>
        s.best_buddies_pool = st.best_buddies_pool ∧ s.piece_placed = st.piece_placed)
      · intro b2 bbid hb2'
        apply foldl_preserves (fun s : SState =>
          s.best_buddies_pool = st.best_buddies_pool ∧ s.piece_placed = st.piece_placed)
        · intro b3 bbs hb3
          exact hb3
        · exact hb2'
      · exact ⟨hb1, hb2⟩
    · exact ⟨hb1, hb2⟩
  · exact ⟨rfl, rfl⟩

/-- Pool and flags through the middle of `_place_normal_piece`. -/
theorem midChain_pool (s : SState) (pid piece_id : Nat) (loc : Loc) :
    (removeOpenSlot (markPiecePlaced (updateBestBuddyAccuracy s pid piece_id) piece_id)
        pid loc).best_buddies_pool = s.best_buddies_pool ∧
    (removeOpenSlot (markPiecePlaced (updateBestBuddyAccuracy s pid piece_id) piece_id)
        pid loc).piece_placed = s.piece_placed.set piece_id true := by
  obtain ⟨acc, hacc⟩ := updateBestBuddyAccuracy_shape s pid piece_id
  rw [hacc]
  exact ⟨rfl, rfl⟩

/-- `placeTail` yields a duplicate-free, all-unplaced pool provided the
placed piece was pooled only in the best-buddy case. -/
theorem placeTail_poolInv (cfg : Config) (s6 : SState) (p : Piece) (bb : Bool) (st' : SState)
    (h : placeTail cfg s6 p bb = Except.ok st')
    (hnd : s6.best_buddies_pool.Nodup)
    (hun : ∀ x ∈ s6.best_buddies_pool, x ≠ p.id_number → placedAt s6 x = false)
    (hbb2 : bb = true ∨ s6.best_buddies_pool = []) : PoolInv st' := by
  unfold placeTail at h
  generalize hpool : (if bb then removeBestBuddyFromPool cfg s6 p.id_number
    else Except.ok s6) = rPool at h
  cases rPool with
  | error e => exact Except.noConfusion h
  | ok st7 =>
    simp only [Except.ok.injEq] at h
    subst h
    have hfields : st7.piece_placed = s6.piece_placed ∧
        st7.best_buddies_pool.Nodup ∧
        ∀ x ∈ st7.best_buddies_pool, placedAt s6 x = false := by
      by_cases hbbt : bb = true
      · rw [if_pos hbbt] at hpool
        have hsh := removeBestBuddyFromPool_shape cfg s6 p.id_number st7 hpool
        subst hsh
        refine ⟨rfl, hnd.erase _, ?_⟩
        intro x hx
        have hxne : x ≠ p.id_number := ((List.Nodup.mem_erase_iff hnd).mp hx).1
        exact hun x (List.mem_of_mem_erase hx) hxne
      · rw [if_neg hbbt] at hpool
        simp only [Except.ok.injEq] at hpool
        subst hpool
        rcases hbb2 with hbb2 | hbb2
        · exact absurd hbb2 hbbt
        · refine ⟨rfl, by rw [hbb2]; exact List.nodup_nil, ?_⟩
          intro x hx
          rw [hbb2] at hx
          exact absurd hx (List.not_mem_nil x)
    obtain ⟨hf1, hf2, hf3⟩ := hfields
    obtain ⟨ha1, ha2, ha3⟩ := addBestBuddiesToPool_pool cfg st7 p.id_number hf2
      (fun pid hpid => by rw [placedAt_congr s6 st7 hf1]; exact hf3 pid hpid)
    obtain ⟨hu1, hu2⟩ := updateOpenSlots_pool cfg (addBestBuddiesToPool cfg st7 p.id_number) p
    constructor
    · rw [hu1]; exact ha2
    · intro pid hpid
      rw [hu1] at hpid
      have hps7 := ha3 pid hpid
      have hfinal : placedAt (updateOpenSlots cfg (addBestBuddiesToPool cfg st7 p.id_number) p)
          pid = placedAt st7 pid := by
        rw [placedAt_congr _ _ hu2, placedAt_congr _ _ ha1]
      rw [hfinal]
      exact hps7

/-- `_place_normal_piece` preserves the pool invariant: it removes a
best-buddy pick from the pool, and the non-best-buddy path only occurs
with an empty pool. -/
theorem placeNormalPiece_poolInv (cfg : Config) (st : SState) (np : NextPieceToPlace)
    (hinv : PoolInv st)
    (hbb : np.is_best_buddy = true ∨ st.best_buddies_pool = []) (st' : SState)
    (h : placeNormalPiece cfg st np = Except.ok st') : PoolInv st' := by
  obtain ⟨hnd, hun⟩ := hinv
  unfold placeNormalPiece at h
  dsimp only at h
  split at h
  · exact Except.noConfusion h
  · next st2 hupd =>
    have hst2 := updatedPuzzleDimensions_shape cfg _ _ _ st2 hupd
    subst hst2
    refine placeTail_poolInv cfg _ _ _ _ h ?_ ?_ ?_
    · rw [(midChain_pool _ _ _ _).1]
      exact hnd
    · intro x hx hxne
      rw [(midChain_pool _ _ _ _).1] at hx
      have hxst : x ∈ st.best_buddies_pool := hx
      show (removeOpenSlot _ _ _).piece_placed.getD x false = false
      rw [(midChain_pool _ _ _ _).2]
      have hne2 : (placedPieceRecord st np).id_number ≠ x := by
        intro hh
        exact hxne hh.symm
      rw [getD_set_of_ne _ _ _ _ _ hne2]
      exact hun x hxst
    · rcases hbb with hbb | hbb
      · exact Or.inl hbb
      · refine Or.inr ?_
        rw [(midChain_pool _ _ _ _).1]
        exact hbb

/-- The accuracy/pool/slot tail re-establishes the pool invariant. -/
theorem tail_poolInv (cfg : Config) (s : SState) (pid pieceid pid2 : Nat) (p : Piece)
    (hnd : s.best_buddies_pool.Nodup)
    (hun : ∀ x ∈ s.best_buddies_pool, placedAt s x = false) :
    PoolInv (updateOpenSlots cfg
      (addBestBuddiesToPool cfg (updateBestBuddyAccuracy s pid pieceid) pid2) p) := by
  obtain ⟨acc, hacc⟩ := updateBestBuddyAccuracy_shape s pid pieceid
  rw [hacc]
  obtain ⟨ha1, ha2, ha3⟩ := addBestBuddiesToPool_pool cfg { s with best_buddy_accuracy := acc }
    pid2 hnd hun
  obtain ⟨hu1, hu2⟩ := updateOpenSlots_pool cfg
    (addBestBuddiesToPool cfg { s with best_buddy_accuracy := acc } pid2) p
  constructor
  · rw [hu1]; exact ha2
  · intro x hx
    rw [hu1] at hx
    have h3 := ha3 x hx
    rw [placedAt_congr _ _ hu2, placedAt_congr _ _ ha1]
    exact h3

/-- `_place_seed_piece` (re)establishes the pool invariant from an empty
pool. -/
theorem placeSeedPiece_poolInv (cfg : Config) (orc : Oracle) (st : SState)
    (hpool : st.best_buddies_pool = []) : PoolInv (placeSeedPiece cfg orc st) := by
  unfold placeSeedPiece
  dsimp only
  split
  all_goals  {
    refine tail_poolInv cfg _ _ _ _ _ ?_ ?_
    · show st.best_buddies_pool.Nodup
      rw [hpool]
      exact List.nodup_nil
    · intro x hx
      have hx2 : x ∈ st.best_buddies_pool := hx
      rw [hpool] at hx2
      exact absurd hx2 (List.not_mem_nil x) }

/-- `_spawn_new_board` preserves the pool invariant under the default
clear-heap-on-spawn flag. -/
theorem spawnNewBoard_poolInv (cfg : Config) (orc : Oracle) (st : SState)
    (hclear : cfg.clear_bb_heap_on_spawn = true) :
    PoolInv (spawnNewBoard cfg orc st) := by
  unfold spawnNewBoard
  rw [if_pos hclear]
  exact placeSeedPiece_poolInv cfg orc _ rfl

/-- `_find_next_piece` keeps pool and flags, and a returned candidate is
either a best-buddy pick or was selected with an empty pool. -/
theorem findNextPiece_pool (cfg : Config) (orc : Oracle) (st : SState)
    (res : Option NextPieceToPlace) (st1 : SState)
    (h : findNextPiece cfg orc st = Except.ok (res, st1)) :
    st1.best_buddies_pool = st.best_buddies_pool ∧
    st1.piece_placed = st.piece_placed ∧
    ∀ np, res = some np → (np.is_best_buddy = true ∨ st1.best_buddies_pool = []) := by
  unfold findNextPiece at h
  split at h
  · by_cases hck : checkBestBuddyHeapHousecleaning cfg st = true
    · rw [if_pos hck] at h
      dsimp only at h
      split at h
      · exact Except.noConfusion h
      · next np' rest' hpop =>
        simp only [Except.ok.injEq, Prod.mk.injEq] at h
        obtain ⟨hres, hst1⟩ := h
        subst hst1
        subst hres
        obtain ⟨⟨eh, _, hehe, _, _⟩, _⟩ := popNextPiece_mem cfg
          (cleanBestBuddyHeap cfg st)
          (cleanBestBuddyHeap cfg st).best_buddy_open_slot_heap.length
          (cleanBestBuddyHeap cfg st).best_buddy_open_slot_heap le_rfl np' rest' hpop
        refine ⟨rfl, rfl, ?_⟩
        intro np hnp
        rw [← Option.some.inj hnp, hehe]
        exact Or.inl rfl
    · rw [if_neg hck] at h
      dsimp only at h
      split at h
      · exact Except.noConfusion h
      · next np' rest' hpop =>
        simp only [Except.ok.injEq, Prod.mk.injEq] at h
        obtain ⟨hres, hst1⟩ := h
        subst hst1
        subst hres
        obtain ⟨⟨eh, _, hehe, _, _⟩, _⟩ := popNextPiece_mem cfg st
          st.best_buddy_open_slot_heap.length st.best_buddy_open_slot_heap le_rfl
          np' rest' hpop
        refine ⟨rfl, rfl, ?_⟩
        intro np hnp
        rw [← Option.some.inj hnp, hehe]
        exact Or.inl rfl
  · next hlen =>
    simp only [Except.ok.injEq, Prod.mk.injEq] at h
    obtain ⟨hres, hst1⟩ := h
    subst hst1
    refine ⟨rfl, rfl, ?_⟩
    intro np hnp
    refine Or.inr ?_
    show st.best_buddies_pool = []
    exact List.length_eq_zero.mp (by omega)

/-- One loop step preserves the pool invariant (under the default
clear-heap-on-spawn flag). -/
theorem stepOnce_poolInv (cfg : Config) (orc : Oracle) (st st' : SState)
    (hclear : cfg.clear_bb_heap_on_spawn = true)
    (hinv : PoolInv st) (h : stepOnce cfg orc st = Except.ok st') : PoolInv st' := by
  have h2 : (match findNextPiece cfg orc st with
    | Except.error e => Except.error e
    | Except.ok (none, _) => Except.error (PyErr.attributeError "mutual_compatibility")
    | Except.ok (some next_piece, st1) =>
      if st1.numb_puzzles < cfg.actual_numb_puzzles ∧
          next_piece.mutual_compatibility < cfg.new_board_mutual_compatibility then
        Except.ok (spawnNewBoard cfg orc st1)
      else placeNormalPiece cfg st1 next_piece) = Except.ok st' := h
  clear h
  cases hfind : findNextPiece cfg orc st with
  | error e => rw [hfind] at h2; exact Except.noConfusion h2
  | ok pr =>
    obtain ⟨np?, st1⟩ := pr
    rw [hfind] at h2
    obtain ⟨hp1, hp2, hp3⟩ := findNextPiece_pool cfg orc st np? st1 hfind
    have hinv1 : PoolInv st1 := by
      obtain ⟨hnd, hun⟩ := hinv
      refine ⟨by rw [hp1]; exact hnd, ?_⟩
      intro pid hpid
      rw [hp1] at hpid
      rw [placedAt_congr st st1 hp2]
      exact hun pid hpid
    cases np? with
    | none => exact Except.noConfusion h2
    | some np =>
      dsimp only at h2
      by_cases hsp : st1.numb_puzzles < cfg.actual_numb_puzzles ∧
          np.mutual_compatibility < cfg.new_board_mutual_compatibility
      · rw [if_pos hsp] at h2
        simp only [Except.ok.injEq] at h2
        subst h2
        exact spawnNewBoard_poolInv cfg orc st1 hclear
      · rw [if_neg hsp] at h2
        exact placeNormalPiece_poolInv cfg st1 np hinv1 (hp3 np rfl) st' h2

/-- The invariant ignores the housekeeping baseline (pool version). -/
theorem poolInv_setLast (s : SState) (n : Nat) (h : PoolInv s) :
    PoolInv { s with last_best_buddy_heap_housekeeping := n } := by
  obtain ⟨h1, h2⟩ := h
  exact ⟨h1, h2⟩

/-- The initial seeding establishes the pool invariant. -/
theorem seededState_poolInv (cfg : Config) (orc : Oracle) (pieces : List Piece) :
    PoolInv (seededState cfg orc pieces) := by
  unfold seededState
  apply poolInv_setLast
  exact placeSeedPiece_poolInv cfg orc (mkInitialState orc pieces) rfl

/-- The whole placement loop preserves the pool invariant. -/
theorem runLoop_poolInv (cfg : Config) (orc : Oracle)
    (hclear : cfg.clear_bb_heap_on_spawn = true) :
    ∀ (fuel : Nat) (st st' : SState), PoolInv st →
    runLoop cfg orc fuel st = Except.ok st' → PoolInv st' := by
  intro fuel
  induction fuel with
  | zero =>
    intro st st' hinv h
    rw [runLoop] at h
    split at h
    · exact Except.noConfusion h
    · simp only [Except.ok.injEq] at h
      subst h
      exact hinv
  | succ f ih =>
    intro st st' hinv h
    rw [runLoop] at h
    split at h
    · split at h
      · exact Except.noConfusion h
      · next st2 hstep =>
        exact ih st2 st' (stepOnce_poolInv cfg orc st st2 hclear hinv hstep) h
    · simp only [Except.ok.injEq] at h
      subst h
      exact hinv

/-! Segment-selection infrastructure for the multipuzzle controller. -/

theorem mapInsert_any (mm : List (Nat × Nat)) (k v q : Nat)
    (h : (mm.any (fun p => p.1 = q)) = true) :
    ((mapInsert mm k v).any (fun p => p.1 = q)) = true := by
  unfold mapInsert
  split
  · rw [List.any_map]
    rcases List.any_eq_true.mp h with ⟨p, hp, hq⟩
    apply List.any_eq_true.mpr
    refine ⟨p, hp, ?_⟩
    simp only [Function.comp_apply]
    simp only [decide_eq_true_eq] at hq
    by_cases hk : p.1 = k
    · simp only [if_pos hk]
      simp only [decide_eq_true_eq]
      rw [← hk]
      exact hq
    · simp only [if_neg hk]
      simp only [decide_eq_true_eq]
      exact hq
  · rw [List.any_append, h]
    rfl

theorem mapInsert_any_self (mm : List (Nat × Nat)) (k v : Nat) :
    ((mapInsert mm k v).any (fun p => p.1 = k)) = true := by
  unfold mapInsert
  split
  · next h =>
    rw [List.any_map]
    rcases List.any_eq_true.mp h with ⟨p, hp, hq⟩
    apply List.any_eq_true.mpr
    refine ⟨p, hp, ?_⟩
    simp only [Function.comp_apply]
    simp only [decide_eq_true_eq] at hq
    simp only [if_pos hq]
    simp
  · rw [List.any_append]
    simp

theorem lockPiece_step (segid : Nat) (m : MPState) (pid : Nat) :
    (lockPiece segid m pid).segments = m.segments ∧
    (lockPiece segid m pid).numb_pieces = m.numb_pieces ∧
    (∀ x ∈ m.disallowed_pieces, x ∈ (lockPiece segid m pid).disallowed_pieces) ∧
    (∀ k, (m.piece_id_to_segment_map.any (fun p => p.1 = k)) = true →
      ((lockPiece segid m pid).piece_id_to_segment_map.any (fun p => p.1 = k)) = true) ∧
    pid ∈ (lockPiece segid m pid).disallowed_pieces ∧
    ((lockPiece segid m pid).piece_id_to_segment_map.any (fun p => p.1 = pid)) = true := by
  unfold lockPiece disallowPiecePlacement
  split
  · next hin =>
    exact ⟨rfl, rfl, fun x hx => hx, fun k hk => mapInsert_any _ _ _ _ hk, hin,
      mapInsert_any_self _ _ _⟩
  · refine ⟨rfl, rfl, fun x hx => List.mem_append_left _ hx,
      fun k hk => mapInsert_any _ _ _ _ hk, ?_, mapInsert_any_self _ _ _⟩
    exact List.mem_append_right _ (List.mem_singleton.mpr rfl)

theorem lockFold (segid : Nat) :
    ∀ (l : List Nat) (m : MPState),
    ((l.foldl (lockPiece segid) m).segments = m.segments) ∧
    ((l.foldl (lockPiece segid) m).numb_pieces = m.numb_pieces) ∧
    (∀ x ∈ m.disallowed_pieces, x ∈ (l.foldl (lockPiece segid) m).disallowed_pieces) ∧
    (∀ k, (m.piece_id_to_segment_map.any (fun p => p.1 = k)) = true →
      ((l.foldl (lockPiece segid) m).piece_id_to_segment_map.any (fun p => p.1 = k)) = true) ∧
    (∀ pid ∈ l, pid ∈ (l.foldl (lockPiece segid) m).disallowed_pieces ∧
      ((l.foldl (lockPiece segid) m).piece_id_to_segment_map.any (fun p => p.1 = pid)) = true) := by
  intro l
  induction l with
  | nil =>
    intro m
    exact ⟨rfl, rfl, fun x hx => hx, fun k hk => hk,
      fun pid hpid => absurd hpid (List.not_mem_nil pid)⟩
  | cons a t ih =>
    intro m
    obtain ⟨hseg, hnum, hdis, hkey, hgot⟩ := ih (lockPiece segid m a)
    obtain ⟨sseg, snum, sdis, skey, sgot, skey2⟩ := lockPiece_step segid m a
    simp only [List.foldl_cons]
    refine ⟨by rw [hseg, sseg], by rw [hnum, snum], ?_, ?_, ?_⟩
    · intro x hx
      exact hdis x (sdis x hx)
    · intro k hk
      exact hkey k (skey k hk)
    · intro pid hpid
      rcases List.mem_cons.mp hpid with rfl | hpid
      · exact ⟨hdis pid sgot, hkey pid skey2⟩
      · exact hgot pid hpid

theorem selectSegment_mono (m : MPState) (s' : Segment) :
    (∀ x ∈ m.segments, x ∈ (selectSegmentForSolver m s').segments) ∧
    ((selectSegmentForSolver m s').numb_pieces = m.numb_pieces) ∧
    (∀ x ∈ m.disallowed_pieces, x ∈ (selectSegmentForSolver m s').disallowed_pieces) ∧
    (∀ k, (m.piece_id_to_segment_map.any (fun p => p.1 = k)) = true →
      ((selectSegmentForSolver m s').piece_id_to_segment_map.any (fun p => p.1 = k)) = true) := by
  unfold selectSegmentForSolver
  obtain ⟨hseg, hnum, hdis, hkey, _⟩ :=
    lockFold (Segment.update_for_multipuzzle s' m.segments.length).id_number
      (Segment.update_for_multipuzzle s' m.segments.length).piece_ids
      { m with segments := m.segments ++ [Segment.update_for_multipuzzle s' m.segments.length] }
  refine ⟨?_, hnum, hdis, hkey⟩
  intro x hx
  rw [hseg]
  exact List.mem_append_left _ hx

theorem selectSegment_does (m : MPState) (s' : Segment) :
    (∃ newid, Segment.update_for_multipuzzle s' newid ∈ (selectSegmentForSolver m s').segments) ∧
    ∀ pid ∈ s'.piece_ids,
      pid ∈ (selectSegmentForSolver m s').disallowed_pieces ∧
      ((selectSegmentForSolver m s').piece_id_to_segment_map.any (fun p => p.1 = pid)) = true := by
  unfold selectSegmentForSolver
  obtain ⟨hseg, hnum, hdis, hkey, hgot⟩ :=
    lockFold (Segment.update_for_multipuzzle s' m.segments.length).id_number
      (Segment.update_for_multipuzzle s' m.segments.length).piece_ids
      { m with segments := m.segments ++ [Segment.update_for_multipuzzle s' m.segments.length] }
  constructor
  · refine ⟨m.segments.length, ?_⟩
    rw [hseg]
    exact List.mem_append_right _ (List.mem_singleton.mpr rfl)
  · intro pid hpid
    exact hgot pid hpid

theorem selectFold (c : Nat) :
    ∀ (segs : List Segment) (m : MPState) (seg : Segment),
    seg ∈ segs → c ≤ seg.numb_pieces →
    (∃ newid, Segment.update_for_multipuzzle seg newid ∈
      (segs.foldl (fun m segment =>
        if c ≤ segment.numb_pieces then selectSegmentForSolver m segment else m) m).segments) ∧
    ∀ pid ∈ seg.piece_ids,
      pid ∈ (segs.foldl (fun m segment =>
        if c ≤ segment.numb_pieces then selectSegmentForSolver m segment else m) m).disallowed_pieces ∧
      ((segs.foldl (fun m segment =>
        if c ≤ segment.numb_pieces then selectSegmentForSolver m segment else m)
          m).piece_id_to_segment_map.any (fun p => p.1 = pid)) = true := by
  intro segs
  induction segs with
  | nil =>
    intro m seg hmem _
    exact absurd hmem (List.not_mem_nil seg)
  | cons s0 rest ih =>
    intro m seg hmem hc
    simp only [List.foldl_cons]
    rcases List.mem_cons.mp hmem with rfl | hmem
    · rw [if_pos hc]
      obtain ⟨⟨newid, hin⟩, hlock⟩ := selectSegment_does m seg
      have hpres := foldl_preserves (fun s : MPState =>
        (Segment.update_for_multipuzzle seg newid ∈ s.segments) ∧
        ∀ pid ∈ seg.piece_ids, pid ∈ s.disallowed_pieces ∧
          ((s.piece_id_to_segment_map.any (fun p => p.1 = pid)) = true))
        (fun m segment =>
          if c ≤ segment.numb_pieces then selectSegmentForSolver m segment else m)
        ?_ rest (selectSegmentForSolver m seg) ⟨hin, hlock⟩
      · exact ⟨⟨newid, hpres.1⟩, hpres.2⟩
      · intro b a hb
        dsimp only
        split
        · obtain ⟨hmono1, _, hmono3, hmono4⟩ := selectSegment_mono b a
          exact ⟨hmono1 _ hb.1, fun pid hpid =>
            ⟨hmono3 pid (hb.2 pid hpid).1, hmono4 pid (hb.2 pid hpid).2⟩⟩
        · exact hb
    · split
      · exact ih (selectSegmentForSolver m s0) seg hmem hc
      · exact ih m seg hmem hc

/-! ### Claim theorems -/

/-- C2: In the main run loop, for every selected next placement, a new
board is spawned instead of placing the candidate if and only if the
number of boards created so far is below the configured maximum board
count and the candidate's mutual compatibility is below the configured
new-board threshold (spawning is observable as the board counter
incrementing); and the loop terminates exactly when zero pieces remain
unplaced: a completed loop always ends with zero unplaced pieces, and a
loop started with zero unplaced pieces stops immediately. -/
theorem C2_spawn_iff_and_loop_termination :
    (∀ (cfg : Config) (orc : Oracle) (st : SState) (np : NextPieceToPlace) (st1 st' : SState),
      findNextPiece cfg orc st = Except.ok (some np, st1) →
      stepOnce cfg orc st = Except.ok st' →
      (st'.numb_puzzles = st1.numb_puzzles + 1 ↔
        (st1.numb_puzzles < cfg.actual_numb_puzzles ∧
         np.mutual_compatibility < cfg.new_board_mutual_compatibility))) ∧
    (∀ (cfg : Config) (orc : Oracle) (fuel : Nat) (st st' : SState),
      runLoop cfg orc fuel st = Except.ok st' → st'.numb_unplaced_pieces = 0) ∧
    (∀ (cfg : Config) (orc : Oracle) (fuel : Nat) (st : SState),
      st.numb_unplaced_pieces = 0 → runLoop cfg orc fuel st = Except.ok st) := by
  refine ⟨?_, ?_, ?_⟩
  · intro cfg orc st np st1 st' hfind h
    have h2 : (match findNextPiece cfg orc st with
      | Except.error e => Except.error e
      | Except.ok (none, _) => Except.error (PyErr.attributeError "mutual_compatibility")
      | Except.ok (some next_piece, s1) =>
        if s1.numb_puzzles < cfg.actual_numb_puzzles ∧
            next_piece.mutual_compatibility < cfg.new_board_mutual_compatibility then
          Except.ok (spawnNewBoard cfg orc s1)
        else placeNormalPiece cfg s1 next_piece) = Except.ok st' := h
    clear h
    rw [hfind] at h2
    have h3 : (if st1.numb_puzzles < cfg.actual_numb_puzzles ∧
          np.mutual_compatibility < cfg.new_board_mutual_compatibility then
        (Except.ok (spawnNewBoard cfg orc st1) : Except PyErr SState)
      else placeNormalPiece cfg st1 np) = Except.ok st' := h2
    clear h2
    generalize hsp : spawnNewBoard cfg orc st1 = sSpawn at h3
    generalize hpl : placeNormalPiece cfg st1 np = rPlace at h3
    split at h3
    · next hc =>
      cases h3
      rw [← hsp, (spawnNewBoard_fields cfg orc st1).1]
      exact iff_of_true rfl hc
    · next hc =>
      rw [← hpl] at h3
      have hfld := placeNormalPiece_fields cfg st1 np st' h3
      rw [hfld.1]
      exact iff_of_false (by omega) hc
  · intro cfg orc fuel
    exact runLoop_ok_unplaced cfg orc fuel
  · intro cfg orc fuel st h0
    exact runLoop_done cfg orc fuel st h0

/-- Witness for C2 on the four-piece instance: the selected candidate is
placed (no spawn) because the board budget is already used, and the
board counter indeed does not increment. -/
theorem C2_witness :
    stepWa.numb_puzzles = st1W.numb_puzzles + 1 ↔
      (st1W.numb_puzzles < cfgW.actual_numb_puzzles ∧
       npW.mutual_compatibility < cfgW.new_board_mutual_compatibility) :=
  C2_spawn_iff_and_loop_termination.1 cfgW orcW seedStW npW st1W stepWa (by rfl) (by rfl)

/-- C1: On a max-heap, the non-empty-pool selection path pops entries in
order of highest mutual compatibility first: the returned candidate is
built from a valid entry (candidate unplaced, slot open), every entry
discarded before it was invalid and had at least the returned
compatibility, the remaining heap is a max-heap bounded by the returned
compatibility, and nothing else is lost (the input heap is a permutation
of discarded + returned + rest).  If every entry is stale the pop loop
exhausts the heap and surfaces `heappop`'s `IndexError`, which
`_find_next_piece` propagates as a fatal error whenever the pool is
non-empty. -/
theorem C1_heap_pop_selection :
    (∀ (cfg : Config) (st : SState) (heap : List HeapInfo) (np : NextPieceToPlace)
        (rest : List HeapInfo),
      IsMaxHeap heap = true →
      popNextPiece cfg st heap = Except.ok (np, rest) →
      IsMaxHeap rest = true ∧
      (∀ x ∈ rest, x.mutual_compatibility ≤ np.mutual_compatibility) ∧
      ∃ discarded eh, heap.Perm (discarded ++ eh :: rest) ∧
        (∀ d ∈ discarded,
          ¬(placedAt st d.bb_id = false ∧ isSlotOpen cfg st d.puzzle_id d.location = true) ∧
          np.mutual_compatibility ≤ d.mutual_compatibility) ∧
        placedAt st eh.bb_id = false ∧ isSlotOpen cfg st eh.puzzle_id eh.location = true ∧
        np = ⟨eh.puzzle_id, eh.location, eh.bb_id, eh.bb_side, eh.neighbor_id,
              eh.neighbor_side, eh.mutual_compatibility, true⟩) ∧
    (∀ (cfg : Config) (st : SState) (heap : List HeapInfo),
      (∀ x ∈ heap,
        ¬(placedAt st x.bb_id = false ∧ isSlotOpen cfg st x.puzzle_id x.location = true)) →
      popNextPiece cfg st heap = Except.error PyErr.indexError) ∧
    (∀ (cfg : Config) (orc : Oracle) (st : SState),
      0 < st.best_buddies_pool.length →
      (∀ x ∈ st.best_buddy_open_slot_heap,
        ¬(placedAt st x.bb_id = false ∧ isSlotOpen cfg st x.puzzle_id x.location = true)) →
      findNextPiece cfg orc st = Except.error PyErr.indexError) := by
  refine ⟨?_, ?_, ?_⟩
  · intro cfg st heap np rest hh h
    exact popNextPiece_char cfg st heap.length heap le_rfl np rest hh h
  · intro cfg st heap hall
    exact popNextPiece_exhausted cfg st heap.length heap le_rfl hall
  · intro cfg orc st hpool hall
    unfold findNextPiece
    rw [if_pos hpool]
    by_cases hck : checkBestBuddyHeapHousecleaning cfg st = true
    · rw [if_pos hck]
      dsimp only
      have hfil : st.best_buddy_open_slot_heap.filter (heapEntryStillValid cfg st) = [] := by
        rw [List.filter_eq_nil]
        intro a ha
        intro hq
        rw [heapEntryStillValid, Bool.and_eq_true, Bool.not_eq_true'] at hq
        exact hall a ha ⟨hq.2, hq.1⟩
      have hheap : (cleanBestBuddyHeap cfg st).best_buddy_open_slot_heap = [] := by
        show heapify (st.best_buddy_open_slot_heap.filter (heapEntryStillValid cfg st)) = []
        rw [hfil]
        rfl
      have hp : popNextPiece cfg (cleanBestBuddyHeap cfg st)
          (cleanBestBuddyHeap cfg st).best_buddy_open_slot_heap
          = Except.error PyErr.indexError := by
        rw [hheap, popNextPiece]
        rfl
      rw [hp]
    · rw [if_neg hck]
      dsimp only
      have hp : popNextPiece cfg st st.best_buddy_open_slot_heap
          = Except.error PyErr.indexError :=
        popNextPiece_exhausted cfg st st.best_buddy_open_slot_heap.length
          st.best_buddy_open_slot_heap le_rfl hall
      rw [hp]

theorem sdA : siftdownAux [e1W, e2W] 0 1 e2W = [e1W, e2W] := by
  rw [siftdownAux, dif_pos (by norm_num : (0:Nat) < 1), if_neg (by decide)]
  rfl

theorem suB : siftupAux [e1W, e1W] 0 1 e2W 2 = [e1W, e2W] := by
  rw [siftupAux, dif_neg (by norm_num : ¬(2 * 1 + 1 < 2))]
  show siftdownAux [e1W, e2W] 0 1 e2W = [e1W, e2W]
  exact sdA

theorem suC : siftupAux [e2W, e1W] 0 0 e2W 2 = [e1W, e2W] := by
  rw [siftupAux, dif_pos (by norm_num : 2 * 0 + 1 < 2), dif_neg (by decide)]
  show siftupAux [e1W, e1W] 0 (2 * 0 + 1) e2W 2 = [e1W, e2W]
  exact suB

theorem hpD : heappop hpW = Except.ok (⟨0, Side.right, 1, Side.left, 0, (1, 1), 9⟩, [e1W, e2W]) := by
  show heappop [⟨0, Side.right, 1, Side.left, 0, (1, 1), 9⟩, e1W, e2W] = _
  rw [heappop]
  rw [if_neg (by decide)]
  show Except.ok ((⟨0, Side.right, 1, Side.left, 0, (1, 1), 9⟩ : HeapInfo), siftupAux [e2W, e1W] 0 0 e2W 2) = _
  rw [suC]

theorem sdF : siftdownAux [e2W] 0 0 e2W = [e2W] := by
  rw [siftdownAux, dif_neg (by norm_num : ¬((0:Nat) < 0))]
  rfl

theorem suG : siftupAux [e2W] 0 0 e2W 1 = [e2W] := by
  rw [siftupAux, dif_neg (by norm_num : ¬(2 * 0 + 1 < 1))]
  show siftdownAux [e2W] 0 0 e2W = [e2W]
  exact sdF

theorem hpH : heappop [e1W, e2W] = Except.ok (e1W, [e2W]) := by
  rw [heappop]
  rw [if_neg (by decide)]
  show Except.ok (e1W, siftupAux [e2W] 0 0 e2W 1) = _
  rw [suG]

theorem popHpW : popNextPiece cfgW S1W hpW = Except.ok (npHW, restHW) := by
  rw [popNextPiece]
  rw [hpD]
  dsimp only
  rw [if_neg (by decide)]
  rw [popNextPiece]
  rw [hpH]
  dsimp only
  rw [if_pos (by decide)]
  rfl

/-- Witness for C1: on a concrete three-entry max-heap at `S1W` the
stale top entry (compatibility 9) is discarded and the valid entry with
compatibility 5 is returned, bounding the remaining heap. -/
theorem C1_witness :
    IsMaxHeap hpW = true ∧
    popNextPiece cfgW S1W hpW = Except.ok (npHW, restHW) ∧
    IsMaxHeap restHW = true ∧
    ∀ x ∈ restHW, x.mutual_compatibility ≤ npHW.mutual_compatibility := by
  have h := C1_heap_pop_selection.1 cfgW S1W hpW npHW restHW (by decide) popHpW
  exact ⟨by decide, popHpW, h.1, h.2.1⟩

/-- C3 (amended): When the best-buddy pool is empty, next-piece
selection performs a global recompute (the returned state is the
recomputed one) and returns, over all unplaced piece ids, all open
slots, and all valid side pairings, a pairing with maximum mutual
compatibility over all such candidates, with ties broken by first-found
in a fixed enumeration order of unplaced pieces outermost, then open
slots, then sides (the source's scan order; the spec's stated
slot-major order differs, see `C3_counterexample`); `none` is returned
exactly when there is no candidate at all. -/
theorem C3_empty_pool_fallback_selection (cfg : Config) (orc : Oracle) (st : SState)
    (hpool : st.best_buddies_pool.length = 0) (res : Option NextPieceToPlace) (st1 : SState)
    (hrun : findNextPiece cfg orc st = Except.ok (res, st1)) :
    st1 = recomputedState orc st ∧
    (res = none → pieceMajorCandidates cfg st1 (unplacedIds st1) = []) ∧
    ∀ np, res = some np →
      np ∈ pieceMajorCandidates cfg st1 (unplacedIds st1) ∧
      (∀ c ∈ pieceMajorCandidates cfg st1 (unplacedIds st1),
        c.mutual_compatibility ≤ np.mutual_compatibility) ∧
      ∃ L₁ L₂, pieceMajorCandidates cfg st1 (unplacedIds st1) = L₁ ++ np :: L₂ ∧
        ∀ c ∈ L₁, c.mutual_compatibility < np.mutual_compatibility := by
  unfold findNextPiece at hrun
  rw [if_neg (by omega : ¬ 0 < st.best_buddies_pool.length)] at hrun
  simp only [Except.ok.injEq, Prod.mk.injEq] at hrun
  obtain ⟨hres, hst1⟩ := hrun
  subst hst1
  have hfold := getNextPieceFromPool_eq_fold cfg (recomputedState orc st)
    (unplacedIds (recomputedState orc st))
  refine ⟨rfl, ?_, ?_⟩
  · intro hnone
    exact (foldl_foldBest_none_char _).1.mp (by rw [← hfold, hres, hnone])
  · intro np hnp
    exact (foldl_foldBest_none_char _).2 np (by rw [← hfold, hres, hnp])

/-- Witness for C3 on the tie-breaking instance: the pool at `S1C` is
empty, selection returns piece 2 into cell (1,1), and that candidate is
a member of the scan's candidate list bounding every candidate's
mutual compatibility. -/
theorem C3_witness :
    S1C.best_buddies_pool.length = 0 ∧
    findNextPiece cfgW orcC S1C = Except.ok (some npC, S1C) ∧
    npC ∈ pieceMajorCandidates cfgW S1C (unplacedIds S1C) ∧
    ∀ c ∈ pieceMajorCandidates cfgW S1C (unplacedIds S1C),
      c.mutual_compatibility ≤ npC.mutual_compatibility := by
  have h := (C3_empty_pool_fallback_selection cfgW orcC S1C rfl (some npC) S1C
    (by rfl)).2.2 npC rfl
  exact ⟨rfl, by rfl, h.1, h.2.1⟩

/-- Counterexample to C3 as stated: at the reachable state `S1C` (pool
empty, pieces 2 and 3 unplaced) two candidates tie at the maximal
mutual compatibility 5; the source's piece-major scan selects piece 2
into cell (1,1), while the spec's slot-major first-found rule selects
piece 3 into cell (2,1) — a different piece and a different slot. -/
theorem C3_counterexample :
    seededState cfgW orcC piecesW = S0C ∧
    stepOnce cfgW orcC S0C = Except.ok S1C ∧
    S1C.best_buddies_pool = [] ∧
    unplacedIds S1C = [2, 3] ∧
    findNextPiece cfgW orcC S1C = Except.ok (some npC, S1C) ∧
    firstArgmax (slotMajorCandidates cfgW S1C (unplacedIds S1C)) = some npD ∧
    npD ∈ pieceMajorCandidates cfgW S1C (unplacedIds S1C) ∧
    npD.mutual_compatibility = npC.mutual_compatibility ∧
    npC.next_piece_id = 2 ∧ npC.open_slot_location = (1, 1) ∧
    npD.next_piece_id = 3 ∧ npD.open_slot_location = (2, 1) := by
  refine ⟨by rfl, by rfl, rfl, by rfl, by rfl, by rfl, by decide, rfl, rfl, rfl, rfl, rfl⟩

/-- C5 (amended): At every point during a run (after the initial
seeding, after every loop step, and hence after any prefix of the
placement loop), every entry in the open-slot list names an existing
board; and an entry is appended only when, at insertion time, the full
open-slot check accepts its location — the cell reads unoccupied in the
board matrix under `numpy` index semantics and the configured
dimension bounds accept it.  The stronger per-state content of the
claim fails (see `C5_counterexample`): entries are not unique per
(board id, location) — a cell adjacent to several placed pieces is
listed once per neighbor; an empty in-bounds cell need not be listed,
since the check runs only at insertion; and a listed cell can later
hold a placed piece, because a placement at a negative location
aliases an in-bounds cell under `numpy` wraparound while entry removal
compares literal locations. -/
theorem C5_open_slot_list_invariant :
    (∀ (cfg : Config) (orc : Oracle) (pieces : List Piece),
      SlotInv (seededState cfg orc pieces)) ∧
    (∀ (cfg : Config) (orc : Oracle) (st st' : SState),
      SlotInv st → stepOnce cfg orc st = Except.ok st' → SlotInv st') ∧
    (∀ (cfg : Config) (orc : Oracle) (fuel : Nat) (st st' : SState),
      SlotInv st → runLoop cfg orc fuel st = Except.ok st' → SlotInv st') ∧
    (∀ (cfg : Config) (st : SState) (p : Piece),
      ∀ e ∈ (updateOpenSlots cfg st p).open_locations,
        e ∈ st.open_locations ∨ (e.puzzle_id = p.puzzle_id.getD 0 ∧
          isSlotOpen cfg st e.puzzle_id e.location = true)) :=
  ⟨seededState_slotInv,
   fun cfg orc st st' hinv h => stepOnce_slotInv cfg orc st st' hinv h,
   fun cfg orc fuel st st' hinv h => runLoop_slotInv cfg orc fuel st st' hinv h,
   fun cfg st p => (updateOpenSlots_char cfg st p).2.2.2.1⟩

/-- Witness for C5 on the four-piece instance: the invariant holds at
the seeded state and is carried across the first loop step. -/
theorem C5_witness :
    SlotInv (seededState cfgW orcW piecesW) ∧ SlotInv S1W :=
  ⟨C5_open_slot_list_invariant.1 cfgW orcW piecesW,
   C5_open_slot_list_invariant.2.1 cfgW orcW S0W S1W (by unfold SlotInv; decide) (by rfl)⟩

/-- Counterexample to C5 as stated, on two reachable four-piece runs.
First run (`S0W`–`S2W`): after two loop steps the open-slot list holds
two entries for cell (1,1) of board 0 (one per adjacent placed
neighbor), refuting the claimed uniqueness, and the unoccupied
in-bounds cell (0,0) appears in no entry, refuting the claimed "if"
direction.  Second run (`SV0`–`SV3`, placing up a vertical line): the
final placement at (-1,2) aliases the in-bounds cell (3,2) under
`numpy` negative-index wraparound while `_remove_open_slot` compares
literal locations, so the listed slot (3,2) remains although its cell
holds piece 3 — refuting the claimed "only if" direction (a listed,
in-bounds location with a placed piece).  The final conjunct checks
that every placed location and every neighboring cell read along the
second run is a valid `numpy` index of the 4-by-4 matrix, so the
source raises no `IndexError` there and the model follows it
exactly. -/
theorem C5_counterexample :
    seededState cfgW orcW piecesW = S0W ∧
    stepOnce cfgW orcW S0W = Except.ok S1W ∧
    stepOnce cfgW orcW S1W = Except.ok S2W ∧
    (S2W.open_locations.map (fun e => (e.puzzle_id, e.location))).count
      (0, ((1 : Int), (1 : Int))) = 2 ∧
    occAt S2W 0 ((0 : Int), (0 : Int)) = UNPLACED_PIECE_ID ∧
    checkBoardDimensions cfgW S2W 0 ((0 : Int), (0 : Int)) = true ∧
    (0, ((0 : Int), (0 : Int))) ∉
      S2W.open_locations.map (fun e => (e.puzzle_id, e.location)) ∧
    seededState cfgW orcV piecesW = SV0 ∧
    stepOnce cfgW orcV SV0 = Except.ok SV1 ∧
    stepOnce cfgW orcV SV1 = Except.ok SV2 ∧
    stepOnce cfgW orcV SV2 = Except.ok SV3 ∧
    (0, ((3 : Int), (2 : Int))) ∈
      SV3.open_locations.map (fun e => (e.puzzle_id, e.location)) ∧
    occAt SV3 0 ((3 : Int), (2 : Int)) = (3 : Int) ∧
    checkBoardDimensions cfgW SV3 0 ((3 : Int), (2 : Int)) = true ∧
    (SV3.pieces.all (fun p => npInBounds 4 p.location &&
      (neighborLocationsAndSides p.location).all (fun ls => npInBounds 4 ls.1))) = true := by
  refine ⟨by rfl, by rfl, by rfl, by decide, by rfl, by rfl, by decide,
    by rfl, by rfl, by rfl, by rfl, by decide, by rfl, by rfl, by decide⟩

/-- C6: Heap compaction keeps, as a multiset, exactly the entries whose
target slot is still open and whose candidate piece is still unplaced —
in particular it never removes such an entry — and compacting twice
with no intervening placement yields the same heap contents (again as a
multiset; entries with tied compatibilities may be reordered) as
compacting once. -/
theorem C6_heap_compaction (cfg : Config) (st : SState) :
    ((cleanBestBuddyHeap cfg st).best_buddy_open_slot_heap).Perm
      (st.best_buddy_open_slot_heap.filter (heapEntryStillValid cfg st)) ∧
    (∀ x ∈ st.best_buddy_open_slot_heap, heapEntryStillValid cfg st x = true →
      x ∈ (cleanBestBuddyHeap cfg st).best_buddy_open_slot_heap) ∧
    ((cleanBestBuddyHeap cfg (cleanBestBuddyHeap cfg st)).best_buddy_open_slot_heap).Perm
      ((cleanBestBuddyHeap cfg st).best_buddy_open_slot_heap) := by
  have h1 : ((cleanBestBuddyHeap cfg st).best_buddy_open_slot_heap).Perm
      (st.best_buddy_open_slot_heap.filter (heapEntryStillValid cfg st)) :=
    heapify_perm _
  refine ⟨h1, ?_, ?_⟩
  · intro x hx hv
    exact h1.mem_iff.mpr (List.mem_filter.mpr ⟨hx, hv⟩)
  · have hv : heapEntryStillValid cfg (cleanBestBuddyHeap cfg st)
        = heapEntryStillValid cfg st := rfl
    have h2 : ((cleanBestBuddyHeap cfg (cleanBestBuddyHeap cfg st)).best_buddy_open_slot_heap).Perm
        ((cleanBestBuddyHeap cfg st).best_buddy_open_slot_heap.filter
          (heapEntryStillValid cfg st)) := by
      have := heapify_perm ((cleanBestBuddyHeap cfg st).best_buddy_open_slot_heap.filter
        (heapEntryStillValid cfg (cleanBestBuddyHeap cfg st)))
      rw [hv] at this
      exact this
    have h3 : ((cleanBestBuddyHeap cfg st).best_buddy_open_slot_heap.filter
        (heapEntryStillValid cfg st)).Perm
        ((st.best_buddy_open_slot_heap.filter (heapEntryStillValid cfg st)).filter
          (heapEntryStillValid cfg st)) := h1.filter _
    have h4 : (st.best_buddy_open_slot_heap.filter (heapEntryStillValid cfg st)).filter
        (heapEntryStillValid cfg st)
        = st.best_buddy_open_slot_heap.filter (heapEntryStillValid cfg st) := by
      rw [List.filter_filter]
      simp
    rw [h4] at h3
    exact (h2.trans h3).trans h1.symm

/-- Witness for C6: at a state with one valid and one stale heap entry,
the valid entry survives compaction and double compaction permutes
single compaction. -/
theorem C6_witness :
    e1W ∈ stHW.best_buddy_open_slot_heap ∧ heapEntryStillValid cfgW stHW e1W = true ∧
    e1W ∈ (cleanBestBuddyHeap cfgW stHW).best_buddy_open_slot_heap ∧
    ((cleanBestBuddyHeap cfgW (cleanBestBuddyHeap cfgW stHW)).best_buddy_open_slot_heap).Perm
      ((cleanBestBuddyHeap cfgW stHW).best_buddy_open_slot_heap) :=
  ⟨by decide, by rfl,
   (C6_heap_compaction cfgW stHW).2.1 e1W (by decide) (by rfl),
   (C6_heap_compaction cfgW stHW).2.2⟩

/-- C7: Throughout a run (at the seeded state, across every loop step,
and across the whole loop, under the default clear-heap-on-spawn flag),
a piece id appears in the best-buddy pool at most once and no pooled
piece is marked placed; moreover pooling a piece's best buddies skips
ids that are already placed or already pooled (the pool stays
duplicate-free and all-unplaced). -/
theorem C7_pool_invariant :
    (∀ (cfg : Config) (orc : Oracle) (pieces : List Piece),
      PoolInv (seededState cfg orc pieces)) ∧
    (∀ (cfg : Config) (orc : Oracle) (st st' : SState),
      cfg.clear_bb_heap_on_spawn = true → PoolInv st →
      stepOnce cfg orc st = Except.ok st' → PoolInv st') ∧
    (∀ (cfg : Config) (orc : Oracle) (fuel : Nat) (st st' : SState),
      cfg.clear_bb_heap_on_spawn = true → PoolInv st →
      runLoop cfg orc fuel st = Except.ok st' → PoolInv st') ∧
    (∀ (cfg : Config) (st : SState) (piece_id : Nat), PoolInv st →
      (addBestBuddiesToPool cfg st piece_id).best_buddies_pool.Nodup ∧
      ∀ pid ∈ (addBestBuddiesToPool cfg st piece_id).best_buddies_pool,
        placedAt (addBestBuddiesToPool cfg st piece_id) pid = false) := by
  refine ⟨seededState_poolInv,
    fun cfg orc st st' hclear hinv h => stepOnce_poolInv cfg orc st st' hclear hinv h,
    fun cfg orc fuel st st' hclear hinv h => runLoop_poolInv cfg orc hclear fuel st st' hinv h,
    ?_⟩
  intro cfg st piece_id hinv
  obtain ⟨ha1, ha2, ha3⟩ := addBestBuddiesToPool_pool cfg st piece_id hinv.1 hinv.2
  refine ⟨ha2, ?_⟩
  intro pid hpid
  rw [placedAt_congr _ _ ha1]
  exact ha3 pid hpid

/-- Witness for C7 on the four-piece instance: the pool invariant holds
after seeding and is carried across the first loop step. -/
theorem C7_witness :
    PoolInv (seededState cfgW orcW piecesW) ∧ PoolInv S1W :=
  ⟨C7_pool_invariant.1 cfgW orcW piecesW,
   C7_pool_invariant.2.1 cfgW orcW S0W S1W rfl (by unfold PoolInv; decide) (by rfl)⟩

/-- C9: In each segmentation round, every solved segment whose piece
count is at least half the round's maximum segment size is selected: it
is stamped with a controller-level segment id and appended to the
controller's segment list, each of its pieces is locked out of future
placement, and the piece-to-segment mapping records each piece.  The
returned round maximum is the largest solved-segment size, the round
loop stops after a round exactly when that maximum is below the minimum
threshold (10) or fewer than 10 pieces remain outside the mapping, and
`_find_initial_segments` finally restores placement eligibility for all
pieces. -/
theorem C9_segmentation_rounds (segmenter : Nat → List Segment) :
    (∀ (mp : MPState) (segs : List Segment) (seg : Segment),
      seg ∈ segs →
      ((segs.map Segment.numb_pieces).maximum?).getD 0 ≤ 2 * seg.numb_pieces →
      (∃ newid, Segment.update_for_multipuzzle seg newid ∈
        (processSolvedSegments mp segs).1.segments) ∧
      ∀ pid ∈ seg.piece_ids,
        pid ∈ (processSolvedSegments mp segs).1.disallowed_pieces ∧
        ((processSolvedSegments mp segs).1.piece_id_to_segment_map.any
          (fun p => p.1 = pid)) = true) ∧
    (∀ (mp : MPState) (segs : List Segment),
      (processSolvedSegments mp segs).2 =
        ((segs.map Segment.numb_pieces).maximum?).getD 0) ∧
    (∀ (mp : MPState) (fuel : Nat),
      findInitialSegmentsLoop segmenter (fuel + 1) mp =
        (let mp1 := { mp with numb_segmentation_rounds := mp.numb_segmentation_rounds + 1 }
         let r := processSolvedSegments mp1 (segmenter mp1.numb_segmentation_rounds)
         if r.2 < MINIMUM_SEGMENT_SIZE ∨
             r.1.numb_pieces - r.1.piece_id_to_segment_map.length < MINIMUM_SEGMENT_SIZE
         then r.1
         else findInitialSegmentsLoop segmenter fuel r.1)) ∧
    (∀ (fuel : Nat) (mp : MPState),
      (findInitialSegments segmenter fuel mp).disallowed_pieces = []) := by
  refine ⟨?_, fun mp segs => rfl, fun mp fuel => rfl, fun fuel mp => rfl⟩
  intro mp segs seg hmem hhalf
  have hc : ((segs.map Segment.numb_pieces).maximum?).getD 0 / 2 ≤ seg.numb_pieces := by
    omega
  exact selectFold (((segs.map Segment.numb_pieces).maximum?).getD 0 / 2) segs mp seg hmem hc

/-- Witness for C9: with a 12-piece and a 6-piece solved segment the
smaller one meets the half-of-maximum rule, gets a controller id, and
its piece 12 is locked and mapped. -/
theorem C9_witness :
    segBW ∈ [segAW, segBW] ∧
    (([segAW, segBW].map Segment.numb_pieces).maximum?).getD 0 ≤ 2 * segBW.numb_pieces ∧
    (∃ newid, Segment.update_for_multipuzzle segBW newid ∈
      (processSolvedSegments mpW [segAW, segBW]).1.segments) ∧
    12 ∈ segBW.piece_ids ∧
    12 ∈ (processSolvedSegments mpW [segAW, segBW]).1.disallowed_pieces ∧
    ((processSolvedSegments mpW [segAW, segBW]).1.piece_id_to_segment_map.any
      (fun p => p.1 = 12)) = true := by
  have h := (C9_segmentation_rounds (fun _ => [])).1 mpW [segAW, segBW] segBW
    (by decide) (by decide)
  exact ⟨by decide, by decide, h.1, by decide, (h.2 12 (by decide)).1, (h.2 12 (by decide)).2⟩

/-- C4: After a run in which all pieces have been placed (under the
default flags, which enable the post-run block and the assertion
checks), every board's open best-buddy count is 0 and the sum of
open+correct+wrong best-buddy counts over all boards equals the
oracle-reported total best-buddy count for the dataset; and a state
violating either condition makes the post-run check fail with a fatal
`AssertionError` instead of returning. -/
theorem C4_post_run_conservation (cfg : Config) (orc : Oracle) (pieces : List Piece)
    (st' : SState)
    (hprint : cfg.print_progress = true)
    (hassert : cfg.perform_assertion_check = true)
    (h : runSolver cfg orc pieces = Except.ok st') :
    (∀ acc ∈ st'.best_buddy_accuracy, acc.open_bb.length = 0) ∧
    getTotalBestBuddyCount st' = st'.ods.total_best_buddy_count ∧
    (∀ st : SState, st.numb_unplaced_pieces = 0 →
      ¬ ((∀ acc ∈ st.best_buddy_accuracy, acc.open_bb.length = 0) ∧
         getTotalBestBuddyCount st = st.ods.total_best_buddy_count) →
      finalChecks cfg st = Except.error PyErr.assertionError) := by
  have hfinal : ∀ st : SState, finalChecks cfg st = Except.ok st' →
      st.numb_unplaced_pieces = 0 →
      ((∀ acc ∈ st'.best_buddy_accuracy, acc.open_bb.length = 0) ∧
       getTotalBestBuddyCount st' = st'.ods.total_best_buddy_count) := by
    intro st hfc h0
    unfold finalChecks at hfc
    rw [hprint] at hfc
    simp only [if_true] at hfc
    rw [if_pos h0] at hfc
    rw [hassert] at hfc
    simp only [if_true] at hfc
    split at hfc
    · next hA =>
      split at hfc
      · next hB =>
        cases hfc
        constructor
        · intro acc hacc
          have hA' := List.all_eq_true.mp hA
          have := hA' acc hacc
          simpa using this
        · exact hB
      · cases hfc
    · cases hfc
  have hmain : (∀ acc ∈ st'.best_buddy_accuracy, acc.open_bb.length = 0) ∧
      getTotalBestBuddyCount st' = st'.ods.total_best_buddy_count := by
    have h2 : (if 1 < cfg.actual_numb_puzzles ∧ cfg.fixed_puzzle_dimensions.isSome then
        (Except.error PyErr.valueError : Except PyErr SState)
      else
        match runLoop cfg orc (seededState cfg orc pieces).numb_unplaced_pieces
            (seededState cfg orc pieces) with
        | Except.error e => Except.error e
        | Except.ok st3 => finalChecks cfg st3) = Except.ok st' := h
    clear h
    generalize hseed : seededState cfg orc pieces = stSeed at h2
    split at h2
    · cases h2
    · generalize hloop : runLoop cfg orc stSeed.numb_unplaced_pieces stSeed = rLoop at h2
      cases rLoop with
      | error e => cases h2
      | ok st3 =>
        have h3 : finalChecks cfg st3 = Except.ok st' := h2
        have h0 : st3.numb_unplaced_pieces = 0 := runLoop_ok_unplaced _ _ _ _ _ hloop
        exact hfinal st3 h3 h0
  refine ⟨hmain.1, hmain.2, ?_⟩
  intro st h0 hviol
  unfold finalChecks
  rw [hprint]
  simp only [if_true]
  rw [if_pos h0, hassert]
  simp only [if_true]
  by_cases hA : (initializeBestBuddyPoolAndHeap st).best_buddy_accuracy.all
      (fun a => decide (a.open_bb.length = 0)) = true
  · rw [if_pos hA]
    by_cases hB : getTotalBestBuddyCount (initializeBestBuddyPoolAndHeap st) =
        (initializeBestBuddyPoolAndHeap st).ods.total_best_buddy_count
    · exfalso
      apply hviol
      constructor
      · intro acc hacc
        have hA' := List.all_eq_true.mp hA
        have := hA' acc hacc
        simpa using this
      · exact hB
    · rw [if_neg hB]
  · rw [if_neg hA]


/-- Witness for C4: the completed four-piece run satisfies both
conservation conditions. -/
theorem C4_witness :
    S4W.best_buddy_accuracy.all (fun a => decide (a.open_bb.length = 0)) = true ∧
    getTotalBestBuddyCount S4W = S4W.ods.total_best_buddy_count := by
  have h := C4_post_run_conservation cfgW orcW piecesW S4W rfl rfl runSolverW_eq
  refine ⟨?_, h.2.1⟩
  simp only [List.all_eq_true, decide_eq_true_eq]
  exact h.1

/-- C8: Two runs with identical piece input, identical oracle responses
and identical configuration produce identical board assignments,
rotations and locations for every piece; and heap ordering for a fixed
insertion sequence is deterministic (the embedding is a pure function of
its inputs: the source is single-threaded and its dict/heap iteration
orders are deterministic functions of the insertion history). -/
theorem C8_determinism :
    (∀ (cfg₁ cfg₂ : Config) (orc₁ orc₂ : Oracle) (p₁ p₂ : List Piece),
      cfg₁ = cfg₂ → orc₁ = orc₂ → p₁ = p₂ →
      solverObservables (runSolver cfg₁ orc₁ p₁) = solverObservables (runSolver cfg₂ orc₂ p₂)) ∧
    (∀ e₁ e₂ : List HeapInfo, e₁ = e₂ → pushSequence e₁ = pushSequence e₂) := by
  constructor
  · intro cfg₁ cfg₂ orc₁ orc₂ p₁ p₂ hc ho hp
    rw [hc, ho, hp]
  · intro e₁ e₂ he
    rw [he]

/-- Witness for C8: the four-piece run compared with itself. -/
theorem C8_witness :
    solverObservables (runSolver cfgW orcW piecesW) =
      solverObservables (runSolver cfgW orcW piecesW) :=
  C8_determinism.1 cfgW cfgW orcW orcW piecesW piecesW rfl rfl rfl

/-- C10: For every piece count, `MultiPuzzleSolver.run()` fails before
completing a single segmentation round: the `PaikinTalSolver(pieces,
distance_function, puzzle_type=puzzle_type)` call binds the piece list
to the solver's `numb_puzzles` (board count) parameter and leaves the
required `distance_function` parameter unbound (a `TypeError`), and the
round loop's `allow_placement_of_all_pieces`, `run_single_puzzle_solver`
and `segment` calls name methods the placement engine does not define. -/
theorem C10_multipuzzle_run_fails :
    (∀ numb_pieces : Nat, multiPuzzleSolverRun numb_pieces =
      Except.error (PyErr.typeError "takes at least 4 arguments: missing distance_function")) ∧
    ("allow_placement_of_all_pieces" ∉ paikinTalSolverMethods ∧
     "run_single_puzzle_solver" ∉ paikinTalSolverMethods ∧
     "segment" ∉ paikinTalSolverMethods) ∧
    (∀ (pname : String) (req : Bool) (ps : List (String × Bool)) (a : String)
       (args kws : List String) (r : List (String × String)),
      bindCall ((pname, req) :: ps) (a :: args) kws = Except.ok r →
      r.head? = some (pname, a)) ∧
    paikinTalInitParams.head? = some ("numb_puzzles", true) := by
  refine ⟨fun _ => rfl, by decide, ?_, rfl⟩
  intro pname req ps a args kws r h
  rw [bindCall] at h
  cases hb : bindCall ps args kws with
  | error e => rw [hb] at h; simp [Except.map] at h
  | ok rest =>
    rw [hb] at h
    simp only [Except.map] at h
    cases h
    rfl

end PT
